import Mathlib

/-! ttrack: the PWP3D pose-refinement core and the camera unprojection cache

A shallow embedding of the parts of `src/track/pwp3d/pwp3d.cpp`, `src/utils/camera.cpp`,
`src/detect/multiclass_randomforest.cpp`, `src/track/stt/monocular_tool_tracker.cpp` and
`include/track/tracker.hpp` that the specification talks about, followed by the theorems
that settle the specification's statements against that code.

Conventions of the embedding

* A finite C++ `float`/`double` is a rational (`ℚ`).  Where a result of the code depends on
  rounding (the threshold `0.02*rows*cols` of `ClassifyFrame`, the `float` accumulators of
  `MonocularToolTracker`) every operation is rounded to the format, nearest value with
  ties to even (`roundFloat32`, `roundDouble`); elsewhere the arithmetic is exact.  Overflow
  is outside the model.  Results that IEEE arithmetic makes infinite or NaN (a division by
  zero) are kept apart as `FloatVal.nonfin`.
* `cv::Mat` is a row-major buffer with its dimensions; a matrix without storage
  (`data == nullptr`) has the empty buffer.
* Calls into OpenCV / OpenGL and helpers whose bodies live in headers that are not part of
  the sources at hand (`HeavisideFunction`, `DeltaFunction`, `GL_FAR`, `EPS`,
  `cv::distanceTransform`, the renderer) are parameters of the embedded functions.
-/

set_option autoImplicit false
set_option linter.unusedVariables false

namespace ttrk

/-! ## Floating point values -/

/-- A value of type `float`: either a finite number, taken exactly, or a non-finite one
(plus or minus infinity, or NaN). -/
inductive FloatVal where
  | fin (q : ℚ)
  | nonfin
  deriving DecidableEq

namespace FloatVal

/-- Float addition: a non-finite operand gives a non-finite sum. -/
def add : FloatVal → FloatVal → FloatVal
  | fin a, fin b => fin (a + b)
  | _, _ => nonfin

/-- Float multiplication: a non-finite operand gives a non-finite product
(also `0 * inf`, which is NaN). -/
def mul : FloatVal → FloatVal → FloatVal
  | fin a, fin b => fin (a * b)
  | _, _ => nonfin

instance : Add FloatVal := ⟨add⟩

instance : Mul FloatVal := ⟨mul⟩

end FloatVal

/-- Float division `a / b` of two finite values: IEEE division by zero yields an infinity
(`a ≠ 0`) or NaN (`a = 0`), both non-finite; otherwise the quotient. -/
def fdiv (a b : ℚ) : FloatVal :=
  if b = 0 then FloatVal.nonfin else FloatVal.fin (a / b)

/-- C-style conversion of a float to an integer: truncation toward zero. -/
def truncToInt (q : ℚ) : ℤ :=
  if 0 ≤ q then ⌊q⌋ else ⌈q⌉

/-! ## Rounding to a binary floating-point format -/

/-- Rounding of a rational to the nearest integer; a tie goes to the even neighbour. -/
def roundHalfEven (q : ℚ) : ℤ :=
  let f : ℤ := ⌊q⌋
  if q - f < 1 / 2 then f
  else if 1 / 2 < q - f then f + 1
  else if f % 2 = 0 then f else f + 1

/-- The position of the leading binary digit of `n` (0 for `n < 2`), found by halving `n` at
most `fuel` times. -/
def log2Nat : Nat → Nat → Nat
  | 0, _ => 0
  | fuel + 1, n => if n < 2 then 0 else log2Nat fuel (n / 2) + 1

/-- The binary exponent of a non-zero rational: the `k` with `2 ^ k ≤ |q| < 2 ^ (k + 1)`.
The difference of the leading digit positions of numerator and denominator is `k` or
`k + 1`; the comparison picks the right one. -/
def floorLog2 (q : ℚ) : ℤ :=
  let k : ℤ := (log2Nat q.num.natAbs q.num.natAbs : ℤ) - (log2Nat q.den q.den : ℤ)
  if (2 : ℚ) ^ k ≤ |q| then k else k - 1

/-- IEEE 754 rounding of the exact result `q` of an operation to the binary format with `p`
significant digits whose smallest quantum is `2 ^ emin`: the nearest multiple of the quantum
`2 ^ e` of the binade of `q`, ties to even.  The format's largest value is not modelled
(no overflow to infinity). -/
def roundToFormat (p : Nat) (emin : ℤ) (q : ℚ) : ℚ :=
  if q = 0 then 0
  else
    let e : ℤ := max (floorLog2 q - ((p : ℤ) - 1)) emin
    (roundHalfEven (q / (2 : ℚ) ^ e) : ℚ) * (2 : ℚ) ^ e

/-- Rounding to a C++ `float` (IEEE binary32: 24 digits, subnormal quantum `2 ^ -149`). -/
def roundFloat32 (q : ℚ) : ℚ :=
  roundToFormat 24 (-149) q

/-- Rounding to a C++ `double` (IEEE binary64: 53 digits, subnormal quantum `2 ^ -1074`). -/
def roundDouble (q : ℚ) : ℚ :=
  roundToFormat 53 (-1074) q

/-- The rational `q` is a value of type `float`: rounding leaves it as it is. -/
def isFloat32 (q : ℚ) : Prop :=
  roundFloat32 q = q

instance (q : ℚ) : Decidable (isFloat32 q) := by
  unfold isFloat32
  infer_instance

/-- The type `cv::Vec2f`. -/
abbrev Vec2f := Fin 2 → ℚ

/-- The types `cv::Vec3f` and `ci::Vec3f`. -/
abbrev Vec3f := Fin 3 → ℚ

/-- The type `cv::Vec4f`. -/
abbrev Vec4f := Fin 4 → ℚ

/-- A `cv::Mat` with elements of type `α`: `rows`, `cols` and the row-major buffer.
The empty buffer stands for `data == nullptr`. -/
structure Mat (α : Type) where
  rows : Nat
  cols : Nat
  data : List α

/-- The accessor `m.at<α>(r, c)`: element `r * cols + c` of the buffer.  OpenCV does not
check the index in release builds; a read past the buffer is undefined in C++ and yields the
default element here. -/
def Mat.at_ {α : Type} [Inhabited α] (m : Mat α) (r c : Nat) : α :=
  m.data.getD (r * m.cols + c) default

/-- A freshly allocated `rows x cols` matrix whose element `(r, c)` is `f r c`:
the result of a loop nest that writes every pixel once. -/
def Mat.ofFn {α : Type} (rows cols : Nat) (f : Nat → Nat → α) : Mat α :=
  { rows := rows
    cols := cols
    data := (List.range (rows * cols)).map (fun i => f (i / cols) (i % cols)) }

/-! ## PWP3D: region agreement -/

/-- `PWP3D::GetRegionAgreement` (pwp3d.cpp 169-178).  `HeavisideFunction` is declared in
`pwp3d.hpp` and is a parameter. -/
def PWP3D.GetRegionAgreement (HeavisideFunction : ℚ → ℚ) (classification_image : Mat Vec4f)
    (r c : Nat) (sdf : ℚ) : FloatVal :=
  let heaviside_value := HeavisideFunction sdf
  let Pf := (classification_image.at_ r c) 1
  let Pb := (classification_image.at_ r c) 0
  fdiv (Pf - Pb) ((heaviside_value * Pf) + ((1 - heaviside_value) * Pb))

/-! ## PWP3D: the per-pixel Jacobian update -/

/-- How a call can fail: a thrown `std::runtime_error` with its message, undefined
behaviour (indexing a `std::vector` or a buffer past its end), or a failed `assert`
(the program aborts). -/
inductive Fault where
  | runtime_error (what : String)
  | undefined_behaviour
  | assertion_failed
  deriving DecidableEq

/-- What `UpdateJacobian` uses of the articulated model: `ComputeJacobian(point, target)`,
one derivative vector per degree of freedom, and `GetBasePose().GetNumDofs()`. -/
structure Model where
  ComputeJacobian : Vec3f → Int → List Vec3f
  GetNumDofs : Nat

/-- The type `cv::Matx<float, 1, 7>`. -/
abbrev Matx17 := Fin 7 → FloatVal

/-- The value `region_agreement * pval` that one iteration of the loop of
`PWP3D::UpdateJacobian` stores in `jacobian(dof)` (pwp3d.cpp 80-81 and 93-123), from the
derivative vectors of that degree of freedom at the front and back intersection points.
`DeltaFunction` is declared in `pwp3d.hpp` and is a parameter. -/
def PWP3D.UpdateJacobian.dofValue (DeltaFunction : ℚ → ℚ) (region_agreement : FloatVal)
    (sdf dsdf_dx dsdf_dy fx fy : ℚ) (front_intersection_point back_intersection_point : Vec3f)
    (dof_derivatives_front dof_derivatives_back : Vec3f) : FloatVal :=
  let z_inv_sq_front : FloatVal :=
    fdiv 1 (front_intersection_point 2 * front_intersection_point 2)
  let z_inv_sq_back : FloatVal :=
    fdiv 1 (back_intersection_point 2 * back_intersection_point 2)
  if sdf = 0 then
    let deriv_x_front : ℚ := (front_intersection_point 2 * dof_derivatives_front 0)
      - (front_intersection_point 0 * dof_derivatives_front 2)
    let deriv_x : FloatVal :=
      FloatVal.fin dsdf_dx * (FloatVal.fin fx * z_inv_sq_front * FloatVal.fin deriv_x_front)
    let deriv_y_front : ℚ := (front_intersection_point 2 * dof_derivatives_front 1)
      - (front_intersection_point 1 * dof_derivatives_front 2)
    let deriv_y : FloatVal :=
      FloatVal.fin dsdf_dy * (FloatVal.fin fy * z_inv_sq_front * FloatVal.fin deriv_y_front)
    let pval : FloatVal := FloatVal.fin (DeltaFunction sdf) * (deriv_x + deriv_y)
    region_agreement * pval
  else
    let deriv_x_front : ℚ := (front_intersection_point 2 * dof_derivatives_front 0)
      - (front_intersection_point 0 * dof_derivatives_front 2)
    let deriv_x_back : ℚ := (back_intersection_point 2 * dof_derivatives_back 0)
      - (back_intersection_point 0 * dof_derivatives_back 2)
    let deriv_x : FloatVal :=
      FloatVal.fin dsdf_dx * ((FloatVal.fin fx * z_inv_sq_front * FloatVal.fin deriv_x_front)
        + (FloatVal.fin fx * z_inv_sq_back * FloatVal.fin deriv_x_back))
    let deriv_y_front : ℚ := (front_intersection_point 2 * dof_derivatives_front 1)
      - (front_intersection_point 1 * dof_derivatives_front 2)
    let deriv_y_back : ℚ := (back_intersection_point 2 * dof_derivatives_back 1)
      - (back_intersection_point 1 * dof_derivatives_back 2)
    let deriv_y : FloatVal :=
      FloatVal.fin dsdf_dy * ((FloatVal.fin fy * z_inv_sq_front * FloatVal.fin deriv_y_front)
        + (FloatVal.fin fy * z_inv_sq_back * FloatVal.fin deriv_y_back))
    let pval : FloatVal := FloatVal.fin (DeltaFunction sdf) * (deriv_x + deriv_y)
    region_agreement * pval

/-- The loop `for (size_t dof = 0; dof < GetNumDofs(); ++dof)` of `PWP3D::UpdateJacobian`
(pwp3d.cpp 88-125) with `remaining` iterations still to run, the next one for index `dof`.
An iteration throws when `dof >= 7`, reads `front_jacs[dof]` and `back_jacs[dof]`, and
assigns `jacobian(dof)`. -/
def PWP3D.UpdateJacobian.loop (DeltaFunction : ℚ → ℚ) (region_agreement : FloatVal)
    (sdf dsdf_dx dsdf_dy fx fy : ℚ) (front_intersection_point back_intersection_point : Vec3f)
    (front_jacs back_jacs : List Vec3f) : (remaining dof : Nat) → Matx17 → Except Fault Matx17
  | 0, _, jacobian => Except.ok jacobian
  | remaining + 1, dof, jacobian =>
    if h : 7 ≤ dof then
      Except.error (Fault.runtime_error "")
    else
      match front_jacs[dof]?, back_jacs[dof]? with
      | some dof_derivatives_front, some dof_derivatives_back =>
        PWP3D.UpdateJacobian.loop DeltaFunction region_agreement sdf dsdf_dx dsdf_dy fx fy
          front_intersection_point back_intersection_point front_jacs back_jacs remaining
          (dof + 1)
          (Function.update jacobian ⟨dof, Nat.lt_of_not_le h⟩
            (PWP3D.UpdateJacobian.dofValue DeltaFunction region_agreement sdf dsdf_dx dsdf_dy
              fx fy front_intersection_point back_intersection_point
              dof_derivatives_front dof_derivatives_back))
      | _, _ => Except.error Fault.undefined_behaviour

/-- `PWP3D::UpdateJacobian` (pwp3d.cpp 78-127).  The in/out argument `jacobian` is passed in
and the updated matrix is returned. -/
def PWP3D.UpdateJacobian (DeltaFunction : ℚ → ℚ) (region_agreement : FloatVal)
    (sdf dsdf_dx dsdf_dy fx fy : ℚ) (front_intersection_point back_intersection_point : Vec3f)
    (model : Model) (jacobian : Matx17) : Except Fault Matx17 :=
  let front_jacs := model.ComputeJacobian front_intersection_point 0
  let back_jacs := model.ComputeJacobian back_intersection_point 0
  PWP3D.UpdateJacobian.loop DeltaFunction region_agreement sdf dsdf_dx dsdf_dy fx fy
    front_intersection_point back_intersection_point front_jacs back_jacs
    model.GetNumDofs 0 jacobian

/-! ## PWP3D: area statistics -/

/-- The three `size_t` counters of `ComputeAreas` after the call.  `fg_area` and `bg_area`
are assigned from float sums; `none` is the indeterminate value left by a float that does not
fit `size_t` (the conversion is undefined in C++). -/
structure Areas where
  fg_area : Option Nat
  bg_area : Option Nat
  contour_area : Nat

/-- Conversion of a float to `size_t`: truncation toward zero, defined when the truncated
value is in `[0, 2^64)`. -/
def toSizeT (q : ℚ) : Option Nat :=
  if 0 ≤ truncToInt q ∧ truncToInt q < 2 ^ 64 then some (truncToInt q).toNat else none

/-- The compound assignment `area += x` of a `size_t` and a float: the counter is converted
to float, the sum is taken in floating point and converted back to `size_t`. -/
def addFloatToSizeT (area : Option Nat) (x : ℚ) : Option Nat :=
  area.bind (fun n => toSizeT ((n : ℚ) + x))

/-- The body of the inner loop of `PWP3D::ComputeAreas` at pixel `(r, c)`
(pwp3d.cpp 68-72). -/
def PWP3D.ComputeAreas.pixel (sdf : Mat ℚ) (r c : Nat) (a : Areas) : Areas :=
  { contour_area :=
      if sdf.at_ r c ≤ (3 : ℚ) - 1 / 10 ∧ sdf.at_ r c ≥ -(3 : ℚ) + 1 / 10 then
        (a.contour_area + 1) % 2 ^ 64
      else a.contour_area
    fg_area := addFloatToSizeT a.fg_area (sdf.at_ r c)
    bg_area := addFloatToSizeT a.bg_area (1 - sdf.at_ r c) }

/-- `PWP3D::ComputeAreas` (pwp3d.cpp 61-76).  The three reference arguments are passed in
with the values they hold before the call.  Both loops run up to `sdf.rows`. -/
def PWP3D.ComputeAreas (sdf : Mat ℚ) (fg_area bg_area contour_area : Nat) : Areas :=
  let bg_area := 0
  let fg_area := bg_area
  (List.range sdf.rows).foldl
    (fun a r => (List.range sdf.rows).foldl (fun a c => PWP3D.ComputeAreas.pixel sdf r c a) a)
    { fg_area := some fg_area, bg_area := some bg_area, contour_area := contour_area }

/-- The contour-band area in the specification's words: the number of pixels `(r, c)`,
`r < rows`, `c < cols`, with `|s| < w - delta`. -/
def contourBandCount (sdf : Mat ℚ) (w delta : ℚ) : Nat :=
  ((List.range sdf.rows).map
    (fun r => ((List.range sdf.cols).filter (fun c => |sdf.at_ r c| < w - delta)).length)).sum

/-! ## MonocularCamera: the cached unprojection table -/

/-- What `GetUnprojectedImagePlane` uses of a `MonocularCamera`: the map that
`cv::undistortPoints` applies to each point for this camera's `intrinsic_params()` and
`distortion_params()`, and the cached table `unprojected_image_`. -/
structure MonocularCamera where
  undistortPoint : Vec2f → Vec2f
  unprojected_image_ : Mat Vec2f

/-- The OpenCV call `cv::undistortPoints(points, outpoints, K, D)`: every point is
transformed on its own, in order. -/
def undistortPoints (undistortPoint : Vec2f → Vec2f) (points : List Vec2f) : List Vec2f :=
  points.map undistortPoint

/-- `MonocularCamera::GetUnprojectedImagePlane` (camera.cpp 43-74): the returned matrix and
the camera after the call. -/
def MonocularCamera.GetUnprojectedImagePlane (cam : MonocularCamera) (width height : Nat) :
    Mat Vec2f × MonocularCamera :=
  if !cam.unprojected_image_.data.isEmpty then
    (cam.unprojected_image_, cam)
  else
    let points : List Vec2f :=
      (List.range height).flatMap
        (fun (r : Nat) => (List.range width).map (fun (c : Nat) => ![(c : ℚ), (r : ℚ)]))
    let outpoints := undistortPoints cam.undistortPoint points
    let unprojected_image_ : Mat Vec2f :=
      Mat.ofFn height width (fun r c =>
        ![(outpoints.getD ((width * r) + c) default) 0,
          (outpoints.getD ((width * r) + c) default) 1])
    (unprojected_image_, { cam with unprojected_image_ := unprojected_image_ })

/-- The cached table of the camera serves an image of `width x height` pixels: nothing is
cached yet, so that the next call builds the table for this size, or the table that is
cached holds at every pixel `(r, c)` of the image the undistorted point `(x, y) = (c, r)`,
as a table that `GetUnprojectedImagePlane(width, height)` built does. -/
def MonocularCamera.tableServes (cam : MonocularCamera) (width height : Nat) : Prop :=
  cam.unprojected_image_.data = [] ∨
  ∀ r : Nat, r < height → ∀ c : Nat, c < width →
    cam.unprojected_image_.at_ r c = cam.undistortPoint ![(c : ℚ), (r : ℚ)]

/-! ## PWP3D: signed distance field and intersection images -/

/-- The three buffers `RenderModelForDepthAndContour` hands back (an OpenGL render):
4-channel float front and back depth, and the 8-bit contour image. -/
structure RenderedBuffers where
  front_depth : Mat Vec4f
  back_depth : Mat Vec4f
  contour : Mat Nat

/-- The three output images of `ProcessSDFAndIntersectionImage`. -/
structure SDFAndIntersection where
  sdf_image : Mat ℚ
  front_intersection_image : Mat Vec3f
  back_intersection_image : Mat Vec3f

/-- `PWP3D::ProcessSDFAndIntersectionImage` (pwp3d.cpp 283-327).  `GL_FAR` and `EPS` come
from `constants.hpp`, `distanceTransform` is the OpenCV call with `CV_DIST_L2` and
`CV_DIST_MASK_PRECISE`, `rendered` is the output of `RenderModelForDepthAndContour`, and
`roi_rows x roi_cols` is `frame_->GetImageROI().size()`. -/
def PWP3D.ProcessSDFAndIntersectionImage (GL_FAR EPS : ℚ)
    (distanceTransform : Mat Nat → Mat ℚ) (roi_rows roi_cols : Nat)
    (rendered : RenderedBuffers) (camera : MonocularCamera) :
    SDFAndIntersection × MonocularCamera :=
  let front_depth := rendered.front_depth
  let back_depth := rendered.back_depth
  let contour := rendered.contour
  let unprojected := camera.GetUnprojectedImagePlane roi_cols roi_rows
  let unprojected_image_plane := unprojected.1
  let far_point : Vec3f :=
    ![(truncToInt GL_FAR : ℚ), (truncToInt GL_FAR : ℚ), (truncToInt GL_FAR : ℚ)]
  let front_intersection_image : Mat Vec3f :=
    Mat.ofFn roi_rows roi_cols (fun r c =>
      if |(front_depth.at_ r c) 0 - GL_FAR| > EPS then
        let unprojected_pixel := unprojected_image_plane.at_ r c
        ![(front_depth.at_ r c) 0 * unprojected_pixel 0,
          (front_depth.at_ r c) 0 * unprojected_pixel 1,
          (front_depth.at_ r c) 0 * 1]
      else far_point)
  let back_intersection_image : Mat Vec3f :=
    Mat.ofFn roi_rows roi_cols (fun r c =>
      if |(back_depth.at_ r c) 0 - GL_FAR| > EPS then
        let unprojected_pixel := unprojected_image_plane.at_ r c
        ![(back_depth.at_ r c) 0 * unprojected_pixel 0,
          (back_depth.at_ r c) 0 * unprojected_pixel 1,
          (back_depth.at_ r c) 0 * 1]
      else far_point)
  let sdf_image := distanceTransform contour
  let sdf_image : Mat ℚ :=
    Mat.ofFn sdf_image.rows sdf_image.cols (fun r c =>
      if |(front_depth.at_ r c) 0 - GL_FAR| < EPS then sdf_image.at_ r c * -1
      else sdf_image.at_ r c)
  ({ sdf_image := sdf_image
     front_intersection_image := front_intersection_image
     back_intersection_image := back_intersection_image }, unprojected.2)

/-! ## PWP3D and Tracker: the step counter -/

/-- The step-counter state of a `PWP3D` object (the OpenGL framebuffers and shaders it also
owns are not part of the model). -/
structure PWP3D where
  HEAVYSIDE_WIDTH : Int
  NUM_STEPS : Int
  curr_step : Int

/-- The constructor `PWP3D::PWP3D(width, height)` (pwp3d.cpp 18-36); `width` and `height`
only size the framebuffers. -/
def PWP3D.ctor (width height : Int) : PWP3D :=
  let HEAVYSIDE_WIDTH := 6
  let NUM_STEPS := 45
  let curr_step := NUM_STEPS
  { HEAVYSIDE_WIDTH := HEAVYSIDE_WIDTH, NUM_STEPS := NUM_STEPS, curr_step := curr_step }

/-- Modelled from the spec: `NeedsNewFrame` of the localizer, declared in `pwp3d.hpp` and
`localizer.hpp`, which are not among the sources.  The specification's terminal condition is
that the step counter has reached the fixed budget; the object then asks for a new frame. -/
def PWP3D.NeedsNewFrame (p : PWP3D) : Bool :=
  decide (p.NUM_STEPS ≤ p.curr_step)

/-- What `Tracker::NeedsNewFrame` uses of a `Tracker`: its localizer. -/
structure Tracker where
  localizer_ : PWP3D

/-- `Tracker::NeedsNewFrame` (tracker.hpp 47): delegates to the localizer. -/
def Tracker.NeedsNewFrame (t : Tracker) : Bool :=
  t.localizer_.NeedsNewFrame

/-! ## PWP3D: the per-pixel error value -/

/-- Float negation. -/
def FloatVal.neg : FloatVal → FloatVal
  | FloatVal.fin a => FloatVal.fin (-a)
  | FloatVal.nonfin => FloatVal.nonfin

/-- `PWP3D::GetErrorValue` (pwp3d.cpp 181-193).  `log` is the C library function (its value
is not finite at 0 and below) and `HeavisideFunction` is declared in `pwp3d.hpp`; both are
parameters. -/
def PWP3D.GetErrorValue (log : ℚ → FloatVal) (HeavisideFunction : ℚ → ℚ)
    (classification_image : Mat Vec4f) (row_idx col_idx : Nat) (sdf_value : ℚ)
    (target_label : Int) : FloatVal :=
  let Pf := (classification_image.at_ row_idx col_idx) 1
  let Pb := (classification_image.at_ row_idx col_idx) 0
  let heaviside_value := HeavisideFunction sdf_value
  let v := (heaviside_value * Pf) + ((1 - heaviside_value) * (Pb))
  let v := v + 1 / 10000000
  FloatVal.neg (log v)

/-! ## MonocularCamera: projection and unprojection of single points -/

/-- Modelled from the spec: `ttrk::round` of `helpers.hpp`, which is not among the sources.
`ProjectPointToPixel` is documented as projecting to a pixel by nearest neighbour
interpolation, so the helper rounds to the nearest integer (halves away from zero). -/
def round (x : ℚ) : ℤ :=
  if 0 ≤ x then ⌊x + 1 / 2⌋ else ⌈x - 1 / 2⌉

/-- `MonocularCamera::ProjectPoint` (camera.cpp 110-121).  `projectPoints` is the OpenCV call
`cv::projectPoints` on a list of points with the identity rotation, the zero translation and
this camera's intrinsic matrix and distortion; it is a parameter. -/
def MonocularCamera.ProjectPoint (projectPoints : List Vec3f → List Vec2f)
    (cam : MonocularCamera) (point : Vec3f) : Except Fault Vec2f :=
  let projected_point := projectPoints (List.replicate 1 point)
  if projected_point.length ≠ 1 then
    Except.error (Fault.runtime_error "Error, projected points size != 1.\n")
  else
    match projected_point.head? with
    | some pt => Except.ok pt
    | none => Except.error Fault.undefined_behaviour

/-- `MonocularCamera::ProjectPointToPixel` (camera.cpp 38-41): the pixel `(x, y)`. -/
def MonocularCamera.ProjectPointToPixel (projectPoints : List Vec3f → List Vec2f)
    (cam : MonocularCamera) (point : Vec3f) : Except Fault (ℤ × ℤ) :=
  match cam.ProjectPoint projectPoints point with
  | Except.ok pt => Except.ok (round (pt 0), round (pt 1))
  | Except.error e => Except.error e

/-- `MonocularCamera::UnProjectPoint` (camera.cpp 76-86) on the pixel `point = (x, y)`:
a `1 x 1` matrix holding the pixel is undistorted and the ray `(u, v, 1)` is returned. -/
def MonocularCamera.UnProjectPoint (cam : MonocularCamera) (point : ℤ × ℤ) : Vec3f :=
  let projected : List Vec2f := [![(point.1 : ℚ), (point.2 : ℚ)]]
  let unprojected := undistortPoints cam.undistortPoint projected
  ![(unprojected.getD 0 default) 0, (unprojected.getD 0 default) 1, 1]

/-! ## MultiClassRandomForest: classifying a frame -/

/-- The OpenCV depth code `CV_32F`. -/
def CV_32F : Nat := 5

/-- The OpenCV type code `CV_8UC3`. -/
def CV_8UC3 : Nat := 16

/-- The feature vector `NDImage::GetPixelData(r, c)` hands to the forest. -/
abbrev PixelData := List ℚ

/-- The classification map of a frame: `channels()` interleaved values per pixel, its
`depth()` code and the buffer `data` (read through `(float *)data`). -/
structure ClassificationMap where
  rows : Nat
  cols : Nat
  channels : Nat
  depth : Nat
  data : List ℚ

/-- What `ClassifyFrame` uses of an `sv::Frame`: the type of the image ROI, the size of the
whole image, the pixel features `NDImage(whole_frame).GetPixelData(r, c)` and the
classification map. -/
structure Frame where
  roi_type : Nat
  rows : Nat
  cols : Nat
  GetPixelData : Nat → Nat → PixelData
  classification_map : ClassificationMap

/-- What `ClassifyFrame` uses of the forest: `num_classes_` and `PredictProb(pix, cls)`. -/
structure MultiClassRandomForest where
  num_classes_ : Nat
  PredictProb : PixelData → Nat → ℚ

/-- The store `frame_data[i] = v` through the raw pointer: undefined (`none`) past the end of
the buffer. -/
def writeFloat (frame_data : List ℚ) (i : Nat) (v : ℚ) : Option (List ℚ) :=
  if i < frame_data.length then some (frame_data.set i v) else none

/-- The loop over the classes at one pixel (multiclass_randomforest.cpp 44-51): stores the
prediction of every class and records whether a class other than 0 has a non-zero one. -/
def MultiClassRandomForest.ClassifyFrame.predictLoop (forest : MultiClassRandomForest)
    (pix : PixelData) (index classification_map_channels : Nat)
    (frame_data : List ℚ) (predicted_class : Bool) : Option (List ℚ × Bool) :=
  (List.range forest.num_classes_).foldlM
    (fun (st : List ℚ × Bool) (cls : Nat) =>
      let prediction := forest.PredictProb pix cls
      (writeFloat st.1 (index * classification_map_channels + cls) prediction).map
        (fun frame_data =>
          (frame_data, if 0 < cls ∧ prediction ≠ 0 then true else st.2)))
    (frame_data, predicted_class)

/-- The loop that zeroes the channels from `num_classes_` on at one pixel
(multiclass_randomforest.cpp 54-56). -/
def MultiClassRandomForest.ClassifyFrame.zeroLoop (forest : MultiClassRandomForest)
    (index classification_map_channels : Nat) (frame_data : List ℚ) : Option (List ℚ) :=
  (List.range' forest.num_classes_ (classification_map_channels - forest.num_classes_)).foldlM
    (fun (frame_data : List ℚ) (k : Nat) =>
      writeFloat frame_data (index * classification_map_channels + k) 0)
    frame_data

/-- The body of the pixel loop at `(r, c)` (multiclass_randomforest.cpp 37-58) on the buffer
and the running `pixel_count`. -/
def MultiClassRandomForest.ClassifyFrame.pixel (forest : MultiClassRandomForest)
    (frame : Frame) (cols classification_map_channels : Nat) (r c : Nat)
    (st : List ℚ × Nat) : Option (List ℚ × Nat) :=
  let index := r * cols + c
  let pix := frame.GetPixelData r c
  (MultiClassRandomForest.ClassifyFrame.predictLoop forest pix index
      classification_map_channels st.1 false).bind
    (fun (p : List ℚ × Bool) =>
      (MultiClassRandomForest.ClassifyFrame.zeroLoop forest index classification_map_channels
          p.1).map
        (fun frame_data => (frame_data, st.2 + (if p.2 then 1 else 0))))

/-- The two nested pixel loops (multiclass_randomforest.cpp 34-61). -/
def MultiClassRandomForest.ClassifyFrame.pixelLoops (forest : MultiClassRandomForest)
    (frame : Frame) (rows cols classification_map_channels : Nat)
    (st : List ℚ × Nat) : Option (List ℚ × Nat) :=
  (List.range rows).foldlM
    (fun (st : List ℚ × Nat) (r : Nat) =>
      (List.range cols).foldlM
        (fun (st : List ℚ × Nat) (c : Nat) =>
          MultiClassRandomForest.ClassifyFrame.pixel forest frame cols
            classification_map_channels r c st)
        st)
    st

/-- The OpenCV call `cv::split`: one single-channel matrix per channel of the map. -/
def split (m : ClassificationMap) : List (Mat ℚ) :=
  (List.range m.channels).map
    (fun k => Mat.ofFn m.rows m.cols
      (fun r c => m.data.getD ((r * m.cols + c) * m.channels + k) 0))

/-- The value of the C++ expression `0.02*rows*cols` (multiclass_randomforest.cpp 72):
`0.02` is the `double` nearest to 2/100, and the product is taken from left to right in
`double`, each multiplication rounded; the conversions of the `int`s `rows` and `cols` to
`double` are exact. -/
def MultiClassRandomForest.ClassifyFrame.threshold (rows cols : Nat) : ℚ :=
  roundDouble (roundDouble (roundDouble (2 / 100) * (rows : ℚ)) * (cols : ℚ))

/-- `MultiClassRandomForest::ClassifyFrame` (multiclass_randomforest.cpp 5-75): how the call
ends, and the frame afterwards (`none` is the null pointer).  After undefined behaviour the
frame that is reported carries no meaning.  For the final test
`pixel_count > (0.02*rows*cols)` the count is converted to `double`. -/
def MultiClassRandomForest.ClassifyFrame (forest : MultiClassRandomForest)
    (frame : Option Frame) : Except Fault Bool × Option Frame :=
  match frame with
  | none => (Except.ok false, none)
  | some frame =>
    if frame.roi_type ≠ CV_8UC3 then (Except.error Fault.assertion_failed, some frame)
    else
      let rows := frame.rows
      let cols := frame.cols
      let pixel_count := 0
      let frame_data := frame.classification_map.data
      let classification_map_channels := frame.classification_map.channels
      if forest.num_classes_ > classification_map_channels then
        (Except.error (Fault.runtime_error ""), some frame)
      else if frame.classification_map.depth ≠ CV_32F then
        (Except.error (Fault.runtime_error ""), some frame)
      else
        match MultiClassRandomForest.ClassifyFrame.pixelLoops forest frame rows cols
            classification_map_channels (frame_data, pixel_count) with
        | none => (Except.error Fault.undefined_behaviour, some frame)
        | some (frame_data, pixel_count) =>
          let frame : Frame :=
            { frame with
              classification_map := { frame.classification_map with data := frame_data } }
          let splitted := split frame.classification_map
          match splitted[0]?, splitted[1]?, splitted[2]?, splitted[3]? with
          | some background, some foreground_tip, some foreground_shaft,
              some foreground_other =>
            if roundDouble (pixel_count : ℚ) >
                MultiClassRandomForest.ClassifyFrame.threshold rows cols then
              (Except.ok true, some frame)
            else (Except.ok false, some frame)
          | _, _, _, _ => (Except.error Fault.undefined_behaviour, some frame)

/-! ## PWP3D: searching the ring around a pixel -/

/-- The read `sdf_im[idx]` through the raw pointer: undefined (`none`) outside the buffer. -/
def readFloat (sdf_im : List ℚ) (idx : ℤ) : Option ℚ :=
  if 0 ≤ idx ∧ idx < sdf_im.length then sdf_im[idx.toNat]? else none

/-- One of the two search loops of `FindClosestIntersection`, iteration by iteration.  An
iteration reads the value at a first index and, when that is negative, at a second one; each
index comes with the pixel stored in `closest_r`, `closest_c` when its value is `>= 0`.  The
result is `none` after a read outside the buffer, `some (some pixel)` when the loop returns
true from inside, and `some none` when the loop runs to its end. -/
def PWP3D.FindClosestIntersection.scan (sdf_im : List ℚ) :
    List ((ℤ × ℤ × ℤ) × (ℤ × ℤ × ℤ)) → Option (Option (ℤ × ℤ))
  | [] => some none
  | (first, second) :: rest =>
    match readFloat sdf_im first.1 with
    | none => none
    | some v1 =>
      if v1 ≥ 0 then some (some first.2)
      else
        match readFloat sdf_im second.1 with
        | none => none
        | some v2 =>
          if v2 ≥ 0 then some (some second.2)
          else PWP3D.FindClosestIntersection.scan sdf_im rest

/-- The iterations of `for (w_c = c - ceil_sdf; w_c <= c + ceil_sdf; ++w_c)`
(pwp3d.cpp 133-147): `up_idx` with the pixel `(r + ceil_sdf, w_c)`, then `down_idx` with the
pixel `(r - ceil_sdf, w_c)`. -/
def PWP3D.FindClosestIntersection.columns (r c width ceil_sdf : ℤ) :
    List ((ℤ × ℤ × ℤ) × (ℤ × ℤ × ℤ)) :=
  (List.range (2 * ceil_sdf + 1).toNat).map (fun (j : Nat) =>
    let w_c : ℤ := c - ceil_sdf + j
    let up_idx := (r + ceil_sdf) * width + w_c
    let down_idx := (r - ceil_sdf) * width + w_c
    ((up_idx, r + ceil_sdf, w_c), (down_idx, r - ceil_sdf, w_c)))

/-- The iterations of `for (w_r = r - ceil_sdf; w_r <= r + ceil_sdf; ++w_r)`
(pwp3d.cpp 149-163): `left_idx` with the pixel `(w_r, c - ceil_sdf)`, then `right_idx` with
the pixel `(w_r, c + ceil_sdf)`. -/
def PWP3D.FindClosestIntersection.rowsList (r c width ceil_sdf : ℤ) :
    List ((ℤ × ℤ × ℤ) × (ℤ × ℤ × ℤ)) :=
  (List.range (2 * ceil_sdf + 1).toNat).map (fun (j : Nat) =>
    let w_r : ℤ := r - ceil_sdf + j
    let left_idx := w_r * width + c - ceil_sdf
    let right_idx := w_r * width + c + ceil_sdf
    ((left_idx, w_r, c - ceil_sdf), (right_idx, w_r, c + ceil_sdf)))

/-- `PWP3D::FindClosestIntersection` (pwp3d.cpp 129-167): `none` after a read outside the
buffer, otherwise the returned flag and the values of `closest_r` and `closest_c` after the
call.  `height` is not used by the code. -/
def PWP3D.FindClosestIntersection (sdf_im : List ℚ) (r c height width : ℤ)
    (closest_r closest_c : ℤ) : Option (Bool × ℤ × ℤ) :=
  match readFloat sdf_im (r * width + c) with
  | none => none
  | some sdf_val =>
    let ceil_sdf : ℤ := |⌈sdf_val⌉|
    match PWP3D.FindClosestIntersection.scan sdf_im
        (PWP3D.FindClosestIntersection.columns r c width ceil_sdf) with
    | none => none
    | some (some found) => some (true, found.1, found.2)
    | some none =>
      match PWP3D.FindClosestIntersection.scan sdf_im
          (PWP3D.FindClosestIntersection.rowsList r c width ceil_sdf) with
      | none => none
      | some (some found) => some (true, found.1, found.2)
      | some none => some (false, closest_r, closest_c)

/-- The square ring of the specification: the pixels at Chebyshev distance exactly `k` from
`(r, c)`. -/
def onRing (r c k pr pc : ℤ) : Prop :=
  max |pr - r| |pc - c| = k

instance (r c k pr pc : ℤ) : Decidable (onRing r c k pr pc) := by
  unfold onRing
  infer_instance

/-! ## MonocularToolTracker: the moment-of-inertia tensor -/

/-- The type `cv::Vec2i`. -/
abbrev Vec2i := Fin 2 → ℤ

/-- The sum over a region of an integer expression `f dx dy` of the offsets
`(dx, dy) = point - center of mass`. -/
def offsetSum (connected_region : List Vec2i) (center_of_mass : Vec2i) (f : ℤ → ℤ → ℤ) : ℤ :=
  (connected_region.map
    (fun pt => f (pt 0 - center_of_mass 0) (pt 1 - center_of_mass 1))).sum

/-- Whether a pixel has a non-zero predicted probability for at least one class other than
the background class 0. -/
def predictsForeground (forest : MultiClassRandomForest) (frame : Frame) (r c : Nat) : Bool :=
  (List.range forest.num_classes_).any
    (fun cls => decide (0 < cls ∧ forest.PredictProb (frame.GetPixelData r c) cls ≠ 0))

/-- The number of pixels of the frame that have a non-zero predicted probability for at
least one non-background class. -/
def predictedPixelCount (forest : MultiClassRandomForest) (frame : Frame) : Nat :=
  ((List.range frame.rows).map
    (fun r => ((List.range frame.cols).filter
      (fun c => predictsForeground forest frame r c)).length)).sum

/-! ## Sample inputs -/

/-- A camera whose undistortion map is the identity, with nothing cached yet. -/
def sampleCamera : MonocularCamera :=
  { undistortPoint := id, unprojected_image_ := { rows := 0, cols := 0, data := [] } }

/-- A render of `1 x 3` pixels with `GL_FAR = 1000`: the left pixel misses the object (front
and back depth are the far value), the middle and right pixels hit it at depth 5 (back 6), and
the middle pixel is the contour (value 0 in the contour image). -/
def sampleRendered : RenderedBuffers :=
  { front_depth :=
      { rows := 1, cols := 3, data := [![1000, 0, 0, 0], ![5, 0, 0, 0], ![5, 0, 0, 0]] }
    back_depth :=
      { rows := 1, cols := 3, data := [![1000, 0, 0, 0], ![6, 0, 0, 0], ![6, 0, 0, 0]] }
    contour := { rows := 1, cols := 3, data := [1, 0, 1] } }

/-- The Euclidean distance transform on `sampleRendered.contour`: each pixel's distance to
the zero pixel in the middle. -/
def sampleDistanceTransform : Mat Nat → Mat ℚ :=
  fun _ => { rows := 1, cols := 3, data := [1, 0, 1] }

/-- A render of `1 x 2` pixels with `GL_FAR = 1000` in which the object is nowhere: every
front and back depth is the far value and the contour image has no zero pixel. -/
def degenerateRendered : RenderedBuffers :=
  { front_depth := { rows := 1, cols := 2, data := [![1000, 0, 0, 0], ![1000, 0, 0, 0]] }
    back_depth := { rows := 1, cols := 2, data := [![1000, 0, 0, 0], ![1000, 0, 0, 0]] }
    contour := { rows := 1, cols := 2, data := [1, 1] } }

/-- A distance transform result for `degenerateRendered.contour`: with no zero pixel in the
image every distance is large and positive. -/
def degenerateDistanceTransform : Mat Nat → Mat ℚ :=
  fun _ => { rows := 1, cols := 2, data := [8192, 8192] }

/-- A render of `1 x 2` pixels with `GL_FAR = 1000` in which both pixels hit the object at
front depth 5 and back depth 6. -/
def hitRendered : RenderedBuffers :=
  { front_depth := { rows := 1, cols := 2, data := [![5, 0, 0, 0], ![5, 0, 0, 0]] }
    back_depth := { rows := 1, cols := 2, data := [![6, 0, 0, 0], ![6, 0, 0, 0]] }
    contour := { rows := 1, cols := 2, data := [1, 1] } }

/-- A distance transform result for `hitRendered.contour`. -/
def hitDistanceTransform : Mat Nat → Mat ℚ :=
  fun _ => { rows := 1, cols := 2, data := [2, 2] }

/-- A forest with two classes that gives every pixel the probabilities 1/4 (background) and
3/4 (foreground). -/
def sampleForest : MultiClassRandomForest :=
  { num_classes_ := 2, PredictProb := fun _ cls => if cls = 0 then 1 / 4 else 3 / 4 }

/-- A frame of `1 x 1` pixels (8-bit, 3 channels) whose classification map is
single-precision float with `channels` channels, all values 0. -/
def sampleFrame (channels : Nat) : Frame :=
  { roi_type := CV_8UC3
    rows := 1
    cols := 1
    GetPixelData := fun _ _ => []
    classification_map :=
      { rows := 1, cols := 1, channels := channels, depth := CV_32F,
        data := List.replicate channels 0 } }

/-- A forest with two classes whose foreground probability is the first feature of the
pixel (and whose background probability is the rest). -/
def stripeForest : MultiClassRandomForest :=
  { num_classes_ := 2
    PredictProb := fun pix cls => if cls = 0 then 1 - pix.headD 0 else pix.headD 0 }

/-- A frame of 29 rows and 50 columns (8-bit, 3 channels) whose pixels have the feature 1 in
column 0 and the feature 0 elsewhere, with a single-precision map of 4 channels, all values
0. -/
def stripeFrame : Frame :=
  { roi_type := CV_8UC3
    rows := 29
    cols := 50
    GetPixelData := fun _ c => [if c = 0 then 1 else 0]
    classification_map :=
      { rows := 29, cols := 50, channels := 4, depth := CV_32F,
        data := List.replicate (29 * 50 * 4) 0 } }

/-- A render of `1 x 1` pixels for `GL_FAR = 1000` and `EPS = 1/1024` whose front depth is
the `float` value `1000 + 1/1024`: its distance to the far value is exactly `EPS`. -/
def boundaryRendered : RenderedBuffers :=
  { front_depth := { rows := 1, cols := 1, data := [![1000 + 1 / 1024, 0, 0, 0]] }
    back_depth := { rows := 1, cols := 1, data := [![1000 + 1 / 1024, 0, 0, 0]] }
    contour := { rows := 1, cols := 1, data := [1] } }

/-- A distance transform result for `boundaryRendered.contour`: the pixel is 3 px from the
contour. -/
def boundaryDistanceTransform : Mat Nat → Mat ℚ :=
  fun _ => { rows := 1, cols := 1, data := [3] }

/-- C1: for every classification image, pixel `(r, c)` and SDF value `s`,
`GetRegionAgreement` returns the float quotient `(Pf - Pb) / (H(s)*Pf + (1 - H(s))*Pb)` with
`Pb` channel 0 and `Pf` channel 1 of the image at `(r, c)`: the finite quotient when the
denominator is not zero, and what float division by zero gives (infinity or NaN) when it is. -/
theorem GetRegionAgreement_formula (H : ℚ → ℚ) (img : Mat Vec4f) (r c : Nat) (s : ℚ) :
    PWP3D.GetRegionAgreement H img r c s =
      if H s * (img.at_ r c) 1 + (1 - H s) * (img.at_ r c) 0 = 0 then FloatVal.nonfin
      else FloatVal.fin (((img.at_ r c) 1 - (img.at_ r c) 0) /
        (H s * (img.at_ r c) 1 + (1 - H s) * (img.at_ r c) 0)) := by
  simp only [PWP3D.GetRegionAgreement, fdiv]

/-- C2 (failing input): on a pixel whose background and primary-foreground probabilities
are both zero (all the mass is on a further class) the denominator is exactly zero for every
Heaviside function and every SDF value, nothing guards it, and the returned region agreement
is not a finite number. -/
theorem GetRegionAgreement_unguarded (H : ℚ → ℚ) (s : ℚ) :
    PWP3D.GetRegionAgreement H { rows := 1, cols := 1, data := [![0, 0, 1, 0]] } 0 0 s
      = FloatVal.nonfin := by
  simp [PWP3D.GetRegionAgreement, fdiv, Mat.at_]

end ttrk

namespace ttrk

theorem FloatVal.fin_add_fin (a b : ℚ) :
    FloatVal.fin a + FloatVal.fin b = FloatVal.fin (a + b) := rfl

theorem FloatVal.fin_mul_fin (a b : ℚ) :
    FloatVal.fin a * FloatVal.fin b = FloatVal.fin (a * b) := rfl

theorem fdiv_of_ne_zero (a b : ℚ) (hb : b ≠ 0) : fdiv a b = FloatVal.fin (a / b) := by
  simp [fdiv, hb]

theorem Mat.ofFn_rows {α : Type} (rows cols : Nat) (f : Nat → Nat → α) :
    (Mat.ofFn rows cols f).rows = rows := rfl

theorem Mat.ofFn_cols {α : Type} (rows cols : Nat) (f : Nat → Nat → α) :
    (Mat.ofFn rows cols f).cols = cols := rfl

/-- Reading back pixel `(r, c)` of a matrix written pixel by pixel. -/
theorem Mat.ofFn_at {α : Type} [Inhabited α] (rows cols : Nat) (f : Nat → Nat → α)
    (r c : Nat) (hr : r < rows) (hc : c < cols) : (Mat.ofFn rows cols f).at_ r c = f r c := by
  have hidx : r * cols + c < rows * cols := by
    have : (r + 1) * cols ≤ rows * cols := Nat.mul_le_mul_right _ hr
    nlinarith
  have hpos : 0 < cols := by omega
  have hdiv : (r * cols + c) / cols = r := by
    rw [Nat.add_comm, Nat.add_mul_div_right _ _ hpos, Nat.div_eq_of_lt hc, Nat.zero_add]
  have hmod : (r * cols + c) % cols = c := by
    rw [Nat.add_comm, Nat.add_mul_mod_self_right, Nat.mod_eq_of_lt hc]
  unfold Mat.at_ Mat.ofFn
  simp only
  rw [List.getD_eq_getElem _ _ (by simpa using hidx), List.getElem_map, List.getElem_range,
    hdiv, hmod]

/-- The list a row-major loop nest pushes has `height * width` entries. -/
theorem length_pixelGrid {α : Type} (g : Nat → Nat → α) (width height : Nat) :
    ((List.range height).flatMap (fun r => (List.range width).map (fun c => g r c))).length
      = height * width := by
  induction height with
  | zero => simp
  | succ h ih =>
    rw [List.range_succ, List.flatMap_append, List.length_append, ih]
    simp [Nat.succ_mul]

/-- Entry `width * r + c` of the list a row-major loop nest pushes is the one for `(r, c)`. -/
theorem getD_pixelGrid {α : Type} (g : Nat → Nat → α) (d : α) (width height : Nat)
    (r c : Nat) (hr : r < height) (hc : c < width) :
    ((List.range height).flatMap (fun r => (List.range width).map (fun c => g r c))).getD
      (width * r + c) d = g r c := by
  induction height with
  | zero => omega
  | succ h ih =>
    rw [List.range_succ, List.flatMap_append]
    by_cases hlt : r < h
    · have hidx : width * r + c < h * width := by
        have : (r + 1) * width ≤ h * width := Nat.mul_le_mul_right _ hlt
        nlinarith
      rw [List.getD_append _ _ _ _ (by rw [length_pixelGrid]; exact hidx)]
      exact ih hlt
    · have hrh : r = h := by omega
      subst hrh
      rw [List.getD_append_right _ _ _ _ (by rw [length_pixelGrid]; nlinarith),
        length_pixelGrid]
      have hsub : width * r + c - r * width = c := by
        rw [Nat.mul_comm width r]; omega
      rw [hsub]
      simp [List.getD_eq_getElem, hc]

section UpdateJacobianLemmas

variable (DeltaFunction : ℚ → ℚ) (region_agreement : FloatVal)
  (sdf dsdf_dx dsdf_dy fx fy : ℚ) (fp bp : Vec3f) (front_jacs back_jacs : List Vec3f)

/-- When at most 7 indices are visited and the derivative vectors exist, the loop ends
normally; every visited index holds the value of its own degree of freedom and every other
entry is the one passed in. -/
theorem UpdateJacobian.loop_ok (remaining : Nat) :
    ∀ (dof : Nat) (jacobian : Matx17), dof + remaining ≤ 7 →
      dof + remaining ≤ front_jacs.length → dof + remaining ≤ back_jacs.length →
      ∃ j : Matx17,
        PWP3D.UpdateJacobian.loop DeltaFunction region_agreement sdf dsdf_dx dsdf_dy fx fy
          fp bp front_jacs back_jacs remaining dof jacobian = Except.ok j ∧
        ∀ d : Fin 7, j d =
          if dof ≤ d.val ∧ d.val < dof + remaining then
            PWP3D.UpdateJacobian.dofValue DeltaFunction region_agreement sdf dsdf_dx dsdf_dy
              fx fy fp bp (front_jacs.getD d.val default) (back_jacs.getD d.val default)
          else jacobian d := by
  induction remaining with
  | zero =>
    intro dof jacobian _ _ _
    refine ⟨jacobian, rfl, fun d => ?_⟩
    rw [if_neg (by omega)]
  | succ k ih =>
    intro dof jacobian h7 hf hb
    have hdof : ¬ 7 ≤ dof := by omega
    have hfl : dof < front_jacs.length := by omega
    have hbl : dof < back_jacs.length := by omega
    obtain ⟨j, hj, hval⟩ := ih (dof + 1)
      (Function.update jacobian ⟨dof, Nat.lt_of_not_le hdof⟩
        (PWP3D.UpdateJacobian.dofValue DeltaFunction region_agreement sdf dsdf_dx dsdf_dy
          fx fy fp bp front_jacs[dof] back_jacs[dof]))
      (by omega) (by omega) (by omega)
    refine ⟨j, ?_, fun d => ?_⟩
    · rw [PWP3D.UpdateJacobian.loop]
      simp only [hdof, dite_false, List.getElem?_eq_getElem hfl, List.getElem?_eq_getElem hbl]
      exact hj
    · rw [hval d]
      by_cases h1 : dof + 1 ≤ d.val ∧ d.val < dof + 1 + k
      · have h2 : dof ≤ d.val ∧ d.val < dof + (k + 1) := by omega
        simp [h1, h2]
      · by_cases h3 : d.val = dof
        · have h2 : dof ≤ d.val ∧ d.val < dof + (k + 1) := by omega
          have hd : d = ⟨dof, Nat.lt_of_not_le hdof⟩ := Fin.ext h3
          subst hd
          simp [h1, List.getD_eq_getElem, hfl, hbl]
        · have h2 : ¬ (dof ≤ d.val ∧ d.val < dof + (k + 1)) := by omega
          have hd : d ≠ ⟨dof, Nat.lt_of_not_le hdof⟩ := fun h => h3 (congrArg Fin.val h)
          simp [h1, h2, Function.update_noteq hd]

/-- When the loop is asked to go past index 6 (and the derivative vectors exist up to
there), it throws the runtime error at index 7. -/
theorem UpdateJacobian.loop_throws (remaining : Nat) :
    ∀ (dof : Nat) (jacobian : Matx17), dof ≤ 7 → 7 < dof + remaining →
      dof + remaining ≤ front_jacs.length → dof + remaining ≤ back_jacs.length →
      PWP3D.UpdateJacobian.loop DeltaFunction region_agreement sdf dsdf_dx dsdf_dy fx fy
        fp bp front_jacs back_jacs remaining dof jacobian
        = Except.error (Fault.runtime_error "") := by
  induction remaining with
  | zero => intro dof jacobian h1 h2; omega
  | succ k ih =>
    intro dof jacobian h1 h2 hf hb
    rw [PWP3D.UpdateJacobian.loop]
    by_cases hdof : 7 ≤ dof
    · simp [hdof]
    · have hfl : dof < front_jacs.length := by omega
      have hbl : dof < back_jacs.length := by omega
      simp only [hdof, dite_false, List.getElem?_eq_getElem hfl, List.getElem?_eq_getElem hbl]
      exact ih (dof + 1) _ (by omega) (by omega) (by omega) (by omega)

end UpdateJacobianLemmas

/-- C3 (as stated, refuted): a one-DOF model, `jacobian(0) = 1` before the call, a pixel
whose contribution is 2.  After the call `jacobian(0)` is 2, the contribution alone, and not
the running sum `1 + 2`. -/
theorem UpdateJacobian_not_accumulating :
    ∃ j : Matx17,
      PWP3D.UpdateJacobian (fun _ => 1) (FloatVal.fin 1) 1 1 0 1 1 ![0, 0, 1] ![0, 0, 1]
        { ComputeJacobian := fun _ _ => [![1, 0, 0]], GetNumDofs := 1 }
        (fun _ => FloatVal.fin 1) = Except.ok j ∧
      j 0 = FloatVal.fin 2 ∧
      j 0 ≠ FloatVal.fin 1 +
        PWP3D.UpdateJacobian.dofValue (fun _ => 1) (FloatVal.fin 1) 1 1 0 1 1
          ![0, 0, 1] ![0, 0, 1] ![1, 0, 0] ![1, 0, 0] := by
  have hv : PWP3D.UpdateJacobian.dofValue (fun _ => 1) (FloatVal.fin 1) 1 1 0 1 1
      ![0, 0, 1] ![0, 0, 1] ![1, 0, 0] ![1, 0, 0] = FloatVal.fin 2 := by
    simp [PWP3D.UpdateJacobian.dofValue, fdiv, FloatVal.fin_add_fin, FloatVal.fin_mul_fin]
    norm_num
  refine ⟨Function.update (fun _ => FloatVal.fin 1) 0 (FloatVal.fin 2), ?_, ?_, ?_⟩
  · simp only [PWP3D.UpdateJacobian, PWP3D.UpdateJacobian.loop]
    simp [hv]
  · simp
  · rw [hv, FloatVal.fin_add_fin]
    simp

/-- C3 (amended): when the model has at most 7 DOFs and `ComputeJacobian` yields a
derivative vector for each of them, `UpdateJacobian` completes and, for every active DOF
`d`, `jacobian(d)` after the call is this pixel's contribution
`region_agreement * (Dirac(s) * (deriv_x + deriv_y))` for `d`: the entry is assigned, whatever
it held before the call; the entries of the inactive DOFs keep their value. -/
theorem UpdateJacobian_assigns (DeltaFunction : ℚ → ℚ) (region_agreement : FloatVal)
    (sdf dsdf_dx dsdf_dy fx fy : ℚ) (fp bp : Vec3f) (model : Model) (jacobian : Matx17)
    (hn : model.GetNumDofs ≤ 7)
    (hf : model.GetNumDofs ≤ (model.ComputeJacobian fp 0).length)
    (hb : model.GetNumDofs ≤ (model.ComputeJacobian bp 0).length) :
    ∃ j : Matx17,
      PWP3D.UpdateJacobian DeltaFunction region_agreement sdf dsdf_dx dsdf_dy fx fy fp bp
        model jacobian = Except.ok j ∧
      (∀ d : Fin 7, d.val < model.GetNumDofs →
        j d = PWP3D.UpdateJacobian.dofValue DeltaFunction region_agreement sdf dsdf_dx dsdf_dy
          fx fy fp bp ((model.ComputeJacobian fp 0).getD d.val default)
          ((model.ComputeJacobian bp 0).getD d.val default)) ∧
      (∀ d : Fin 7, model.GetNumDofs ≤ d.val → j d = jacobian d) := by
  obtain ⟨j, hj, hval⟩ := UpdateJacobian.loop_ok DeltaFunction region_agreement sdf dsdf_dx
    dsdf_dy fx fy fp bp (model.ComputeJacobian fp 0) (model.ComputeJacobian bp 0)
    model.GetNumDofs 0 jacobian (by omega) (by omega) (by omega)
  refine ⟨j, hj, fun d hd => ?_, fun d hd => ?_⟩
  · rw [hval d, if_pos (by omega)]
  · rw [hval d, if_neg (by omega)]

/-- Witness for C3 (amended): the one-DOF model of the counterexample, where the entry
becomes the contribution 2. -/
theorem UpdateJacobian_assigns_witness :
    ∃ j : Matx17,
      PWP3D.UpdateJacobian (fun _ => 1) (FloatVal.fin 1) 1 1 0 1 1 ![0, 0, 1] ![0, 0, 1]
        { ComputeJacobian := fun _ _ => [![1, 0, 0]], GetNumDofs := 1 }
        (fun _ => FloatVal.fin 1) = Except.ok j ∧
      (∀ d : Fin 7, d.val < 1 →
        j d = PWP3D.UpdateJacobian.dofValue (fun _ => 1) (FloatVal.fin 1) 1 1 0 1 1
          ![0, 0, 1] ![0, 0, 1] (([![1, 0, 0]] : List Vec3f).getD d.val default)
          (([![1, 0, 0]] : List Vec3f).getD d.val default)) ∧
      (∀ d : Fin 7, 1 ≤ d.val → j d = FloatVal.fin 1) :=
  UpdateJacobian_assigns (fun _ => 1) (FloatVal.fin 1) 1 1 0 1 1 ![0, 0, 1] ![0, 0, 1]
    { ComputeJacobian := fun _ _ => [![1, 0, 0]], GetNumDofs := 1 } (fun _ => FloatVal.fin 1)
    (by decide) (by decide) (by decide)

/-- C4: assuming `ComputeJacobian` yields one derivative vector per DOF, `UpdateJacobian`
fails if and only if the DOF count exceeds 7; the failure is then the thrown
`std::runtime_error` (no truncation to 7 entries), and with at most 7 DOFs the call
completes. -/
theorem UpdateJacobian_throws_iff (DeltaFunction : ℚ → ℚ) (region_agreement : FloatVal)
    (sdf dsdf_dx dsdf_dy fx fy : ℚ) (fp bp : Vec3f) (model : Model) (jacobian : Matx17)
    (hf : (model.ComputeJacobian fp 0).length = model.GetNumDofs)
    (hb : (model.ComputeJacobian bp 0).length = model.GetNumDofs) :
    ((∃ e : Fault, PWP3D.UpdateJacobian DeltaFunction region_agreement sdf dsdf_dx dsdf_dy
        fx fy fp bp model jacobian = Except.error e) ↔ 7 < model.GetNumDofs) ∧
    (7 < model.GetNumDofs →
      PWP3D.UpdateJacobian DeltaFunction region_agreement sdf dsdf_dx dsdf_dy fx fy fp bp
        model jacobian = Except.error (Fault.runtime_error "")) ∧
    (model.GetNumDofs ≤ 7 →
      ∃ j : Matx17, PWP3D.UpdateJacobian DeltaFunction region_agreement sdf dsdf_dx dsdf_dy
        fx fy fp bp model jacobian = Except.ok j) := by
  have hthrow : 7 < model.GetNumDofs →
      PWP3D.UpdateJacobian DeltaFunction region_agreement sdf dsdf_dx dsdf_dy fx fy fp bp
        model jacobian = Except.error (Fault.runtime_error "") := fun h =>
    UpdateJacobian.loop_throws DeltaFunction region_agreement sdf dsdf_dx dsdf_dy fx fy fp bp
      (model.ComputeJacobian fp 0) (model.ComputeJacobian bp 0) model.GetNumDofs 0 jacobian
      (by omega) (by omega) (by omega) (by omega)
  have hok : model.GetNumDofs ≤ 7 →
      ∃ j : Matx17, PWP3D.UpdateJacobian DeltaFunction region_agreement sdf dsdf_dx dsdf_dy
        fx fy fp bp model jacobian = Except.ok j := fun h => by
    obtain ⟨j, hj, _⟩ := UpdateJacobian.loop_ok DeltaFunction region_agreement sdf dsdf_dx
      dsdf_dy fx fy fp bp (model.ComputeJacobian fp 0) (model.ComputeJacobian bp 0)
      model.GetNumDofs 0 jacobian (by omega) (by omega) (by omega)
    exact ⟨j, hj⟩
  refine ⟨⟨fun ⟨e, he⟩ => ?_, fun h => ⟨_, hthrow h⟩⟩, hthrow, hok⟩
  by_contra hcon
  obtain ⟨j, hj⟩ := hok (by omega)
  rw [hj] at he
  cases he

/-- Witness for C4: a model with 8 DOFs (one derivative vector each) makes the call throw,
and one with 7 DOFs completes. -/
theorem UpdateJacobian_throws_iff_witness :
    PWP3D.UpdateJacobian (fun _ => 1) (FloatVal.fin 1) 1 1 0 1 1 ![0, 0, 1] ![0, 0, 1]
        { ComputeJacobian := fun _ _ => List.replicate 8 ![1, 0, 0], GetNumDofs := 8 }
        (fun _ => FloatVal.fin 0) = Except.error (Fault.runtime_error "") ∧
    ∃ j : Matx17,
      PWP3D.UpdateJacobian (fun _ => 1) (FloatVal.fin 1) 1 1 0 1 1 ![0, 0, 1] ![0, 0, 1]
        { ComputeJacobian := fun _ _ => List.replicate 7 ![1, 0, 0], GetNumDofs := 7 }
        (fun _ => FloatVal.fin 0) = Except.ok j :=
  ⟨(UpdateJacobian_throws_iff (fun _ => 1) (FloatVal.fin 1) 1 1 0 1 1 ![0, 0, 1] ![0, 0, 1]
      { ComputeJacobian := fun _ _ => List.replicate 8 ![1, 0, 0], GetNumDofs := 8 }
      (fun _ => FloatVal.fin 0) (by simp) (by simp)).2.1 (by decide),
   (UpdateJacobian_throws_iff (fun _ => 1) (FloatVal.fin 1) 1 1 0 1 1 ![0, 0, 1] ![0, 0, 1]
      { ComputeJacobian := fun _ _ => List.replicate 7 ![1, 0, 0], GetNumDofs := 7 }
      (fun _ => FloatVal.fin 0) (by simp) (by simp)).2.2 (by decide)⟩

/-- The SDF value `ProcessSDFAndIntersectionImage` leaves at an in-range pixel: the distance
transform value, negated when the front depth passes the far test. -/
theorem ProcessSDF_sdf_at (GL_FAR EPS : ℚ) (distanceTransform : Mat Nat → Mat ℚ)
    (roi_rows roi_cols : Nat) (rendered : RenderedBuffers) (camera : MonocularCamera)
    (r c : Nat) (hr : r < (distanceTransform rendered.contour).rows)
    (hc : c < (distanceTransform rendered.contour).cols) :
    (PWP3D.ProcessSDFAndIntersectionImage GL_FAR EPS distanceTransform roi_rows roi_cols
        rendered camera).1.sdf_image.at_ r c =
      if |(rendered.front_depth.at_ r c) 0 - GL_FAR| < EPS then
        (distanceTransform rendered.contour).at_ r c * -1
      else (distanceTransform rendered.contour).at_ r c := by
  simp only [PWP3D.ProcessSDFAndIntersectionImage]
  rw [Mat.ofFn_at _ _ _ r c hr hc]

/-- C5 (as stated, refuted): in the sample render the middle pixel is on the object (front
depth 5, not the far value 1000), yet its SDF value is 0, not positive: it is the contour
pixel itself. -/
theorem SDF_inside_not_positive :
    ¬ (0 < (PWP3D.ProcessSDFAndIntersectionImage 1000 (1 / 1000) sampleDistanceTransform 1 3
          sampleRendered sampleCamera).1.sdf_image.at_ 0 1 ↔
        ¬ |(sampleRendered.front_depth.at_ 0 1) 0 - 1000| < 1 / 1000) := by
  rw [ProcessSDF_sdf_at _ _ _ _ _ _ _ 0 1 (by decide) (by decide)]
  simp [sampleRendered, sampleDistanceTransform, Mat.at_]
  norm_num [abs_lt]

/-- C5 (amended): at every pixel `p` of the SDF image, given that the distance transform is
non-negative there, `SDF[p] > 0` if and only if `p` is inside the rendered silhouette (its
front depth does not pass the far test) and its distance to the contour is not zero; and
`SDF[p] < 0` if and only if `p` is outside and its distance is not zero.  Contour pixels
(distance zero) have `SDF[p] = 0`. -/
theorem SDF_pos_iff_inside_off_contour (GL_FAR EPS : ℚ) (distanceTransform : Mat Nat → Mat ℚ)
    (roi_rows roi_cols : Nat) (rendered : RenderedBuffers) (camera : MonocularCamera)
    (r c : Nat) (hr : r < (distanceTransform rendered.contour).rows)
    (hc : c < (distanceTransform rendered.contour).cols)
    (hnn : 0 ≤ (distanceTransform rendered.contour).at_ r c) :
    (0 < (PWP3D.ProcessSDFAndIntersectionImage GL_FAR EPS distanceTransform roi_rows roi_cols
          rendered camera).1.sdf_image.at_ r c ↔
        (¬ |(rendered.front_depth.at_ r c) 0 - GL_FAR| < EPS ∧
          0 < (distanceTransform rendered.contour).at_ r c)) ∧
    ((PWP3D.ProcessSDFAndIntersectionImage GL_FAR EPS distanceTransform roi_rows roi_cols
          rendered camera).1.sdf_image.at_ r c < 0 ↔
        (|(rendered.front_depth.at_ r c) 0 - GL_FAR| < EPS ∧
          0 < (distanceTransform rendered.contour).at_ r c)) := by
  rw [ProcessSDF_sdf_at _ _ _ _ _ _ _ r c hr hc]
  by_cases hfar : |(rendered.front_depth.at_ r c) 0 - GL_FAR| < EPS
  · rw [if_pos hfar]
    refine ⟨⟨fun h => ?_, fun h => absurd hfar h.1⟩, ⟨fun h => ⟨hfar, ?_⟩, fun h => ?_⟩⟩
    · linarith
    · linarith
    · linarith [h.2]
  · rw [if_neg hfar]
    refine ⟨⟨fun h => ⟨hfar, h⟩, fun h => h.2⟩, ⟨fun h => ?_, fun h => absurd h.1 hfar⟩⟩
    linarith

/-- Witness for C5 (amended): the right pixel of the sample render is inside and at distance
1 from the contour. -/
theorem SDF_pos_iff_inside_off_contour_witness :
    (0 < (PWP3D.ProcessSDFAndIntersectionImage 1000 (1 / 1000) sampleDistanceTransform 1 3
          sampleRendered sampleCamera).1.sdf_image.at_ 0 2 ↔
        (¬ |(sampleRendered.front_depth.at_ 0 2) 0 - 1000| < 1 / 1000 ∧
          0 < (sampleDistanceTransform sampleRendered.contour).at_ 0 2)) ∧
    ((PWP3D.ProcessSDFAndIntersectionImage 1000 (1 / 1000) sampleDistanceTransform 1 3
          sampleRendered sampleCamera).1.sdf_image.at_ 0 2 < 0 ↔
        (|(sampleRendered.front_depth.at_ 0 2) 0 - 1000| < 1 / 1000 ∧
          0 < (sampleDistanceTransform sampleRendered.contour).at_ 0 2)) :=
  SDF_pos_iff_inside_off_contour 1000 (1 / 1000) sampleDistanceTransform 1 3 sampleRendered
    sampleCamera 0 2 (by decide) (by decide)
    (by simp [sampleDistanceTransform, Mat.at_])

/-- C6: at every pixel `p` of the SDF image, given the contract of the distance transform
(its value is non-negative, and zero on a zero pixel of the contour image), `|SDF[p]|` equals
the distance-transform value at `p` whether or not the sign was flipped, and a contour pixel
has `|SDF[p]| < 1`. -/
theorem SDF_abs_eq_distance (GL_FAR EPS : ℚ) (distanceTransform : Mat Nat → Mat ℚ)
    (roi_rows roi_cols : Nat) (rendered : RenderedBuffers) (camera : MonocularCamera)
    (r c : Nat) (hr : r < (distanceTransform rendered.contour).rows)
    (hc : c < (distanceTransform rendered.contour).cols)
    (hnn : 0 ≤ (distanceTransform rendered.contour).at_ r c)
    (hzero : rendered.contour.at_ r c = 0 → (distanceTransform rendered.contour).at_ r c = 0) :
    |(PWP3D.ProcessSDFAndIntersectionImage GL_FAR EPS distanceTransform roi_rows roi_cols
        rendered camera).1.sdf_image.at_ r c| = (distanceTransform rendered.contour).at_ r c ∧
    (rendered.contour.at_ r c = 0 →
      |(PWP3D.ProcessSDFAndIntersectionImage GL_FAR EPS distanceTransform roi_rows roi_cols
        rendered camera).1.sdf_image.at_ r c| < 1) := by
  have habs : |(PWP3D.ProcessSDFAndIntersectionImage GL_FAR EPS distanceTransform roi_rows
      roi_cols rendered camera).1.sdf_image.at_ r c|
      = (distanceTransform rendered.contour).at_ r c := by
    rw [ProcessSDF_sdf_at _ _ _ _ _ _ _ r c hr hc]
    split
    · rw [mul_neg_one, abs_neg, abs_of_nonneg hnn]
    · rw [abs_of_nonneg hnn]
  refine ⟨habs, fun hcont => ?_⟩
  rw [habs, hzero hcont]
  exact zero_lt_one

/-- Witness for C6: the left pixel of the sample render is outside (its sign is flipped) at
distance 1, and the middle pixel is the contour pixel. -/
theorem SDF_abs_eq_distance_witness :
    (|(PWP3D.ProcessSDFAndIntersectionImage 1000 (1 / 1000) sampleDistanceTransform 1 3
        sampleRendered sampleCamera).1.sdf_image.at_ 0 0|
        = (sampleDistanceTransform sampleRendered.contour).at_ 0 0) ∧
    |(PWP3D.ProcessSDFAndIntersectionImage 1000 (1 / 1000) sampleDistanceTransform 1 3
        sampleRendered sampleCamera).1.sdf_image.at_ 0 1| < 1 :=
  ⟨(SDF_abs_eq_distance 1000 (1 / 1000) sampleDistanceTransform 1 3 sampleRendered
      sampleCamera 0 0 (by decide) (by decide)
      (by simp [sampleDistanceTransform, Mat.at_])
      (by simp [sampleRendered, Mat.at_])).1,
   (SDF_abs_eq_distance 1000 (1 / 1000) sampleDistanceTransform 1 3 sampleRendered
      sampleCamera 0 1 (by decide) (by decide)
      (by simp [sampleDistanceTransform, Mat.at_])
      (by simp [sampleDistanceTransform, Mat.at_])).2
     (by simp [sampleRendered, Mat.at_])⟩

theorem truncToInt_intCast (n : ℤ) : truncToInt (n : ℚ) = n := by
  unfold truncToInt
  split <;> simp

/-- C7 (failing input): on the `1 x 1` SDF image whose pixel is 5 px inside the contour,
`ComputeAreas` leaves `fg_area = 5` (the raw SDF value, no Heaviside step applied) and an
indeterminate `bg_area` (the float `1 - 5 = -4` does not fit `size_t`); the pixel is farther
than 2.9 from the contour, so `contour_area` keeps its value. -/
theorem ComputeAreas_sums_raw_sdf :
    PWP3D.ComputeAreas { rows := 1, cols := 1, data := [5] } 0 0 0
      = { fg_area := some 5, bg_area := none, contour_area := 0 } := by
  have h5 : truncToInt (5 : ℚ) = 5 := by
    have := truncToInt_intCast 5
    simpa using this
  have h4 : truncToInt ((1 : ℚ) - 5) = -4 := by
    have := truncToInt_intCast (-4)
    norm_num at this ⊢
    exact this
  simp only [PWP3D.ComputeAreas, List.range_succ, List.range_zero, List.nil_append,
    List.foldl_cons, List.foldl_nil, PWP3D.ComputeAreas.pixel, Mat.at_, addFloatToSizeT,
    toSizeT, Option.some_bind, Nat.cast_zero, zero_mul, zero_add, List.getD_cons_zero]
  rw [h5, h4]
  norm_num
  rfl

/-- C8 (failing input): on the `1 x 3` SDF image `[1, 0, 1]` (all three pixels within 2.9 of
the contour) with `contour_area = 0` on entry, `ComputeAreas` visits column 0 only, because
the column loop is bounded by `sdf.rows`, and reports `contour_area = 1`; the number of
pixels with `|s| < 3 - 0.1` is 3. -/
theorem ComputeAreas_column_bound :
    (PWP3D.ComputeAreas { rows := 1, cols := 3, data := [1, 0, 1] } 0 0 0).contour_area = 1 ∧
    contourBandCount { rows := 1, cols := 3, data := [1, 0, 1] } 3 (1 / 10) = 3 := by
  constructor
  · simp only [PWP3D.ComputeAreas, List.range_succ, List.range_zero, List.nil_append,
      List.foldl_cons, List.foldl_nil, PWP3D.ComputeAreas.pixel, Mat.at_, zero_mul, zero_add,
      List.getD_cons_zero]
    norm_num
  · simp only [contourBandCount, List.range_succ, List.range_zero, List.nil_append,
      List.map_cons, List.map_nil, List.sum_cons, List.sum_nil, Mat.at_, zero_mul, zero_add]
    simp [List.filter_cons, abs_lt]
    norm_num

theorem vec2_eta (v : Vec2f) : (![v 0, v 1] : Vec2f) = v := by
  funext i
  fin_cases i <;> rfl

/-- A call on a camera with nothing cached builds the table for the requested size and
stores it in the camera. -/
theorem GetUnprojectedImagePlane_build (cam : MonocularCamera) (width height : Nat)
    (hempty : cam.unprojected_image_.data = []) :
    (cam.GetUnprojectedImagePlane width height).1.rows = height ∧
    (cam.GetUnprojectedImagePlane width height).1.cols = width ∧
    (cam.GetUnprojectedImagePlane width height).1.data.length = height * width ∧
    (∀ r c : Nat, r < height → c < width →
      (cam.GetUnprojectedImagePlane width height).1.at_ r c
        = cam.undistortPoint ![(c : ℚ), (r : ℚ)]) ∧
    (cam.GetUnprojectedImagePlane width height).2.unprojected_image_
      = (cam.GetUnprojectedImagePlane width height).1 ∧
    (cam.GetUnprojectedImagePlane width height).2.undistortPoint = cam.undistortPoint := by
  have hentry : ∀ r c : Nat, r < height → c < width →
      (undistortPoints cam.undistortPoint
        ((List.range height).flatMap
          (fun (r : Nat) => (List.range width).map
            (fun (c : Nat) => (![(c : ℚ), (r : ℚ)] : Vec2f))))).getD (width * r + c) default
        = cam.undistortPoint ![(c : ℚ), (r : ℚ)] := by
    intro r c hr hc
    have hlen : width * r + c <
        ((List.range height).flatMap
          (fun (r : Nat) => (List.range width).map
            (fun (c : Nat) => (![(c : ℚ), (r : ℚ)] : Vec2f)))).length := by
      rw [length_pixelGrid]
      have : (r + 1) * width ≤ height * width := Nat.mul_le_mul_right _ hr
      nlinarith
    have hget := getD_pixelGrid (fun (r c : Nat) => (![(c : ℚ), (r : ℚ)] : Vec2f)) default
      width height r c hr hc
    rw [List.getD_eq_getElem _ _ hlen] at hget
    unfold undistortPoints
    rw [List.getD_eq_getElem _ _ (by rw [List.length_map]; exact hlen), List.getElem_map, hget]
  have hcall : cam.GetUnprojectedImagePlane width height =
      (Mat.ofFn height width (fun r c =>
          ![((undistortPoints cam.undistortPoint
              ((List.range height).flatMap
                (fun (r : Nat) => (List.range width).map
                  (fun (c : Nat) => (![(c : ℚ), (r : ℚ)] : Vec2f))))).getD
                ((width * r) + c) default) 0,
            ((undistortPoints cam.undistortPoint
              ((List.range height).flatMap
                (fun (r : Nat) => (List.range width).map
                  (fun (c : Nat) => (![(c : ℚ), (r : ℚ)] : Vec2f))))).getD
                ((width * r) + c) default) 1]),
        { cam with unprojected_image_ := Mat.ofFn height width (fun r c =>
          ![((undistortPoints cam.undistortPoint
              ((List.range height).flatMap
                (fun (r : Nat) => (List.range width).map
                  (fun (c : Nat) => (![(c : ℚ), (r : ℚ)] : Vec2f))))).getD
                ((width * r) + c) default) 0,
            ((undistortPoints cam.undistortPoint
              ((List.range height).flatMap
                (fun (r : Nat) => (List.range width).map
                  (fun (c : Nat) => (![(c : ℚ), (r : ℚ)] : Vec2f))))).getD
                ((width * r) + c) default) 1]) }) := by
    unfold MonocularCamera.GetUnprojectedImagePlane
    rw [hempty]
    rfl
  rw [hcall]
  refine ⟨rfl, rfl, ?_, fun r c hr hc => ?_, rfl, rfl⟩
  · simp [Mat.ofFn]
  · rw [Mat.ofFn_at _ _ _ r c hr hc, vec2_eta, hentry r c hr hc]

/-- A call on a camera that holds a table returns that table and changes nothing, whatever
size is asked for. -/
theorem GetUnprojectedImagePlane_cached (cam : MonocularCamera) (width height : Nat)
    (hfull : cam.unprojected_image_.data ≠ []) :
    cam.GetUnprojectedImagePlane width height = (cam.unprojected_image_, cam) := by
  have : cam.unprojected_image_.data.isEmpty = false := by
    cases hd : cam.unprojected_image_.data with
    | nil => exact absurd hd hfull
    | cons _ _ => rfl
  simp [MonocularCamera.GetUnprojectedImagePlane, this]

/-- C9 (as stated, refuted): on the sample camera, after `GetUnprojectedImagePlane(1, 1)` the
call `GetUnprojectedImagePlane(2, 1)` does not return a table of 1 row and 2 columns holding
the unprojection of both pixels: it returns the cached table, which has 1 column. -/
theorem GetUnprojectedImagePlane_not_invalidated :
    ¬ ((((sampleCamera.GetUnprojectedImagePlane 1 1).2).GetUnprojectedImagePlane 2 1).1.rows = 1 ∧
       (((sampleCamera.GetUnprojectedImagePlane 1 1).2).GetUnprojectedImagePlane 2 1).1.cols = 2 ∧
       ∀ r c : Nat, r < 1 → c < 2 →
         (((sampleCamera.GetUnprojectedImagePlane 1 1).2).GetUnprojectedImagePlane 2 1).1.at_ r c
           = sampleCamera.undistortPoint ![(c : ℚ), (r : ℚ)]) := by
  intro h
  have hcols := h.2.1
  simp [MonocularCamera.GetUnprojectedImagePlane, sampleCamera, Mat.ofFn] at hcols

/-- C9 (amended): the cached table is never invalidated.  On a camera with nothing cached,
the first call `GetUnprojectedImagePlane(w1, h1)` with `w1 * h1 > 0` returns the `h1 x w1`
table that holds the unprojection of every pixel `(x = c, y = r)` of the `w1 x h1` image, and
a later call `GetUnprojectedImagePlane(w2, h2)` returns that same table, for every `(w2, h2)`,
and leaves the camera as it was. -/
theorem GetUnprojectedImagePlane_cached_forever (cam : MonocularCamera) (w1 h1 w2 h2 : Nat)
    (hempty : cam.unprojected_image_.data = []) (hsize : 0 < w1 * h1) :
    (cam.GetUnprojectedImagePlane w1 h1).1.rows = h1 ∧
    (cam.GetUnprojectedImagePlane w1 h1).1.cols = w1 ∧
    (∀ r c : Nat, r < h1 → c < w1 →
      (cam.GetUnprojectedImagePlane w1 h1).1.at_ r c = cam.undistortPoint ![(c : ℚ), (r : ℚ)]) ∧
    ((cam.GetUnprojectedImagePlane w1 h1).2.GetUnprojectedImagePlane w2 h2).1
      = (cam.GetUnprojectedImagePlane w1 h1).1 ∧
    ((cam.GetUnprojectedImagePlane w1 h1).2.GetUnprojectedImagePlane w2 h2).2
      = (cam.GetUnprojectedImagePlane w1 h1).2 := by
  obtain ⟨hrows, hcols, hlen, hat, hstore, _⟩ := GetUnprojectedImagePlane_build cam w1 h1 hempty
  have hfull : (cam.GetUnprojectedImagePlane w1 h1).2.unprojected_image_.data ≠ [] := by
    rw [hstore]
    intro hnil
    rw [hnil, List.length_nil, Nat.mul_comm] at hlen
    omega
  have hsecond := GetUnprojectedImagePlane_cached (cam.GetUnprojectedImagePlane w1 h1).2 w2 h2
    hfull
  refine ⟨hrows, hcols, hat, ?_, ?_⟩
  · rw [hsecond, hstore]
  · rw [hsecond]

/-- Witness for C9 (amended): the sample camera asked for a `2 x 1` image and then for a
`3 x 4` one. -/
theorem GetUnprojectedImagePlane_cached_forever_witness :
    (sampleCamera.GetUnprojectedImagePlane 2 1).1.rows = 1 ∧
    (sampleCamera.GetUnprojectedImagePlane 2 1).1.cols = 2 ∧
    (∀ r c : Nat, r < 1 → c < 2 →
      (sampleCamera.GetUnprojectedImagePlane 2 1).1.at_ r c
        = sampleCamera.undistortPoint ![(c : ℚ), (r : ℚ)]) ∧
    ((sampleCamera.GetUnprojectedImagePlane 2 1).2.GetUnprojectedImagePlane 3 4).1
      = (sampleCamera.GetUnprojectedImagePlane 2 1).1 ∧
    ((sampleCamera.GetUnprojectedImagePlane 2 1).2.GetUnprojectedImagePlane 3 4).2
      = (sampleCamera.GetUnprojectedImagePlane 2 1).2 :=
  GetUnprojectedImagePlane_cached_forever sampleCamera 2 1 3 4 rfl (by decide)

/-- C10: a newly constructed `PWP3D` has the step budget `NUM_STEPS = 45` and a step counter
`curr_step` equal to it, so the counter does not exceed the budget and a tracker that owns
the object asks for a new frame before any refinement step has run. -/
theorem PWP3D_ctor_step_budget (width height : Int) :
    (PWP3D.ctor width height).NUM_STEPS = 45 ∧
    (PWP3D.ctor width height).curr_step = (PWP3D.ctor width height).NUM_STEPS ∧
    (PWP3D.ctor width height).curr_step ≤ (PWP3D.ctor width height).NUM_STEPS ∧
    Tracker.NeedsNewFrame { localizer_ := PWP3D.ctor width height } = true := by
  refine ⟨rfl, rfl, le_refl _, ?_⟩
  simp [Tracker.NeedsNewFrame, PWP3D.NeedsNewFrame, PWP3D.ctor]

/-- C12: for every classification image, pixel and SDF value `s`, `GetErrorValue` returns
`-log(H(s)*Pf + (1 - H(s))*Pb + 1e-7)` with `Pb` channel 0 and `Pf` channel 1 of the image at
the pixel, and the value is the same for every `target_label`. -/
theorem GetErrorValue_formula (log : ℚ → FloatVal) (H : ℚ → ℚ) (img : Mat Vec4f)
    (r c : Nat) (s : ℚ) (target_label : Int) :
    PWP3D.GetErrorValue log H img r c s target_label =
      FloatVal.neg (log (H s * (img.at_ r c) 1 + (1 - H s) * (img.at_ r c) 0 + 1 / 10000000)) ∧
    ∀ other_label : Int,
      PWP3D.GetErrorValue log H img r c s other_label =
        PWP3D.GetErrorValue log H img r c s target_label :=
  ⟨rfl, fun _ => rfl⟩

/-- Off the contour (`sdf ≠ 0`) and with both intersection points at non-zero depth, the
value stored for a degree of freedom is the product of the region agreement, the Dirac value
and the blend of the front and back projection derivatives. -/
theorem UpdateJacobian.dofValue_off_contour (DeltaFunction : ℚ → ℚ)
    (region_agreement : FloatVal) (sdf dsdf_dx dsdf_dy fx fy : ℚ) (fp bp dF dB : Vec3f)
    (hs : sdf ≠ 0) (hzf : fp 2 ≠ 0) (hzb : bp 2 ≠ 0) :
    PWP3D.UpdateJacobian.dofValue DeltaFunction region_agreement sdf dsdf_dx dsdf_dy fx fy
        fp bp dF dB =
      region_agreement * FloatVal.fin (DeltaFunction sdf) *
        FloatVal.fin
          (dsdf_dx * fx * ((fp 2 * dF 0 - fp 0 * dF 2) / fp 2 ^ 2
              + (bp 2 * dB 0 - bp 0 * dB 2) / bp 2 ^ 2)
            + dsdf_dy * fy * ((fp 2 * dF 1 - fp 1 * dF 2) / fp 2 ^ 2
              + (bp 2 * dB 1 - bp 1 * dB 2) / bp 2 ^ 2)) := by
  have hf2 : fp 2 * fp 2 ≠ 0 := mul_ne_zero hzf hzf
  have hb2 : bp 2 * bp 2 ≠ 0 := mul_ne_zero hzb hzb
  unfold PWP3D.UpdateJacobian.dofValue
  simp only [if_neg hs, fdiv_of_ne_zero _ _ hf2, fdiv_of_ne_zero _ _ hb2,
    FloatVal.fin_mul_fin, FloatVal.fin_add_fin]
  cases region_agreement with
  | nonfin => rfl
  | fin ra =>
    simp only [FloatVal.fin_mul_fin]
    congr 1
    field_simp
    ring

/-- On the contour (`sdf = 0`) and with the front intersection point at non-zero depth, the
value stored for a degree of freedom uses the front projection derivative only. -/
theorem UpdateJacobian.dofValue_on_contour (DeltaFunction : ℚ → ℚ)
    (region_agreement : FloatVal) (dsdf_dx dsdf_dy fx fy : ℚ) (fp bp dF dB : Vec3f)
    (hzf : fp 2 ≠ 0) :
    PWP3D.UpdateJacobian.dofValue DeltaFunction region_agreement 0 dsdf_dx dsdf_dy fx fy
        fp bp dF dB =
      region_agreement * FloatVal.fin (DeltaFunction 0) *
        FloatVal.fin
          (dsdf_dx * fx * (fp 2 * dF 0 - fp 0 * dF 2) / fp 2 ^ 2
            + dsdf_dy * fy * (fp 2 * dF 1 - fp 1 * dF 2) / fp 2 ^ 2) := by
  have hf2 : fp 2 * fp 2 ≠ 0 := mul_ne_zero hzf hzf
  unfold PWP3D.UpdateJacobian.dofValue
  simp only [if_true, fdiv_of_ne_zero _ _ hf2, FloatVal.fin_mul_fin, FloatVal.fin_add_fin]
  cases region_agreement with
  | nonfin => rfl
  | fin ra =>
    simp only [FloatVal.fin_mul_fin]
    congr 1
    field_simp
    ring

/-- On the contour the stored value does not depend on the back intersection point or on
its derivative vector. -/
theorem UpdateJacobian.dofValue_on_contour_back (DeltaFunction : ℚ → ℚ)
    (region_agreement : FloatVal) (dsdf_dx dsdf_dy fx fy : ℚ) (fp bp bp2 dF dB dB2 : Vec3f) :
    PWP3D.UpdateJacobian.dofValue DeltaFunction region_agreement 0 dsdf_dx dsdf_dy fx fy
        fp bp dF dB =
      PWP3D.UpdateJacobian.dofValue DeltaFunction region_agreement 0 dsdf_dx dsdf_dy fx fy
        fp bp2 dF dB2 := by
  unfold PWP3D.UpdateJacobian.dofValue
  simp only [if_true]

/-- C13: for a pixel with `s ≠ 0` whose front and back intersection points have non-zero
depth, on a model with at most 7 DOFs and a derivative vector for each, `UpdateJacobian`
leaves in `jacobian(d)`, for every active DOF `d`, the value
`region_agreement * Dirac(s) * [ dsdf_dx * fx * ((zf*dVf_x - xf*dVf_z)/zf^2 +
(zb*dVb_x - xb*dVb_z)/zb^2) + dsdf_dy * fy * ((zf*dVf_y - yf*dVf_z)/zf^2 +
(zb*dVb_y - yb*dVb_z)/zb^2) ]`, with `dVf`, `dVb` the derivative vectors of `d` at the front
and back intersection points. -/
theorem UpdateJacobian_off_contour (DeltaFunction : ℚ → ℚ) (region_agreement : FloatVal)
    (sdf dsdf_dx dsdf_dy fx fy : ℚ) (fp bp : Vec3f) (model : Model) (jacobian : Matx17)
    (hs : sdf ≠ 0) (hzf : fp 2 ≠ 0) (hzb : bp 2 ≠ 0)
    (hn : model.GetNumDofs ≤ 7)
    (hf : model.GetNumDofs ≤ (model.ComputeJacobian fp 0).length)
    (hb : model.GetNumDofs ≤ (model.ComputeJacobian bp 0).length) :
    ∃ j : Matx17,
      PWP3D.UpdateJacobian DeltaFunction region_agreement sdf dsdf_dx dsdf_dy fx fy fp bp
        model jacobian = Except.ok j ∧
      ∀ d : Fin 7, d.val < model.GetNumDofs →
        j d = region_agreement * FloatVal.fin (DeltaFunction sdf) *
          FloatVal.fin
            (dsdf_dx * fx *
                ((fp 2 * ((model.ComputeJacobian fp 0).getD d.val default) 0
                    - fp 0 * ((model.ComputeJacobian fp 0).getD d.val default) 2) / fp 2 ^ 2
                  + (bp 2 * ((model.ComputeJacobian bp 0).getD d.val default) 0
                    - bp 0 * ((model.ComputeJacobian bp 0).getD d.val default) 2) / bp 2 ^ 2)
              + dsdf_dy * fy *
                ((fp 2 * ((model.ComputeJacobian fp 0).getD d.val default) 1
                    - fp 1 * ((model.ComputeJacobian fp 0).getD d.val default) 2) / fp 2 ^ 2
                  + (bp 2 * ((model.ComputeJacobian bp 0).getD d.val default) 1
                    - bp 1 * ((model.ComputeJacobian bp 0).getD d.val default) 2)
                      / bp 2 ^ 2)) := by
  obtain ⟨j, hj, hval⟩ := UpdateJacobian.loop_ok DeltaFunction region_agreement sdf dsdf_dx
    dsdf_dy fx fy fp bp (model.ComputeJacobian fp 0) (model.ComputeJacobian bp 0)
    model.GetNumDofs 0 jacobian (by omega) (by omega) (by omega)
  refine ⟨j, hj, fun d hd => ?_⟩
  rw [hval d, if_pos (by omega)]
  exact UpdateJacobian.dofValue_off_contour DeltaFunction region_agreement sdf dsdf_dx dsdf_dy
    fx fy fp bp _ _ hs hzf hzb

/-- Witness for C13: a one-DOF model whose derivative vector is `(1, 0, 0)` at both
intersection points `(0, 0, 1)`, with `s = 1`, unit gradient in `x` and unit focal lengths:
the stored value is `1 * 1 * (1 * 1 * (1 + 1) + 0) = 2`. -/
theorem UpdateJacobian_off_contour_witness :
    ∃ j : Matx17,
      PWP3D.UpdateJacobian (fun _ => 1) (FloatVal.fin 1) 1 1 0 1 1 ![0, 0, 1] ![0, 0, 1]
        { ComputeJacobian := fun _ _ => [![1, 0, 0]], GetNumDofs := 1 }
        (fun _ => FloatVal.fin 0) = Except.ok j ∧
      j 0 = FloatVal.fin 2 := by
  obtain ⟨j, hj, hval⟩ := UpdateJacobian_off_contour (fun _ => 1) (FloatVal.fin 1) 1 1 0 1 1
    ![0, 0, 1] ![0, 0, 1] { ComputeJacobian := fun _ _ => [![1, 0, 0]], GetNumDofs := 1 }
    (fun _ => FloatVal.fin 0) (by norm_num) (by simp) (by simp) (by decide) (by decide)
    (by decide)
  refine ⟨j, hj, ?_⟩
  rw [hval 0 (by decide)]
  simp [FloatVal.fin_mul_fin]
  norm_num

/-- C14: for a pixel exactly on the contour (`s = 0`) whose front intersection point has
non-zero depth, on a model with at most 7 DOFs and a derivative vector for each,
`UpdateJacobian` leaves in `jacobian(d)`, for every active DOF `d`, the value
`region_agreement * Dirac(0) * [ dsdf_dx * fx * (zf*dVf_x - xf*dVf_z)/zf^2 +
dsdf_dy * fy * (zf*dVf_y - yf*dVf_z)/zf^2 ]`; and a second call that differs only in the back
intersection point and the derivative vectors there yields the same jacobian. -/
theorem UpdateJacobian_on_contour (DeltaFunction : ℚ → ℚ) (region_agreement : FloatVal)
    (dsdf_dx dsdf_dy fx fy : ℚ) (fp bp bp2 : Vec3f) (model model2 : Model)
    (jacobian : Matx17) (hzf : fp 2 ≠ 0)
    (hn : model.GetNumDofs ≤ 7)
    (hf : model.GetNumDofs ≤ (model.ComputeJacobian fp 0).length)
    (hb : model.GetNumDofs ≤ (model.ComputeJacobian bp 0).length)
    (hdofs : model2.GetNumDofs = model.GetNumDofs)
    (hfront : model2.ComputeJacobian fp 0 = model.ComputeJacobian fp 0)
    (hb2 : model.GetNumDofs ≤ (model2.ComputeJacobian bp2 0).length) :
    ∃ j : Matx17,
      PWP3D.UpdateJacobian DeltaFunction region_agreement 0 dsdf_dx dsdf_dy fx fy fp bp
        model jacobian = Except.ok j ∧
      (∀ d : Fin 7, d.val < model.GetNumDofs →
        j d = region_agreement * FloatVal.fin (DeltaFunction 0) *
          FloatVal.fin
            (dsdf_dx * fx *
                (fp 2 * ((model.ComputeJacobian fp 0).getD d.val default) 0
                  - fp 0 * ((model.ComputeJacobian fp 0).getD d.val default) 2) / fp 2 ^ 2
              + dsdf_dy * fy *
                (fp 2 * ((model.ComputeJacobian fp 0).getD d.val default) 1
                  - fp 1 * ((model.ComputeJacobian fp 0).getD d.val default) 2)
                    / fp 2 ^ 2)) ∧
      PWP3D.UpdateJacobian DeltaFunction region_agreement 0 dsdf_dx dsdf_dy fx fy fp bp2
        model2 jacobian = Except.ok j := by
  obtain ⟨j, hj, hval⟩ := UpdateJacobian.loop_ok DeltaFunction region_agreement 0 dsdf_dx
    dsdf_dy fx fy fp bp (model.ComputeJacobian fp 0) (model.ComputeJacobian bp 0)
    model.GetNumDofs 0 jacobian (by omega) (by omega) (by omega)
  obtain ⟨j2, hj2, hval2⟩ := UpdateJacobian.loop_ok DeltaFunction region_agreement 0 dsdf_dx
    dsdf_dy fx fy fp bp2 (model.ComputeJacobian fp 0) (model2.ComputeJacobian bp2 0)
    model.GetNumDofs 0 jacobian (by omega) (by omega) (by omega)
  have hsame : j2 = j := by
    funext d
    rw [hval d, hval2 d]
    by_cases hd : 0 ≤ d.val ∧ d.val < 0 + model.GetNumDofs
    · rw [if_pos hd, if_pos hd]
      exact UpdateJacobian.dofValue_on_contour_back DeltaFunction region_agreement dsdf_dx
        dsdf_dy fx fy fp bp2 bp _ _ _
    · rw [if_neg hd, if_neg hd]
  refine ⟨j, hj, fun d hd => ?_, ?_⟩
  · rw [hval d, if_pos (by omega)]
    exact UpdateJacobian.dofValue_on_contour DeltaFunction region_agreement dsdf_dx dsdf_dy
      fx fy fp bp _ _ hzf
  · unfold PWP3D.UpdateJacobian
    simp only [hdofs, hfront]
    rw [← hsame]
    exact hj2

/-- Witness for C14: the one-DOF model on a contour pixel, once with the back intersection
point `(0, 0, 1)` and once with `(3, 4, 5)`: both calls store `1 * 1 * (1 * 1 * 1 / 1 + 0) = 1`. -/
theorem UpdateJacobian_on_contour_witness :
    ∃ j : Matx17,
      PWP3D.UpdateJacobian (fun _ => 1) (FloatVal.fin 1) 0 1 0 1 1 ![0, 0, 1] ![0, 0, 1]
        { ComputeJacobian := fun _ _ => [![1, 0, 0]], GetNumDofs := 1 }
        (fun _ => FloatVal.fin 0) = Except.ok j ∧
      j 0 = FloatVal.fin 1 ∧
      PWP3D.UpdateJacobian (fun _ => 1) (FloatVal.fin 1) 0 1 0 1 1 ![0, 0, 1] ![3, 4, 5]
        { ComputeJacobian := fun _ _ => [![1, 0, 0]], GetNumDofs := 1 }
        (fun _ => FloatVal.fin 0) = Except.ok j := by
  obtain ⟨j, hj, hval, hj2⟩ := UpdateJacobian_on_contour (fun _ => 1) (FloatVal.fin 1) 1 0 1 1
    ![0, 0, 1] ![0, 0, 1] ![3, 4, 5]
    { ComputeJacobian := fun _ _ => [![1, 0, 0]], GetNumDofs := 1 }
    { ComputeJacobian := fun _ _ => [![1, 0, 0]], GetNumDofs := 1 }
    (fun _ => FloatVal.fin 0) (by simp) (by decide) (by decide) (by decide) rfl rfl
    (by decide)
  refine ⟨j, hj, ?_, hj2⟩
  rw [hval 0 (by decide)]
  simp [FloatVal.fin_mul_fin]

/-- The front and back intersection points `ProcessSDFAndIntersectionImage` leaves at a pixel
of the region of interest. -/
theorem ProcessSDF_points_at (GL_FAR EPS : ℚ) (distanceTransform : Mat Nat → Mat ℚ)
    (roi_rows roi_cols : Nat) (rendered : RenderedBuffers) (camera : MonocularCamera)
    (r c : Nat) (hr : r < roi_rows) (hc : c < roi_cols) :
    (PWP3D.ProcessSDFAndIntersectionImage GL_FAR EPS distanceTransform roi_rows roi_cols
        rendered camera).1.front_intersection_image.at_ r c =
      (if |(rendered.front_depth.at_ r c) 0 - GL_FAR| > EPS then
        ![(rendered.front_depth.at_ r c) 0 *
            ((camera.GetUnprojectedImagePlane roi_cols roi_rows).1.at_ r c) 0,
          (rendered.front_depth.at_ r c) 0 *
            ((camera.GetUnprojectedImagePlane roi_cols roi_rows).1.at_ r c) 1,
          (rendered.front_depth.at_ r c) 0 * 1]
      else ![(truncToInt GL_FAR : ℚ), (truncToInt GL_FAR : ℚ), (truncToInt GL_FAR : ℚ)]) ∧
    (PWP3D.ProcessSDFAndIntersectionImage GL_FAR EPS distanceTransform roi_rows roi_cols
        rendered camera).1.back_intersection_image.at_ r c =
      (if |(rendered.back_depth.at_ r c) 0 - GL_FAR| > EPS then
        ![(rendered.back_depth.at_ r c) 0 *
            ((camera.GetUnprojectedImagePlane roi_cols roi_rows).1.at_ r c) 0,
          (rendered.back_depth.at_ r c) 0 *
            ((camera.GetUnprojectedImagePlane roi_cols roi_rows).1.at_ r c) 1,
          (rendered.back_depth.at_ r c) 0 * 1]
      else ![(truncToInt GL_FAR : ℚ), (truncToInt GL_FAR : ℚ), (truncToInt GL_FAR : ℚ)]) := by
  simp only [PWP3D.ProcessSDFAndIntersectionImage]
  rw [Mat.ofFn_at _ _ _ r c hr hc, Mat.ofFn_at _ _ _ r c hr hc]
  exact ⟨rfl, rfl⟩

/-- The ray `ProcessSDFAndIntersectionImage` reads for a pixel from a camera whose cached
table serves the image is the undistorted pixel. -/
theorem GetUnprojectedImagePlane_serves (camera : MonocularCamera) (width height : Nat)
    (htable : camera.tableServes width height) (r c : Nat) (hr : r < height) (hc : c < width) :
    (camera.GetUnprojectedImagePlane width height).1.at_ r c
      = camera.undistortPoint ![(c : ℚ), (r : ℚ)] := by
  by_cases hempty : camera.unprojected_image_.data = []
  · exact (GetUnprojectedImagePlane_build camera width height hempty).2.2.2.1 r c hr hc
  · rw [GetUnprojectedImagePlane_cached camera width height hempty]
    rcases htable with h | h
    · exact absurd h hempty
    · exact h r hr c hc

/-- A call of `GetUnprojectedImagePlane` leaves the camera with the same undistortion map and
with a cached table that serves the size of the call, when the table served it before. -/
theorem GetUnprojectedImagePlane_keeps (camera : MonocularCamera) (width height : Nat)
    (htable : camera.tableServes width height) :
    (camera.GetUnprojectedImagePlane width height).2.undistortPoint = camera.undistortPoint ∧
    (camera.GetUnprojectedImagePlane width height).2.tableServes width height := by
  by_cases hempty : camera.unprojected_image_.data = []
  · obtain ⟨_, _, _, hat, hstore, hund⟩ :=
      GetUnprojectedImagePlane_build camera width height hempty
    refine ⟨hund, Or.inr fun r hr c hc => ?_⟩
    rw [hstore, hund]
    exact hat r c hr hc
  · rw [GetUnprojectedImagePlane_cached camera width height hempty]
    exact ⟨rfl, htable⟩

/-- The camera that `ProcessSDFAndIntersectionImage` leaves behind is the one its call of
`GetUnprojectedImagePlane` for the size of the region of interest leaves behind. -/
theorem ProcessSDF_camera (GL_FAR EPS : ℚ) (distanceTransform : Mat Nat → Mat ℚ)
    (roi_rows roi_cols : Nat) (rendered : RenderedBuffers) (camera : MonocularCamera) :
    (PWP3D.ProcessSDFAndIntersectionImage GL_FAR EPS distanceTransform roi_rows roi_cols
        rendered camera).2 = (camera.GetUnprojectedImagePlane roi_cols roi_rows).2 := rfl

/-- C15 (as stated, refuted): a camera that has served an image of 1 column and 2 rows keeps
that table (it is never invalidated) and is then used on an image of 1 row and 2 columns in
which pixel `(r, c) = (0, 1)` has the front depth 5, not the far value 1000.  The unprojected
ray of that pixel is `(1, 0)`, so the front intersection should be `5 * (1, 0, 1)`; the code
reads the second entry of the cached table, the ray `(0, 1)` of pixel `(1, 0)`, and sets
`(0, 5, 5)`. -/
theorem ProcessSDF_stale_table_refutes :
    (PWP3D.ProcessSDFAndIntersectionImage 1000 (1 / 1000) hitDistanceTransform 1 2 hitRendered
        (sampleCamera.GetUnprojectedImagePlane 1 2).2).1.front_intersection_image.at_ 0 1
      = ![0, 5, 5] ∧
    |(hitRendered.front_depth.at_ 0 1) 0 - 1000| > 1 / 1000 ∧
    (PWP3D.ProcessSDFAndIntersectionImage 1000 (1 / 1000) hitDistanceTransform 1 2 hitRendered
        (sampleCamera.GetUnprojectedImagePlane 1 2).2).1.front_intersection_image.at_ 0 1
      ≠ ![(hitRendered.front_depth.at_ 0 1) 0 *
            ((sampleCamera.GetUnprojectedImagePlane 1 2).2.undistortPoint ![1, 0]) 0,
          (hitRendered.front_depth.at_ 0 1) 0 *
            ((sampleCamera.GetUnprojectedImagePlane 1 2).2.undistortPoint ![1, 0]) 1,
          (hitRendered.front_depth.at_ 0 1) 0 * 1] := by
  have hcam : (sampleCamera.GetUnprojectedImagePlane 1 2).2 =
      { undistortPoint := id
        unprojected_image_ := { rows := 2, cols := 1, data := [![0, 0], ![0, 1]] } } := by
    simp [MonocularCamera.GetUnprojectedImagePlane, sampleCamera, Mat.ofFn, undistortPoints,
      List.range_succ, List.flatMap]
  have hdepth : (hitRendered.front_depth.at_ 0 1) 0 = 5 := by
    simp [hitRendered, Mat.at_]
  have hfar : |(hitRendered.front_depth.at_ 0 1) 0 - 1000| > 1 / 1000 := by
    rw [hdepth]
    norm_num [abs_of_neg]
  have hval := (ProcessSDF_points_at 1000 (1 / 1000) hitDistanceTransform 1 2 hitRendered
    (sampleCamera.GetUnprojectedImagePlane 1 2).2 0 1 (by decide) (by decide)).1
  rw [if_pos hfar, hdepth, hcam,
    GetUnprojectedImagePlane_cached _ 2 1 (by simp)] at hval
  have hentry : ({ rows := 2, cols := 1, data := [![0, 0], ![0, 1]] } : Mat Vec2f).at_ 0 1
      = ![0, 1] := by
    simp [Mat.at_]
  simp only [hentry] at hval
  have hres : (PWP3D.ProcessSDFAndIntersectionImage 1000 (1 / 1000) hitDistanceTransform 1 2
      hitRendered (sampleCamera.GetUnprojectedImagePlane 1 2).2).1.front_intersection_image.at_
        0 1 = ![0, 5, 5] := by
    rw [hcam, hval]
    norm_num
  refine ⟨hres, hfar, ?_⟩
  rw [hres, hdepth, hcam]
  intro h
  have h0 := congrFun h 0
  norm_num at h0

/-- C15 (amended): for every pixel `(r, c)` of the region of interest, with an integral far
value and a camera whose cached table serves the size of the region of interest (nothing is
cached yet, or the table cached by an earlier call holds the rays of an image of this size),
`ProcessSDFAndIntersectionImage` sets the front intersection to `depth * (ux, uy, 1)`, `depth`
the front depth and `(ux, uy)` the unprojected ray of the pixel, when the front depth is not
the far value (`|depth - GL_FAR| > EPS`), and to `(far, far, far)` otherwise; the back
intersection is set the same way from the back depth; the `z` coordinate of a non-far
intersection is the rendered depth; and the camera is left with the same undistortion map
and a table that serves this size again, so that the same holds at every later call on an
image of this size. -/
theorem ProcessSDF_intersection (GL_FAR EPS : ℚ) (distanceTransform : Mat Nat → Mat ℚ)
    (roi_rows roi_cols : Nat) (rendered : RenderedBuffers) (camera : MonocularCamera)
    (r c : Nat) (hr : r < roi_rows) (hc : c < roi_cols)
    (hint : ((truncToInt GL_FAR : ℤ) : ℚ) = GL_FAR)
    (htable : camera.tableServes roi_cols roi_rows) :
    (PWP3D.ProcessSDFAndIntersectionImage GL_FAR EPS distanceTransform roi_rows roi_cols
        rendered camera).1.front_intersection_image.at_ r c =
      (if |(rendered.front_depth.at_ r c) 0 - GL_FAR| > EPS then
        ![(rendered.front_depth.at_ r c) 0 * (camera.undistortPoint ![(c : ℚ), (r : ℚ)]) 0,
          (rendered.front_depth.at_ r c) 0 * (camera.undistortPoint ![(c : ℚ), (r : ℚ)]) 1,
          (rendered.front_depth.at_ r c) 0 * 1]
      else ![GL_FAR, GL_FAR, GL_FAR]) ∧
    (PWP3D.ProcessSDFAndIntersectionImage GL_FAR EPS distanceTransform roi_rows roi_cols
        rendered camera).1.back_intersection_image.at_ r c =
      (if |(rendered.back_depth.at_ r c) 0 - GL_FAR| > EPS then
        ![(rendered.back_depth.at_ r c) 0 * (camera.undistortPoint ![(c : ℚ), (r : ℚ)]) 0,
          (rendered.back_depth.at_ r c) 0 * (camera.undistortPoint ![(c : ℚ), (r : ℚ)]) 1,
          (rendered.back_depth.at_ r c) 0 * 1]
      else ![GL_FAR, GL_FAR, GL_FAR]) ∧
    (|(rendered.front_depth.at_ r c) 0 - GL_FAR| > EPS →
      ((PWP3D.ProcessSDFAndIntersectionImage GL_FAR EPS distanceTransform roi_rows roi_cols
        rendered camera).1.front_intersection_image.at_ r c) 2
        = (rendered.front_depth.at_ r c) 0) ∧
    (|(rendered.back_depth.at_ r c) 0 - GL_FAR| > EPS →
      ((PWP3D.ProcessSDFAndIntersectionImage GL_FAR EPS distanceTransform roi_rows roi_cols
        rendered camera).1.back_intersection_image.at_ r c) 2
        = (rendered.back_depth.at_ r c) 0) ∧
    (PWP3D.ProcessSDFAndIntersectionImage GL_FAR EPS distanceTransform roi_rows roi_cols
        rendered camera).2.undistortPoint = camera.undistortPoint ∧
    (PWP3D.ProcessSDFAndIntersectionImage GL_FAR EPS distanceTransform roi_rows roi_cols
        rendered camera).2.tableServes roi_cols roi_rows := by
  obtain ⟨hfront, hback⟩ := ProcessSDF_points_at GL_FAR EPS distanceTransform roi_rows
    roi_cols rendered camera r c hr hc
  have hray := GetUnprojectedImagePlane_serves camera roi_cols roi_rows htable r c hr hc
  rw [hray, hint] at hfront hback
  rw [ProcessSDF_camera]
  obtain ⟨hund, hkeep⟩ := GetUnprojectedImagePlane_keeps camera roi_cols roi_rows htable
  refine ⟨hfront, hback, fun h => ?_, fun h => ?_, hund, hkeep⟩
  · rw [hfront, if_pos h]
    simp
  · rw [hback, if_pos h]
    simp

/-- Witness for C15: the second call on the sample render (far value 1000, identity camera),
made with the camera the first call left behind.  The middle pixel `(0, 1)` is hit at front
depth 5 and back depth 6 and its ray is `(1, 0)`. -/
theorem ProcessSDF_intersection_witness :
    (PWP3D.ProcessSDFAndIntersectionImage 1000 (1 / 1000) sampleDistanceTransform 1 3
        sampleRendered
        (PWP3D.ProcessSDFAndIntersectionImage 1000 (1 / 1000) sampleDistanceTransform 1 3
          sampleRendered sampleCamera).2).1.front_intersection_image.at_ 0 1 = ![5, 0, 5] ∧
    (PWP3D.ProcessSDFAndIntersectionImage 1000 (1 / 1000) sampleDistanceTransform 1 3
        sampleRendered
        (PWP3D.ProcessSDFAndIntersectionImage 1000 (1 / 1000) sampleDistanceTransform 1 3
          sampleRendered sampleCamera).2).1.back_intersection_image.at_ 0 1 = ![6, 0, 6] := by
  have hfirst := GetUnprojectedImagePlane_keeps sampleCamera 3 1 (Or.inl rfl)
  have h := ProcessSDF_intersection 1000 (1 / 1000) sampleDistanceTransform 1 3 sampleRendered
    (PWP3D.ProcessSDFAndIntersectionImage 1000 (1 / 1000) sampleDistanceTransform 1 3
      sampleRendered sampleCamera).2 0 1 (by decide) (by decide)
    (by have h := truncToInt_intCast 1000; norm_num at h; rw [h]; norm_num)
    (by rw [ProcessSDF_camera]; exact hfirst.2)
  rw [ProcessSDF_camera, hfirst.1] at h
  have hf : |(sampleRendered.front_depth.at_ 0 1) 0 - 1000| > 1 / 1000 := by
    simp [sampleRendered, Mat.at_]
    norm_num [abs_of_neg]
  have hb : |(sampleRendered.back_depth.at_ 0 1) 0 - 1000| > 1 / 1000 := by
    simp [sampleRendered, Mat.at_]
    norm_num [abs_of_neg]
  obtain ⟨h1, h2, _⟩ := h
  rw [if_pos hf] at h1
  rw [if_pos hb] at h2
  rw [ProcessSDF_camera]
  constructor
  · rw [h1]
    simp [sampleRendered, sampleCamera, Mat.at_]
  · rw [h2]
    simp [sampleRendered, sampleCamera, Mat.at_]

/-- C16: for a degenerate silhouette (every front depth is the far value, `EPS` positive),
with a non-negative distance transform, the SDF is all-negative: no pixel has a positive
value, and every pixel whose distance is not zero has a strictly negative one. -/
theorem SDF_degenerate_all_negative (GL_FAR EPS : ℚ) (distanceTransform : Mat Nat → Mat ℚ)
    (roi_rows roi_cols : Nat) (rendered : RenderedBuffers) (camera : MonocularCamera)
    (hEPS : 0 < EPS)
    (hfar : ∀ r c : Nat, r < (distanceTransform rendered.contour).rows →
      c < (distanceTransform rendered.contour).cols →
      (rendered.front_depth.at_ r c) 0 = GL_FAR)
    (hnn : ∀ r c : Nat, r < (distanceTransform rendered.contour).rows →
      c < (distanceTransform rendered.contour).cols →
      0 ≤ (distanceTransform rendered.contour).at_ r c)
    (r c : Nat) (hr : r < (distanceTransform rendered.contour).rows)
    (hc : c < (distanceTransform rendered.contour).cols) :
    ¬ 0 < (PWP3D.ProcessSDFAndIntersectionImage GL_FAR EPS distanceTransform roi_rows roi_cols
        rendered camera).1.sdf_image.at_ r c ∧
    ((distanceTransform rendered.contour).at_ r c ≠ 0 →
      (PWP3D.ProcessSDFAndIntersectionImage GL_FAR EPS distanceTransform roi_rows roi_cols
        rendered camera).1.sdf_image.at_ r c < 0) := by
  have htest : |(rendered.front_depth.at_ r c) 0 - GL_FAR| < EPS := by
    rw [hfar r c hr hc, sub_self, abs_zero]
    exact hEPS
  rw [ProcessSDF_sdf_at _ _ _ _ _ _ _ r c hr hc, if_pos htest]
  have h0 := hnn r c hr hc
  refine ⟨by linarith, fun hne => ?_⟩
  have hpos : 0 < (distanceTransform rendered.contour).at_ r c := lt_of_le_of_ne h0 (Ne.symm hne)
  linarith

/-- Witness for C16: the degenerate render, whose SDF value at pixel `(0, 1)` is negative. -/
theorem SDF_degenerate_all_negative_witness :
    ¬ 0 < (PWP3D.ProcessSDFAndIntersectionImage 1000 (1 / 1000) degenerateDistanceTransform
        1 2 degenerateRendered sampleCamera).1.sdf_image.at_ 0 1 ∧
    (PWP3D.ProcessSDFAndIntersectionImage 1000 (1 / 1000) degenerateDistanceTransform
        1 2 degenerateRendered sampleCamera).1.sdf_image.at_ 0 1 < 0 := by
  have h := SDF_degenerate_all_negative 1000 (1 / 1000) degenerateDistanceTransform 1 2
    degenerateRendered sampleCamera (by norm_num)
    (by
      intro r c hr hc
      have hr0 : r = 0 := by
        simp only [degenerateDistanceTransform] at hr
        omega
      have hc2 : c = 0 ∨ c = 1 := by
        simp only [degenerateDistanceTransform] at hc
        omega
      subst hr0
      rcases hc2 with h | h <;> subst h <;> simp [degenerateRendered, Mat.at_])
    (by
      intro r c hr hc
      have hr0 : r = 0 := by
        simp only [degenerateDistanceTransform] at hr
        omega
      have hc2 : c = 0 ∨ c = 1 := by
        simp only [degenerateDistanceTransform] at hc
        omega
      subst hr0
      rcases hc2 with h | h <;> subst h <;> simp [degenerateDistanceTransform, Mat.at_])
    0 1 (by decide) (by decide)
  exact ⟨h.1, h.2 (by simp [degenerateDistanceTransform, Mat.at_])⟩

/-- A second call with the same size gives back the pair the first call gave: the same
table and the same camera. -/
theorem GetUnprojectedImagePlane_twice (cam : MonocularCamera) (width height : Nat) :
    (cam.GetUnprojectedImagePlane width height).2.GetUnprojectedImagePlane width height
      = cam.GetUnprojectedImagePlane width height := by
  by_cases hfull : cam.unprojected_image_.data = []
  · unfold MonocularCamera.GetUnprojectedImagePlane
    simp only [hfull, List.isEmpty_nil, Bool.not_true, Bool.false_eq_true, if_false]
    split <;> rfl
  · rw [GetUnprojectedImagePlane_cached cam width height hfull,
      GetUnprojectedImagePlane_cached cam width height hfull]

/-- C17: re-scoring the same inputs gives identical results.  For every camera and size,
a second call `GetUnprojectedImagePlane(w, h)` returns the table the first call returned and
leaves the cached table (indeed the whole camera) as the first call left it; and
`GetRegionAgreement` is a function of its classification image, pixel and SDF value alone, so
a second call after the camera calls returns the value of the first. -/
theorem rescoring_idempotent (cam : MonocularCamera) (w h : Nat) (H : ℚ → ℚ)
    (img : Mat Vec4f) (r c : Nat) (s : ℚ) :
    ((cam.GetUnprojectedImagePlane w h).2.GetUnprojectedImagePlane w h).1
      = (cam.GetUnprojectedImagePlane w h).1 ∧
    ((cam.GetUnprojectedImagePlane w h).2.GetUnprojectedImagePlane w h).2.unprojected_image_
      = (cam.GetUnprojectedImagePlane w h).2.unprojected_image_ ∧
    ((cam.GetUnprojectedImagePlane w h).2.GetUnprojectedImagePlane w h).2
      = (cam.GetUnprojectedImagePlane w h).2 ∧
    PWP3D.GetRegionAgreement H img r c s = PWP3D.GetRegionAgreement H img r c s := by
  rw [GetUnprojectedImagePlane_twice]
  exact ⟨rfl, rfl, rfl, rfl⟩

theorem round_sub_abs_le (x : ℚ) : |((round x : ℤ) : ℚ) - x| ≤ 1 / 2 := by
  unfold round
  split
  · have h1 := Int.floor_le (x + 1 / 2)
    have h2 := Int.lt_floor_add_one (x + 1 / 2)
    rw [abs_le]
    constructor <;> linarith
  · have h1 := Int.le_ceil (x - 1 / 2)
    have h2 := Int.ceil_lt_add_one (x - 1 / 2)
    rw [abs_le]
    constructor <;> linarith

/-- C18: when `cv::projectPoints` hands back the one projected point `pt` for `point`,
`ProjectPoint` returns `pt` and `ProjectPointToPixel` returns the pixel whose `x` and `y` are
the components of `pt` rounded to the nearest integer, each within 0.5 of the unrounded
coordinate. -/
theorem ProjectPointToPixel_rounds (projectPoints : List Vec3f → List Vec2f)
    (cam : MonocularCamera) (point : Vec3f) (pt : Vec2f)
    (hpp : projectPoints [point] = [pt]) :
    cam.ProjectPoint projectPoints point = Except.ok pt ∧
    cam.ProjectPointToPixel projectPoints point = Except.ok (round (pt 0), round (pt 1)) ∧
    |((round (pt 0) : ℤ) : ℚ) - pt 0| ≤ 1 / 2 ∧
    |((round (pt 1) : ℤ) : ℚ) - pt 1| ≤ 1 / 2 := by
  have hproj : cam.ProjectPoint projectPoints point = Except.ok pt := by
    simp [MonocularCamera.ProjectPoint, hpp]
  refine ⟨hproj, ?_, round_sub_abs_le _, round_sub_abs_le _⟩
  simp [MonocularCamera.ProjectPointToPixel, hproj]

/-- Witness for C18: a projection that lands on `(5/2, -7/4)` is turned into the pixel
`(3, -2)`. -/
theorem ProjectPointToPixel_rounds_witness :
    sampleCamera.ProjectPointToPixel (fun ps => ps.map (fun _ => ![5 / 2, -7 / 4])) ![1, 2, 3]
      = Except.ok (3, -2) := by
  have h := (ProjectPointToPixel_rounds (fun ps => ps.map (fun _ => ![5 / 2, -7 / 4]))
    sampleCamera ![1, 2, 3] ![5 / 2, -7 / 4] rfl).2.1
  have hx : round ((![5 / 2, -7 / 4] : Vec2f) 0) = 3 := by
    simp only [round, Matrix.cons_val_zero]
    norm_num [Int.floor_eq_iff]
  have hy : round ((![5 / 2, -7 / 4] : Vec2f) 1) = -2 := by
    simp only [round, Matrix.cons_val_one, Matrix.head_cons]
    norm_num [Int.ceil_eq_iff]
  rw [h, hx, hy]

/-- C19: on the first call for a camera (nothing cached), `GetUnprojectedImagePlane(width,
height)` returns a table of `height` rows and `width` columns whose entry at row `r`, column
`c` is the pair of the first two components of `UnProjectPoint(Point(c, r))`; the third
component of `UnProjectPoint` is 1 for every pixel. -/
theorem GetUnprojectedImagePlane_eq_UnProjectPoint (cam : MonocularCamera)
    (width height : Nat) (hempty : cam.unprojected_image_.data = []) :
    (cam.GetUnprojectedImagePlane width height).1.rows = height ∧
    (cam.GetUnprojectedImagePlane width height).1.cols = width ∧
    (∀ r c : Nat, r < height → c < width →
      ((cam.GetUnprojectedImagePlane width height).1.at_ r c) 0
          = (cam.UnProjectPoint ((c : ℤ), (r : ℤ))) 0 ∧
      ((cam.GetUnprojectedImagePlane width height).1.at_ r c) 1
          = (cam.UnProjectPoint ((c : ℤ), (r : ℤ))) 1) ∧
    ∀ point : ℤ × ℤ, (cam.UnProjectPoint point) 2 = 1 := by
  obtain ⟨hrows, hcols, _, hat, _, _⟩ := GetUnprojectedImagePlane_build cam width height hempty
  refine ⟨hrows, hcols, fun r c hr hc => ?_, fun point => ?_⟩
  · rw [hat r c hr hc]
    simp [MonocularCamera.UnProjectPoint, undistortPoints]
  · simp [MonocularCamera.UnProjectPoint]

/-- Witness for C19: the sample camera asked for a `3 x 2` image; the entry at row 1,
column 2 is the unprojection of the pixel `(2, 1)`. -/
theorem GetUnprojectedImagePlane_eq_UnProjectPoint_witness :
    (sampleCamera.GetUnprojectedImagePlane 3 2).1.rows = 2 ∧
    (sampleCamera.GetUnprojectedImagePlane 3 2).1.cols = 3 ∧
    ((sampleCamera.GetUnprojectedImagePlane 3 2).1.at_ 1 2) 0
      = (sampleCamera.UnProjectPoint (2, 1)) 0 ∧
    ((sampleCamera.GetUnprojectedImagePlane 3 2).1.at_ 1 2) 1
      = (sampleCamera.UnProjectPoint (2, 1)) 1 :=
  ⟨(GetUnprojectedImagePlane_eq_UnProjectPoint sampleCamera 3 2 rfl).1,
   (GetUnprojectedImagePlane_eq_UnProjectPoint sampleCamera 3 2 rfl).2.1,
   ((GetUnprojectedImagePlane_eq_UnProjectPoint sampleCamera 3 2 rfl).2.2.1 1 2
      (by decide) (by decide)).1,
   ((GetUnprojectedImagePlane_eq_UnProjectPoint sampleCamera 3 2 rfl).2.2.1 1 2
      (by decide) (by decide)).2⟩

/-- The ways `ClassifyFrame` ends on a frame that meets the asserted image type: the
runtime error, with the frame untouched, exactly when one of the two checks fails. -/
theorem ClassifyFrame_some (forest : MultiClassRandomForest) (frame : Frame)
    (htype : frame.roi_type = CV_8UC3) :
    ((forest.num_classes_ > frame.classification_map.channels ∨
        frame.classification_map.depth ≠ CV_32F) →
      forest.ClassifyFrame (some frame) = (Except.error (Fault.runtime_error ""), some frame)) ∧
    (¬ (forest.num_classes_ > frame.classification_map.channels ∨
        frame.classification_map.depth ≠ CV_32F) →
      ∀ what : String,
        (forest.ClassifyFrame (some frame)).1 ≠ Except.error (Fault.runtime_error what)) := by
  constructor
  · intro h
    unfold MultiClassRandomForest.ClassifyFrame
    simp only [htype, ne_eq, not_true_eq_false, if_false]
    by_cases hch : forest.num_classes_ > frame.classification_map.channels
    · simp [hch]
    · have hdepth : frame.classification_map.depth ≠ CV_32F := h.resolve_left hch
      simp [hch, hdepth]
  · intro h what
    have hch : ¬ forest.num_classes_ > frame.classification_map.channels := fun hc => h (Or.inl hc)
    have hdepth : ¬ frame.classification_map.depth ≠ CV_32F := fun hd => h (Or.inr hd)
    unfold MultiClassRandomForest.ClassifyFrame
    simp only [htype, ne_eq, not_true_eq_false, if_false, hch, hdepth]
    split
    · simp
    · split
      · split <;> simp
      · simp

/-- C11: on frames that meet the asserted image type, `ClassifyFrame` throws its
`std::runtime_error` exactly when the frame is not null and either the number of classes
exceeds the channel count of the classification map or the depth of the map is not `CV_32F`;
a null frame returns false without raising; and when the error is thrown the frame is as it
was before the call (no pixel of the map has been written). -/
theorem ClassifyFrame_throws_iff (forest : MultiClassRandomForest) (frame : Option Frame)
    (hpre : ∀ f : Frame, frame = some f → f.roi_type = CV_8UC3) :
    ((∃ what : String,
        (forest.ClassifyFrame frame).1 = Except.error (Fault.runtime_error what)) ↔
      ∃ f : Frame, frame = some f ∧
        (forest.num_classes_ > f.classification_map.channels ∨
          f.classification_map.depth ≠ CV_32F)) ∧
    (frame = none → forest.ClassifyFrame frame = (Except.ok false, none)) ∧
    (∀ what : String,
      (forest.ClassifyFrame frame).1 = Except.error (Fault.runtime_error what) →
      (forest.ClassifyFrame frame).2 = frame) := by
  cases frame with
  | none =>
    refine ⟨⟨fun ⟨what, h⟩ => ?_, fun ⟨f, hf, _⟩ => ?_⟩, fun _ => rfl, fun what h => ?_⟩
    · simp [MultiClassRandomForest.ClassifyFrame] at h
    · cases hf
    · rfl
  | some f =>
    obtain ⟨hthrow, hno⟩ := ClassifyFrame_some forest f (hpre f rfl)
    refine ⟨⟨fun ⟨what, h⟩ => ?_, fun ⟨g, hg, hcond⟩ => ?_⟩, fun h => ?_, fun what h => ?_⟩
    · by_contra hcon
      have hcheck : ¬ (forest.num_classes_ > f.classification_map.channels ∨
          f.classification_map.depth ≠ CV_32F) := fun hc => hcon ⟨f, rfl, hc⟩
      exact hno hcheck what h
    · cases hg
      exact ⟨"", by rw [hthrow hcond]⟩
    · cases h
    · by_cases hcheck : forest.num_classes_ > f.classification_map.channels ∨
          f.classification_map.depth ≠ CV_32F
      · rw [hthrow hcheck]
      · exact absurd h (hno hcheck what)

/-- Witness for C11: two classes against a one-channel map throw, and the frame is left as
it was. -/
theorem ClassifyFrame_throws_iff_witness :
    (∃ what : String, (sampleForest.ClassifyFrame (some (sampleFrame 1))).1
      = Except.error (Fault.runtime_error what)) ∧
    (sampleForest.ClassifyFrame none = (Except.ok false, none)) ∧
    (∀ what : String,
      (sampleForest.ClassifyFrame (some (sampleFrame 1))).1
        = Except.error (Fault.runtime_error what) →
      (sampleForest.ClassifyFrame (some (sampleFrame 1))).2 = some (sampleFrame 1)) :=
  ⟨(ClassifyFrame_throws_iff sampleForest (some (sampleFrame 1))
      (fun f hf => by cases hf; rfl)).1.2 ⟨sampleFrame 1, rfl, Or.inl (by decide)⟩,
   (ClassifyFrame_throws_iff sampleForest none (fun f hf => by cases hf)).2.1 rfl,
   (ClassifyFrame_throws_iff sampleForest (some (sampleFrame 1))
      (fun f hf => by cases hf; rfl)).2.2⟩

/-- C20 (failing input): a non-null frame of `1 x 1` pixels whose classification map is
single-precision float with 2 channels, classified by a forest with 2 classes.  Both checks
pass and the pixel loop writes the two predictions in range, but the call then reads
`splitted[2]` of the two matrices `cv::split` produced: an out-of-range access. -/
theorem ClassifyFrame_split_out_of_range :
    (sampleForest.ClassifyFrame (some (sampleFrame 2))).1
      = Except.error Fault.undefined_behaviour ∧
    (sampleForest.ClassifyFrame (some (sampleFrame 2))).2.map
        (fun f => f.classification_map.data) = some [1 / 4, 3 / 4] ∧
    (split (sampleFrame 2).classification_map).length = 2 := by
  have hloops : MultiClassRandomForest.ClassifyFrame.pixelLoops sampleForest (sampleFrame 2)
      1 1 2 ([0, 0], 0) = some ([1 / 4, 3 / 4], 1) := by
    simp [MultiClassRandomForest.ClassifyFrame.pixelLoops,
      MultiClassRandomForest.ClassifyFrame.pixel,
      MultiClassRandomForest.ClassifyFrame.predictLoop,
      MultiClassRandomForest.ClassifyFrame.zeroLoop, writeFloat, sampleForest,
      List.range_succ, List.range']
  have hcall : sampleForest.ClassifyFrame (some (sampleFrame 2)) =
      (Except.error Fault.undefined_behaviour,
        some { sampleFrame 2 with
          classification_map :=
            { (sampleFrame 2).classification_map with data := [1 / 4, 3 / 4] } }) := by
    unfold MultiClassRandomForest.ClassifyFrame
    have h1 : (sampleFrame 2).roi_type = CV_8UC3 := rfl
    have h3 : (sampleFrame 2).classification_map.depth = CV_32F := rfl
    have h4 : (sampleFrame 2).classification_map.data = [0, 0] := rfl
    have h5 : (sampleFrame 2).rows = 1 := rfl
    have h6 : (sampleFrame 2).cols = 1 := rfl
    have h7 : (sampleFrame 2).classification_map.channels = 2 := rfl
    have h8 : sampleForest.num_classes_ = 2 := rfl
    simp only [h1, h3, h4, h5, h6, h7, h8, ne_eq, not_true_eq_false, if_false, hloops,
      gt_iff_lt, lt_self_iff_false]
    simp [split, List.range_succ]
  rw [hcall]
  refine ⟨rfl, rfl, ?_⟩
  simp [split, sampleFrame]

/-- C23 (failing input): on the `1 x 2` SDF image `[0, -1]` (a contour pixel and, next to
it, an outside pixel at distance 1), the call for the in-range pixel `(0, 1)` has
`ceil_sdf = 1` and its first read is `up_idx = (0 + 1) * 2 + 0 = 2`, the pixel `(1, 0)` of a
one-row image: a read outside the buffer of 2 elements. -/
theorem FindClosestIntersection_reads_outside :
    PWP3D.FindClosestIntersection [0, -1] 0 1 1 2 0 0 = none ∧
    (PWP3D.FindClosestIntersection.columns 0 1 2 1).head?
      = some ((2, 1, 0), (-2, -1, 0)) ∧
    readFloat [0, -1] 2 = none := by
  have hread : readFloat [0, -1] (0 * 2 + 1) = some (-1) := by
    simp [readFloat]
  have hceil : |⌈(-1 : ℚ)⌉| = 1 := by
    have : ⌈(-1 : ℚ)⌉ = -1 := by
      rw [show (-1 : ℚ) = ((-1 : ℤ) : ℚ) by norm_num, Int.ceil_intCast]
    rw [this]
    rfl
  have hcols : PWP3D.FindClosestIntersection.columns 0 1 2 1
      = [((2, 1, 0), (-2, -1, 0)), ((3, 1, 1), (-1, -1, 1)), ((4, 1, 2), (0, -1, 2))] := by
    simp [PWP3D.FindClosestIntersection.columns, List.range_succ]
  have hout : readFloat [0, -1] 2 = none := by
    simp [readFloat]
  have hscan : PWP3D.FindClosestIntersection.scan [0, -1]
      (PWP3D.FindClosestIntersection.columns 0 1 2 1) = none := by
    rw [hcols]
    simp only [PWP3D.FindClosestIntersection.scan, hout]
  refine ⟨?_, by rw [hcols]; rfl, hout⟩
  unfold PWP3D.FindClosestIntersection
  rw [hread]
  simp only [hceil, hscan]

/-- The tests `|depth - GL_FAR| > EPS` and `|depth - GL_FAR| < EPS` are complements only as
long as no depth lies at the distance `EPS` itself from the far value.  For constants whose
sum is a `float` value, as `GL_FAR = 1000` and `EPS = 1/1024`, the front depth
`1000 + 1/1024` passes neither test: the front intersection is set to the far marker, yet the
SDF value is the distance 3 itself, not its negation. -/
theorem far_tests_at_float_boundary :
    isFloat32 (1000 + 1 / 1024) ∧
    (PWP3D.ProcessSDFAndIntersectionImage 1000 (1 / 1024) boundaryDistanceTransform 1 1
        boundaryRendered sampleCamera).1.front_intersection_image.at_ 0 0
      = ![1000, 1000, 1000] ∧
    (PWP3D.ProcessSDFAndIntersectionImage 1000 (1 / 1024) boundaryDistanceTransform 1 1
        boundaryRendered sampleCamera).1.sdf_image.at_ 0 0 = 3 ∧
    (boundaryDistanceTransform boundaryRendered.contour).at_ 0 0 = 3 := by
  have hdepth : (boundaryRendered.front_depth.at_ 0 0) 0 = 1000 + 1 / 1024 := by
    simp [boundaryRendered, Mat.at_]
  have habs : |(boundaryRendered.front_depth.at_ 0 0) 0 - 1000| = 1 / 1024 := by
    rw [hdepth]
    norm_num [abs_of_pos]
  have hdt : (boundaryDistanceTransform boundaryRendered.contour).at_ 0 0 = 3 := by
    simp [boundaryDistanceTransform, Mat.at_]
  have htrunc : ((truncToInt 1000 : ℤ) : ℚ) = 1000 := by
    have h := truncToInt_intCast 1000
    norm_num at h
    rw [h]
    norm_num
  refine ⟨by decide!, ?_, ?_, hdt⟩
  · rw [(ProcessSDF_points_at 1000 (1 / 1024) boundaryDistanceTransform 1 1 boundaryRendered
      sampleCamera 0 0 (by decide) (by decide)).1, habs, if_neg (lt_irrefl _), htrunc]
  · rw [ProcessSDF_sdf_at 1000 (1 / 1024) boundaryDistanceTransform 1 1 boundaryRendered
      sampleCamera 0 0 (by decide) (by decide), habs, if_neg (lt_irrefl _), hdt]

/-- C26 (failing input): on the `1 x 1` SDF image `[0]` the call that starts with
`contour_area = 0` reports 1 and the call that starts with `contour_area = 7` reports 8: the
counter is not reset on entry and the old value is carried into the result. -/
theorem ComputeAreas_contour_area_not_reset :
    (PWP3D.ComputeAreas { rows := 1, cols := 1, data := [0] } 0 0 0).contour_area = 1 ∧
    (PWP3D.ComputeAreas { rows := 1, cols := 1, data := [0] } 0 0 7).contour_area = 8 := by
  constructor <;>
  · simp only [PWP3D.ComputeAreas, List.range_succ, List.range_zero, List.nil_append,
      List.foldl_cons, List.foldl_nil, PWP3D.ComputeAreas.pixel, Mat.at_, zero_mul, zero_add,
      List.getD_cons_zero]
    norm_num

/-- A pixel inside a `height x width` image is read inside the buffer. -/
theorem readFloat_in_range (sdf_im : List ℚ) (height width pr pc : ℤ)
    (hlen : (sdf_im.length : ℤ) = height * width)
    (h0 : 0 ≤ pr) (h1 : pr < height) (h2 : 0 ≤ pc) (h3 : pc < width) :
    ∃ v : ℚ, readFloat sdf_im (pr * width + pc) = some v := by
  have hidx0 : 0 ≤ pr * width + pc := by
    have : 0 ≤ pr * width := mul_nonneg h0 (by omega)
    omega
  have hidx1 : pr * width + pc < (sdf_im.length : ℤ) := by
    rw [hlen]
    have : (pr + 1) * width ≤ height * width :=
      mul_le_mul_of_nonneg_right (by omega) (by omega)
    nlinarith
  have hnat : (pr * width + pc).toNat < sdf_im.length := by omega
  refine ⟨sdf_im[(pr * width + pc).toNat], ?_⟩
  unfold readFloat
  rw [if_pos ⟨hidx0, hidx1⟩, List.getElem?_eq_getElem hnat]

/-- What a search loop does when all its reads are inside the buffer: it ends either with a
pixel whose value is `>= 0`, or at its end after finding every value negative. -/
theorem FindClosestIntersection.scan_spec (sdf_im : List ℚ)
    (probes : List ((ℤ × ℤ × ℤ) × (ℤ × ℤ × ℤ)))
    (hread : ∀ e ∈ probes, (∃ v, readFloat sdf_im e.1.1 = some v) ∧
      (∃ v, readFloat sdf_im e.2.1 = some v)) :
    ∃ res : Option (ℤ × ℤ),
      PWP3D.FindClosestIntersection.scan sdf_im probes = some res ∧
      (res = none → ∀ e ∈ probes, ∀ v : ℚ,
        (readFloat sdf_im e.1.1 = some v → v < 0) ∧
        (readFloat sdf_im e.2.1 = some v → v < 0)) ∧
      (∀ px : ℤ × ℤ, res = some px → ∃ e ∈ probes,
        (px = e.1.2 ∧ ∃ v, readFloat sdf_im e.1.1 = some v ∧ 0 ≤ v) ∨
        (px = e.2.2 ∧ ∃ v, readFloat sdf_im e.2.1 = some v ∧ 0 ≤ v)) := by
  induction probes with
  | nil =>
    refine ⟨none, rfl, fun _ e he => ?_, fun px hpx => ?_⟩
    · cases he
    · cases hpx
  | cons e rest ih =>
    obtain ⟨⟨v1, hv1⟩, ⟨v2, hv2⟩⟩ := hread e (List.mem_cons_self _ _)
    obtain ⟨res, hres, hnone, hsome⟩ := ih (fun e' he' => hread e' (List.mem_cons_of_mem _ he'))
    obtain ⟨first, second⟩ := e
    by_cases h1 : v1 ≥ 0
    · refine ⟨some first.2, ?_, fun h => ?_, fun px hpx => ?_⟩
      · simp only [PWP3D.FindClosestIntersection.scan, hv1, if_pos h1]
      · cases h
      · cases hpx
        exact ⟨(first, second), List.mem_cons_self _ _, Or.inl ⟨rfl, v1, hv1, h1⟩⟩
    · by_cases h2 : v2 ≥ 0
      · refine ⟨some second.2, ?_, fun h => ?_, fun px hpx => ?_⟩
        · simp only [PWP3D.FindClosestIntersection.scan, hv1, if_neg h1, hv2, if_pos h2]
        · cases h
        · cases hpx
          exact ⟨(first, second), List.mem_cons_self _ _, Or.inr ⟨rfl, v2, hv2, h2⟩⟩
      · refine ⟨res, ?_, fun h e' he' v => ?_, fun px hpx => ?_⟩
        · simp only [PWP3D.FindClosestIntersection.scan, hv1, if_neg h1, hv2, if_neg h2]
          exact hres
        · rcases List.mem_cons.mp he' with heq | hmem
          · subst heq
            constructor
            · intro hv
              rw [hv1] at hv
              cases hv
              exact lt_of_not_ge h1
            · intro hv
              rw [hv2] at hv
              cases hv
              exact lt_of_not_ge h2
          · exact hnone h e' hmem v
        · obtain ⟨e', he', hcase⟩ := hsome px hpx
          exact ⟨e', List.mem_cons_of_mem _ he', hcase⟩

theorem FindClosestIntersection.mem_columns (r c width k : ℤ)
    (e : (ℤ × ℤ × ℤ) × (ℤ × ℤ × ℤ)) :
    e ∈ PWP3D.FindClosestIntersection.columns r c width k ↔
      ∃ j : ℕ, j < (2 * k + 1).toNat ∧
        e = (((r + k) * width + (c - k + j), r + k, c - k + j),
             ((r - k) * width + (c - k + j), r - k, c - k + j)) := by
  unfold PWP3D.FindClosestIntersection.columns
  simp only [List.mem_map, List.mem_range]
  constructor
  · rintro ⟨j, hj, rfl⟩
    exact ⟨j, hj, rfl⟩
  · rintro ⟨j, hj, rfl⟩
    exact ⟨j, hj, rfl⟩

theorem FindClosestIntersection.mem_rowsList (r c width k : ℤ)
    (e : (ℤ × ℤ × ℤ) × (ℤ × ℤ × ℤ)) :
    e ∈ PWP3D.FindClosestIntersection.rowsList r c width k ↔
      ∃ j : ℕ, j < (2 * k + 1).toNat ∧
        e = (((r - k + j) * width + c - k, r - k + j, c - k),
             ((r - k + j) * width + c + k, r - k + j, c + k)) := by
  unfold PWP3D.FindClosestIntersection.rowsList
  simp only [List.mem_map, List.mem_range]
  constructor
  · rintro ⟨j, hj, rfl⟩
    exact ⟨j, hj, rfl⟩
  · rintro ⟨j, hj, rfl⟩
    exact ⟨j, hj, rfl⟩

theorem onRing_of_row (r c k pr pc : ℤ) (hk : 0 ≤ k) (hrow : pr = r + k ∨ pr = r - k)
    (hcol0 : c - k ≤ pc) (hcol1 : pc ≤ c + k) : onRing r c k pr pc := by
  unfold onRing
  have h1 : |pr - r| = k := by
    rw [abs_eq hk]
    rcases hrow with h | h <;> [left; right] <;> omega
  have h2 : |pc - c| ≤ k := by
    rw [abs_le]
    constructor <;> omega
  rw [h1]
  exact max_eq_left h2

theorem onRing_of_col (r c k pr pc : ℤ) (hk : 0 ≤ k) (hcol : pc = c - k ∨ pc = c + k)
    (hrow0 : r - k ≤ pr) (hrow1 : pr ≤ r + k) : onRing r c k pr pc := by
  unfold onRing
  have h1 : |pc - c| = k := by
    rw [abs_eq hk]
    rcases hcol with h | h <;> [right; left] <;> omega
  have h2 : |pr - r| ≤ k := by
    rw [abs_le]
    constructor <;> omega
  rw [h1]
  exact max_eq_right h2

theorem onRing_cases (r c k pr pc : ℤ) (hk : 0 ≤ k) (h : onRing r c k pr pc) :
    ((pr = r + k ∨ pr = r - k) ∧ c - k ≤ pc ∧ pc ≤ c + k) ∨
    ((pc = c - k ∨ pc = c + k) ∧ r - k ≤ pr ∧ pr ≤ r + k) := by
  unfold onRing at h
  have hr : |pr - r| ≤ k := h ▸ le_max_left _ _
  have hc : |pc - c| ≤ k := h ▸ le_max_right _ _
  rw [abs_le] at hr hc
  rcases le_total |pr - r| |pc - c| with hle | hle
  · rw [max_eq_right hle, abs_eq hk] at h
    right
    refine ⟨?_, by omega, by omega⟩
    rcases h with h | h <;> [right; left] <;> omega
  · rw [max_eq_left hle, abs_eq hk] at h
    left
    refine ⟨?_, by omega, by omega⟩
    rcases h with h | h <;> [left; right] <;> omega

/-- The two search loops on a pixel whose ring of radius `k` lies inside the image. -/
theorem FindClosestIntersection.search_spec (sdf_im : List ℚ)
    (r c height width k closest_r closest_c : ℤ)
    (hlen : (sdf_im.length : ℤ) = height * width) (hk : 0 ≤ k)
    (hr0 : 0 ≤ r - k) (hr1 : r + k < height) (hc0 : 0 ≤ c - k) (hc1 : c + k < width) :
    ∃ (b : Bool) (cr cc : ℤ),
      (match PWP3D.FindClosestIntersection.scan sdf_im
          (PWP3D.FindClosestIntersection.columns r c width k) with
        | none => none
        | some (some found) => some (true, found.1, found.2)
        | some none =>
          match PWP3D.FindClosestIntersection.scan sdf_im
              (PWP3D.FindClosestIntersection.rowsList r c width k) with
          | none => none
          | some (some found) => some (true, found.1, found.2)
          | some none => some (false, closest_r, closest_c)) = some (b, cr, cc) ∧
      (b = true ↔ ∃ pr pc : ℤ, onRing r c k pr pc ∧
        ∃ v : ℚ, readFloat sdf_im (pr * width + pc) = some v ∧ 0 ≤ v) ∧
      (b = true → onRing r c k cr cc ∧
        ∃ v : ℚ, readFloat sdf_im (cr * width + cc) = some v ∧ 0 ≤ v) ∧
      (b = false → cr = closest_r ∧ cc = closest_c) := by
  have hcount : ∀ j : ℕ, j < (2 * k + 1).toNat → (j : ℤ) ≤ 2 * k := by
    intro j hj
    have := Int.toNat_of_nonneg (show 0 ≤ 2 * k + 1 by omega)
    omega
  have hrow_eq : ∀ w_r : ℤ, w_r * width + c - k = w_r * width + (c - k) := fun w_r => by ring
  have hrow_eq2 : ∀ w_r : ℤ, w_r * width + c + k = w_r * width + (c + k) := fun w_r => by ring
  have hcolsread : ∀ e ∈ PWP3D.FindClosestIntersection.columns r c width k,
      (∃ v, readFloat sdf_im e.1.1 = some v) ∧ (∃ v, readFloat sdf_im e.2.1 = some v) := by
    intro e he
    obtain ⟨j, hj, rfl⟩ := (FindClosestIntersection.mem_columns r c width k e).mp he
    have := hcount j hj
    exact ⟨readFloat_in_range sdf_im height width (r + k) (c - k + j) hlen (by omega) (by omega)
        (by omega) (by omega),
      readFloat_in_range sdf_im height width (r - k) (c - k + j) hlen (by omega) (by omega)
        (by omega) (by omega)⟩
  have hrowsread : ∀ e ∈ PWP3D.FindClosestIntersection.rowsList r c width k,
      (∃ v, readFloat sdf_im e.1.1 = some v) ∧ (∃ v, readFloat sdf_im e.2.1 = some v) := by
    intro e he
    obtain ⟨j, hj, rfl⟩ := (FindClosestIntersection.mem_rowsList r c width k e).mp he
    have := hcount j hj
    constructor
    · show ∃ v, readFloat sdf_im ((r - k + j) * width + c - k) = some v
      rw [hrow_eq]
      exact readFloat_in_range sdf_im height width (r - k + j) (c - k) hlen (by omega)
        (by omega) (by omega) (by omega)
    · show ∃ v, readFloat sdf_im ((r - k + j) * width + c + k) = some v
      rw [hrow_eq2]
      exact readFloat_in_range sdf_im height width (r - k + j) (c + k) hlen (by omega)
        (by omega) (by omega) (by omega)
  -- a hit of the first loop is a ring pixel with a non-negative value
  have hcolshit : ∀ px : ℤ × ℤ, (∃ e ∈ PWP3D.FindClosestIntersection.columns r c width k,
        (px = e.1.2 ∧ ∃ v, readFloat sdf_im e.1.1 = some v ∧ 0 ≤ v) ∨
        (px = e.2.2 ∧ ∃ v, readFloat sdf_im e.2.1 = some v ∧ 0 ≤ v)) →
      onRing r c k px.1 px.2 ∧ ∃ v, readFloat sdf_im (px.1 * width + px.2) = some v ∧ 0 ≤ v := by
    rintro px ⟨e, he, hcase⟩
    obtain ⟨j, hj, rfl⟩ := (FindClosestIntersection.mem_columns r c width k e).mp he
    have := hcount j hj
    rcases hcase with ⟨rfl, hv⟩ | ⟨rfl, hv⟩
    · exact ⟨onRing_of_row r c k _ _ hk (Or.inl rfl) (by show c - k ≤ c - k + (j : ℤ); omega)
        (by show c - k + (j : ℤ) ≤ c + k; omega), hv⟩
    · exact ⟨onRing_of_row r c k _ _ hk (Or.inr rfl) (by show c - k ≤ c - k + (j : ℤ); omega)
        (by show c - k + (j : ℤ) ≤ c + k; omega), hv⟩
  have hrowshit : ∀ px : ℤ × ℤ, (∃ e ∈ PWP3D.FindClosestIntersection.rowsList r c width k,
        (px = e.1.2 ∧ ∃ v, readFloat sdf_im e.1.1 = some v ∧ 0 ≤ v) ∨
        (px = e.2.2 ∧ ∃ v, readFloat sdf_im e.2.1 = some v ∧ 0 ≤ v)) →
      onRing r c k px.1 px.2 ∧ ∃ v, readFloat sdf_im (px.1 * width + px.2) = some v ∧ 0 ≤ v := by
    rintro px ⟨e, he, hcase⟩
    obtain ⟨j, hj, rfl⟩ := (FindClosestIntersection.mem_rowsList r c width k e).mp he
    have := hcount j hj
    rcases hcase with ⟨rfl, v, hv, hv0⟩ | ⟨rfl, v, hv, hv0⟩
    · refine ⟨onRing_of_col r c k _ _ hk (Or.inl rfl) (by show r - k ≤ r - k + (j : ℤ); omega)
        (by show r - k + (j : ℤ) ≤ r + k; omega), v, ?_, hv0⟩
      show readFloat sdf_im ((r - k + j) * width + (c - k)) = some v
      rw [← hrow_eq]
      exact hv
    · refine ⟨onRing_of_col r c k _ _ hk (Or.inr rfl) (by show r - k ≤ r - k + (j : ℤ); omega)
        (by show r - k + (j : ℤ) ≤ r + k; omega), v, ?_, hv0⟩
      show readFloat sdf_im ((r - k + j) * width + (c + k)) = some v
      rw [← hrow_eq2]
      exact hv
  obtain ⟨res1, hres1, hnone1, hsome1⟩ :=
    FindClosestIntersection.scan_spec sdf_im _ hcolsread
  obtain ⟨res2, hres2, hnone2, hsome2⟩ :=
    FindClosestIntersection.scan_spec sdf_im _ hrowsread
  rw [hres1]
  cases res1 with
  | some px =>
    have hhit := hcolshit px (hsome1 px rfl)
    exact ⟨true, px.1, px.2, rfl, ⟨fun _ => ⟨px.1, px.2, hhit⟩, fun _ => rfl⟩, fun _ => hhit,
      fun h => by cases h⟩
  | none =>
    simp only [hres2]
    cases res2 with
    | some px =>
      have hhit := hrowshit px (hsome2 px rfl)
      exact ⟨true, px.1, px.2, rfl, ⟨fun _ => ⟨px.1, px.2, hhit⟩, fun _ => rfl⟩, fun _ => hhit,
        fun h => by cases h⟩
    | none =>
      refine ⟨false, closest_r, closest_c, rfl, ⟨fun h => (by cases h), ?_⟩,
        fun h => (by cases h), fun _ => ⟨rfl, rfl⟩⟩
      rintro ⟨pr, pc, hring, v, hv, hv0⟩
      exfalso
      rcases onRing_cases r c k pr pc hk hring with ⟨hrow, hc0', hc1'⟩ | ⟨hcol, hr0', hr1'⟩
      · -- the pixel is probed by the first loop
        have hj : (pc - (c - k)).toNat < (2 * k + 1).toNat := by
          have h1 := Int.toNat_of_nonneg (show 0 ≤ pc - (c - k) by omega)
          have h2 := Int.toNat_of_nonneg (show 0 ≤ 2 * k + 1 by omega)
          omega
        have hjc : c - k + ((pc - (c - k)).toNat : ℤ) = pc := by
          have h1 := Int.toNat_of_nonneg (show 0 ≤ pc - (c - k) by omega)
          omega
        have hmem := (FindClosestIntersection.mem_columns r c width k _).mpr
          ⟨(pc - (c - k)).toNat, hj, rfl⟩
        have hneg := hnone1 rfl _ hmem v
        rw [hjc] at hneg
        rcases hrow with h | h
        · subst h
          exact absurd (hneg.1 hv) (not_lt.mpr hv0)
        · subst h
          exact absurd (hneg.2 hv) (not_lt.mpr hv0)
      · have hj : (pr - (r - k)).toNat < (2 * k + 1).toNat := by
          have h1 := Int.toNat_of_nonneg (show 0 ≤ pr - (r - k) by omega)
          have h2 := Int.toNat_of_nonneg (show 0 ≤ 2 * k + 1 by omega)
          omega
        have hjr : r - k + ((pr - (r - k)).toNat : ℤ) = pr := by
          have h1 := Int.toNat_of_nonneg (show 0 ≤ pr - (r - k) by omega)
          omega
        have hmem := (FindClosestIntersection.mem_rowsList r c width k _).mpr
          ⟨(pr - (r - k)).toNat, hj, rfl⟩
        have hneg := hnone2 rfl _ hmem v
        rw [hjr] at hneg
        rcases hcol with h | h
        · subst h
          have := hneg.1 (by show readFloat sdf_im (pr * width + c - k) = some v
                             rw [hrow_eq]; exact hv)
          exact absurd this (not_lt.mpr hv0)
        · subst h
          have := hneg.2 (by show readFloat sdf_im (pr * width + c + k) = some v
                             rw [hrow_eq2]; exact hv)
          exact absurd this (not_lt.mpr hv0)

/-- C24: for a pixel `(r, c)` of a `height x width` SDF image with value `s` and
`k = |ceil(s)|`, when the ring of radius `k` around the pixel lies inside the image (so that
every probed pixel is in range), `FindClosestIntersection` returns; it returns true if and
only if some pixel at Chebyshev distance exactly `k` from `(r, c)` has SDF `>= 0`; when it
returns true, `(closest_r, closest_c)` is such a ring pixel with SDF `>= 0`; and when it
returns false, `closest_r` and `closest_c` keep the values they had. -/
theorem FindClosestIntersection_ring (sdf_im : List ℚ)
    (r c height width closest_r closest_c : ℤ) (s : ℚ)
    (hlen : (sdf_im.length : ℤ) = height * width)
    (hs : readFloat sdf_im (r * width + c) = some s)
    (hr0 : 0 ≤ r - |⌈s⌉|) (hr1 : r + |⌈s⌉| < height)
    (hc0 : 0 ≤ c - |⌈s⌉|) (hc1 : c + |⌈s⌉| < width) :
    ∃ (b : Bool) (cr cc : ℤ),
      PWP3D.FindClosestIntersection sdf_im r c height width closest_r closest_c
        = some (b, cr, cc) ∧
      (b = true ↔ ∃ pr pc : ℤ, onRing r c |⌈s⌉| pr pc ∧
        ∃ v : ℚ, readFloat sdf_im (pr * width + pc) = some v ∧ 0 ≤ v) ∧
      (b = true → onRing r c |⌈s⌉| cr cc ∧
        ∃ v : ℚ, readFloat sdf_im (cr * width + cc) = some v ∧ 0 ≤ v) ∧
      (b = false → cr = closest_r ∧ cc = closest_c) := by
  unfold PWP3D.FindClosestIntersection
  rw [hs]
  exact FindClosestIntersection.search_spec sdf_im r c height width |⌈s⌉| closest_r closest_c
    hlen (abs_nonneg _) hr0 hr1 hc0 hc1

/-- Witness for C24: a `3 x 3` SDF image whose centre is outside at distance 1 and whose
pixel `(1, 2)` is a contour pixel (value 0): the search around the centre returns true with
a pixel of the ring of radius 1. -/
theorem FindClosestIntersection_ring_witness :
    ∃ (b : Bool) (cr cc : ℤ),
      PWP3D.FindClosestIntersection [-2, -2, -2, -2, -1, 0, -2, -2, -2] 1 1 3 3 7 7
        = some (b, cr, cc) ∧ b = true ∧ onRing 1 1 1 cr cc := by
  have hceil : |⌈(-1 : ℚ)⌉| = 1 := by
    have : ⌈(-1 : ℚ)⌉ = -1 := by
      rw [show (-1 : ℚ) = ((-1 : ℤ) : ℚ) by norm_num, Int.ceil_intCast]
    rw [this]
    rfl
  obtain ⟨b, cr, cc, hcall, hiff, htrue, _⟩ :=
    FindClosestIntersection_ring [-2, -2, -2, -2, -1, 0, -2, -2, -2] 1 1 3 3 7 7 (-1)
      (by norm_num) (by simp [readFloat]) (by rw [hceil]; norm_num) (by rw [hceil]; norm_num)
      (by rw [hceil]; norm_num) (by rw [hceil]; norm_num)
  rw [hceil] at hiff htrue
  have hb : b = true :=
    hiff.mpr ⟨1, 2, by unfold onRing; decide, 0, by simp [readFloat], le_refl _⟩
  exact ⟨b, cr, cc, hcall, hb, (htrue hb).1⟩

theorem offsetSum_cons (pt : Vec2i) (rest : List Vec2i) (com : Vec2i) (f : ℤ → ℤ → ℤ) :
    offsetSum (pt :: rest) com f = f (pt 0 - com 0) (pt 1 - com 1) + offsetSum rest com f := by
  simp [offsetSum]

theorem writeFloat_eq_some (d : List ℚ) (i : Nat) (v : ℚ) (d2 : List ℚ) :
    writeFloat d i v = some d2 ↔ i < d.length ∧ d2 = d.set i v := by
  unfold writeFloat
  split
  · constructor
    · intro h
      exact ⟨by assumption, (Option.some.inj h).symm⟩
    · rintro ⟨_, rfl⟩
      rfl
  · constructor
    · intro h
      cases h
    · rintro ⟨h, _⟩
      exact absurd h (by assumption)

theorem getD_set_self (d : List ℚ) (i : Nat) (v : ℚ) (h : i < d.length) :
    (d.set i v).getD i 0 = v := by
  rw [List.getD_eq_getElem?_getD, List.getElem?_set_self h]
  rfl

theorem getD_set_ne (d : List ℚ) (i j : Nat) (v : ℚ) (h : i ≠ j) :
    (d.set i v).getD j 0 = d.getD j 0 := by
  rw [List.getD_eq_getElem?_getD, List.getElem?_set_ne h, ← List.getD_eq_getElem?_getD]

/-- A sequence of stores that ends normally keeps the length of the buffer, leaves alone
every element that is not stored to, and, when stores to the same element agree on the
value, leaves each stored value in place. -/
theorem writeFold_spec (f : Nat → Nat) (v : Nat → ℚ) (ks : List Nat) :
    ∀ (d d2 : List ℚ), ks.foldlM (fun d k => writeFloat d (f k) (v k)) d = some d2 →
      d2.length = d.length ∧
      (∀ i, (∀ k ∈ ks, f k ≠ i) → d2.getD i 0 = d.getD i 0) ∧
      ((∀ a ∈ ks, ∀ b ∈ ks, f a = f b → v a = v b) → ∀ k ∈ ks, d2.getD (f k) 0 = v k) := by
  induction ks with
  | nil =>
    intro d d2 h
    have hd : d2 = d := (Option.some.inj h).symm
    subst hd
    exact ⟨rfl, fun _ _ => rfl, fun _ k hk => by cases hk⟩
  | cons a t ih =>
    intro d d2 h
    rw [List.foldlM_cons] at h
    cases hw : writeFloat d (f a) (v a) with
    | none => rw [hw] at h; cases h
    | some d1 =>
      rw [hw] at h
      obtain ⟨hlt, rfl⟩ := (writeFloat_eq_some d (f a) (v a) d1).mp hw
      obtain ⟨hlen, hkeep, hval⟩ := ih _ d2 h
      refine ⟨by rw [hlen, List.length_set], fun i hi => ?_, fun hcons k hk => ?_⟩
      · rw [hkeep i (fun k hk => hi k (List.mem_cons_of_mem _ hk)),
          getD_set_ne _ _ _ _ (hi a (List.mem_cons_self _ _))]
      · have hcons_t : ∀ x ∈ t, ∀ y ∈ t, f x = f y → v x = v y := fun x hx y hy =>
          hcons x (List.mem_cons_of_mem _ hx) y (List.mem_cons_of_mem _ hy)
        rcases List.mem_cons.mp hk with rfl | hkt
        · by_cases hex : ∃ k2 ∈ t, f k2 = f k
          · obtain ⟨k2, hk2, hfk⟩ := hex
            rw [← hfk, hval hcons_t k2 hk2]
            exact hcons k2 (List.mem_cons_of_mem _ hk2) k (List.mem_cons_self _ _) hfk
          · have hne : ∀ k2 ∈ t, f k2 ≠ f k := fun k2 hk2 hfk => hex ⟨k2, hk2, hfk⟩
            rw [hkeep (f k) hne, getD_set_self _ _ _ hlt]
        · exact hval hcons_t k hkt

/-- A sequence of stores inside the buffer ends normally. -/
theorem writeFold_exists (f : Nat → Nat) (v : Nat → ℚ) (ks : List Nat) :
    ∀ (d : List ℚ), (∀ k ∈ ks, f k < d.length) →
      ∃ d2, ks.foldlM (fun d k => writeFloat d (f k) (v k)) d = some d2 := by
  induction ks with
  | nil => intro d _; exact ⟨d, rfl⟩
  | cons a t ih =>
    intro d h
    have hw : writeFloat d (f a) (v a) = some (d.set (f a) (v a)) :=
      (writeFloat_eq_some _ _ _ _).mpr ⟨h a (List.mem_cons_self _ _), rfl⟩
    obtain ⟨d2, hd2⟩ := ih (d.set (f a) (v a)) (fun k hk => by
      rw [List.length_set]
      exact h k (List.mem_cons_of_mem _ hk))
    refine ⟨d2, ?_⟩
    rw [List.foldlM_cons, hw]
    exact hd2

/-- A loop that stores into the buffer and updates a second variable on the side is the
sequence of stores paired with the fold of the side variable. -/
theorem pairFold_eq {β : Type} (f : Nat → Nat) (v : Nat → ℚ) (g : β → Nat → β)
    (ks : List Nat) :
    ∀ (d : List ℚ) (b : β),
      ks.foldlM (fun (st : List ℚ × β) (k : Nat) =>
          (writeFloat st.1 (f k) (v k)).map (fun d2 => (d2, g st.2 k))) (d, b) =
        (ks.foldlM (fun d k => writeFloat d (f k) (v k)) d).map
          (fun d2 => (d2, ks.foldl g b)) := by
  induction ks with
  | nil => intro d b; rfl
  | cons a t ih =>
    intro d b
    rw [List.foldlM_cons, List.foldlM_cons]
    cases hw : writeFloat d (f a) (v a) with
    | none => rfl
    | some d1 =>
      simp only [Option.map_some', Option.some_bind, Option.bind_eq_bind, List.foldl_cons]
      exact ih d1 (g b a)

theorem foldl_flag (p : Nat → Prop) [DecidablePred p] (l : List Nat) :
    ∀ b : Bool, l.foldl (fun b k => if p k then true else b) b
      = (b || l.any (fun k => decide (p k))) := by
  induction l with
  | nil => intro b; simp
  | cons a t ih =>
    intro b
    rw [List.foldl_cons, ih]
    by_cases h : p a <;> simp [h]

/-- The class loop at one pixel is its sequence of stores together with the flag "some class
other than 0 has a non-zero prediction". -/
theorem ClassifyFrame.predictLoop_eq (forest : MultiClassRandomForest) (pix : PixelData)
    (index ch : Nat) (d : List ℚ) :
    MultiClassRandomForest.ClassifyFrame.predictLoop forest pix index ch d false =
      ((List.range forest.num_classes_).foldlM
          (fun d cls => writeFloat d (index * ch + cls) (forest.PredictProb pix cls)) d).map
        (fun d2 => (d2, (List.range forest.num_classes_).any
          (fun cls => decide (0 < cls ∧ forest.PredictProb pix cls ≠ 0)))) := by
  unfold MultiClassRandomForest.ClassifyFrame.predictLoop
  have h := pairFold_eq (fun cls => index * ch + cls) (fun cls => forest.PredictProb pix cls)
    (fun (b : Bool) cls => if 0 < cls ∧ forest.PredictProb pix cls ≠ 0 then true else b)
    (List.range forest.num_classes_) d false
  rw [foldl_flag (fun cls => 0 < cls ∧ forest.PredictProb pix cls ≠ 0)] at h
  simpa using h

/-- One pass of the pixel loop that ends normally: the buffer keeps its length, only the
channels of this pixel change, they hold the predictions followed by zeros, and the pixel
is counted when it predicts a foreground class. -/
theorem ClassifyFrame.pixel_spec (forest : MultiClassRandomForest) (frame : Frame)
    (cols ch r c : Nat) (d : List ℚ) (n : Nat) (d2 : List ℚ) (n2 : Nat)
    (hnc : forest.num_classes_ ≤ ch)
    (h : MultiClassRandomForest.ClassifyFrame.pixel forest frame cols ch r c (d, n)
      = some (d2, n2)) :
    d2.length = d.length ∧
    (∀ i, (i < (r * cols + c) * ch ∨ (r * cols + c) * ch + ch ≤ i) →
      d2.getD i 0 = d.getD i 0) ∧
    (∀ k, k < ch → d2.getD ((r * cols + c) * ch + k) 0 =
      if k < forest.num_classes_ then forest.PredictProb (frame.GetPixelData r c) k else 0) ∧
    n2 = n + (if predictsForeground forest frame r c then 1 else 0) := by
  unfold MultiClassRandomForest.ClassifyFrame.pixel at h
  simp only at h
  rw [ClassifyFrame.predictLoop_eq] at h
  cases hp : (List.range forest.num_classes_).foldlM
      (fun d cls => writeFloat d ((r * cols + c) * ch + cls)
        (forest.PredictProb (frame.GetPixelData r c) cls)) d with
  | none => rw [hp] at h; cases h
  | some d1 =>
    rw [hp] at h
    simp only [Option.map_some', Option.some_bind, Option.bind_eq_bind] at h
    unfold MultiClassRandomForest.ClassifyFrame.zeroLoop at h
    cases hz : (List.range' forest.num_classes_ (ch - forest.num_classes_)).foldlM
        (fun (frame_data : List ℚ) (k : Nat) =>
          writeFloat frame_data ((r * cols + c) * ch + k) 0) d1 with
    | none => rw [hz] at h; cases h
    | some dz =>
      rw [hz] at h
      simp only [Option.map_some', Option.some.injEq, Prod.mk.injEq] at h
      obtain ⟨rfl, rfl⟩ := h
      obtain ⟨hlen1, hkeep1, hval1⟩ := writeFold_spec
        (fun cls => (r * cols + c) * ch + cls)
        (fun cls => forest.PredictProb (frame.GetPixelData r c) cls) _ d d1 hp
      obtain ⟨hlenz, hkeepz, hvalz⟩ := writeFold_spec
        (fun k => (r * cols + c) * ch + k) (fun _ => (0 : ℚ)) _ d1 dz hz
      refine ⟨by rw [hlenz, hlen1], fun i hi => ?_, fun k hk => ?_, rfl⟩
      · rw [hkeepz i, hkeep1 i]
        · intro k hk
          have := List.mem_range.mp hk
          show (r * cols + c) * ch + k ≠ i
          omega
        · intro k hk
          have := List.mem_range'_1.mp hk
          show (r * cols + c) * ch + k ≠ i
          omega
      · by_cases hkn : k < forest.num_classes_
        · rw [if_pos hkn, hkeepz]
          · exact hval1 (fun a _ b _ hab => by
              have : a = b := by
                have hab2 : (r * cols + c) * ch + a = (r * cols + c) * ch + b := hab
                omega
              rw [this]) k (List.mem_range.mpr hkn)
          · intro k2 hk2
            have := List.mem_range'_1.mp hk2
            show (r * cols + c) * ch + k2 ≠ (r * cols + c) * ch + k
            omega
        · rw [if_neg hkn]
          exact hvalz (fun _ _ _ _ _ => rfl) k (List.mem_range'_1.mpr ⟨by omega, by omega⟩)

/-- One pass of the pixel loop ends normally when the channels of the pixel lie inside the
buffer. -/
theorem ClassifyFrame.pixel_exists (forest : MultiClassRandomForest) (frame : Frame)
    (cols ch r c : Nat) (d : List ℚ) (n : Nat)
    (hnc : forest.num_classes_ ≤ ch) (hbuf : (r * cols + c) * ch + ch ≤ d.length) :
    ∃ d2 n2, MultiClassRandomForest.ClassifyFrame.pixel forest frame cols ch r c (d, n)
      = some (d2, n2) := by
  obtain ⟨d1, hp⟩ := writeFold_exists (fun cls => (r * cols + c) * ch + cls)
    (fun cls => forest.PredictProb (frame.GetPixelData r c) cls)
    (List.range forest.num_classes_) d (fun k hk => by
      have := List.mem_range.mp hk
      show (r * cols + c) * ch + k < d.length
      omega)
  have hlen1 := (writeFold_spec _ _ _ d d1 hp).1
  obtain ⟨dz, hz⟩ := writeFold_exists (fun k => (r * cols + c) * ch + k) (fun _ => (0 : ℚ))
    (List.range' forest.num_classes_ (ch - forest.num_classes_)) d1 (fun k hk => by
      have := List.mem_range'_1.mp hk
      show (r * cols + c) * ch + k < d1.length
      omega)
  refine ⟨dz, n + (if predictsForeground forest frame r c then 1 else 0), ?_⟩
  unfold MultiClassRandomForest.ClassifyFrame.pixel
  simp only
  rw [ClassifyFrame.predictLoop_eq, hp]
  simp only [Option.map_some', Option.some_bind, Option.bind_eq_bind]
  unfold MultiClassRandomForest.ClassifyFrame.zeroLoop
  rw [hz]
  rfl

/-- The first `m` passes of the column loop of row `r`, when they end normally. -/
theorem ClassifyFrame.row_spec (forest : MultiClassRandomForest) (frame : Frame)
    (cols ch r : Nat) (hnc : forest.num_classes_ ≤ ch) (m : Nat) :
    ∀ (d : List ℚ) (n : Nat) (d2 : List ℚ) (n2 : Nat),
      (List.range m).foldlM
          (fun (st : List ℚ × Nat) (c : Nat) =>
            MultiClassRandomForest.ClassifyFrame.pixel forest frame cols ch r c st) (d, n)
        = some (d2, n2) →
      d2.length = d.length ∧
      (∀ i, (i < (r * cols) * ch ∨ (r * cols + m) * ch ≤ i) → d2.getD i 0 = d.getD i 0) ∧
      (∀ c k, c < m → k < ch → d2.getD ((r * cols + c) * ch + k) 0 =
        if k < forest.num_classes_ then forest.PredictProb (frame.GetPixelData r c) k
        else 0) ∧
      n2 = n + ((List.range m).filter
        (fun c => predictsForeground forest frame r c)).length := by
  induction m with
  | zero =>
    intro d n d2 n2 h
    simp only [List.range_zero, List.foldlM_nil] at h
    obtain ⟨rfl, rfl⟩ := Prod.mk.inj (Option.some.inj h)
    exact ⟨rfl, fun _ _ => rfl, fun c k hc => absurd hc (Nat.not_lt_zero c), by simp⟩
  | succ m ih =>
    intro d n d2 n2 h
    rw [List.range_succ, List.foldlM_append] at h
    cases hmid : (List.range m).foldlM
        (fun (st : List ℚ × Nat) (c : Nat) =>
          MultiClassRandomForest.ClassifyFrame.pixel forest frame cols ch r c st) (d, n) with
    | none => rw [hmid] at h; cases h
    | some st1 =>
      obtain ⟨d1, n1⟩ := st1
      rw [hmid] at h
      simp only [Option.some_bind, Option.bind_eq_bind, List.foldlM_cons, List.foldlM_nil,
        Option.pure_def, Option.bind_some] at h
      obtain ⟨hlen1, hkeep1, hval1, hn1⟩ := ih d n d1 n1 hmid
      obtain ⟨hlen2, hkeep2, hval2, hn2⟩ :=
        ClassifyFrame.pixel_spec forest frame cols ch r m d1 n1 d2 n2 hnc h
      have hstep : (r * cols + (m + 1)) * ch = (r * cols + m) * ch + ch := by ring
      have hmono : (r * cols) * ch ≤ (r * cols + m) * ch :=
        Nat.mul_le_mul_right ch (Nat.le_add_right _ _)
      refine ⟨by rw [hlen2, hlen1], fun i hi => ?_, fun c k hc hk => ?_, ?_⟩
      · rw [hkeep2 i (by omega), hkeep1 i (by omega)]
      · by_cases hcm : c < m
        · have hblock : (r * cols + c + 1) * ch ≤ (r * cols + m) * ch :=
            Nat.mul_le_mul_right ch (by omega)
          have hblock2 : (r * cols + c + 1) * ch = (r * cols + c) * ch + ch := by ring
          rw [hkeep2 _ (by omega)]
          exact hval1 c k hcm hk
        · have hceq : c = m := by omega
          subst hceq
          exact hval2 k hk
      · rw [hn2, hn1, List.range_succ, List.filter_append, List.length_append]
        by_cases hflag : predictsForeground forest frame r m = true
        · simp [hflag, List.filter_cons, Nat.add_assoc]
        · simp [hflag, List.filter_cons]

/-- The first `m` passes of the column loop of row `r` end normally when their channels lie
inside the buffer. -/
theorem ClassifyFrame.row_exists (forest : MultiClassRandomForest) (frame : Frame)
    (cols ch r : Nat) (hnc : forest.num_classes_ ≤ ch) (m : Nat) :
    ∀ (d : List ℚ) (n : Nat), (r * cols + m) * ch ≤ d.length →
      ∃ d2 n2, (List.range m).foldlM
          (fun (st : List ℚ × Nat) (c : Nat) =>
            MultiClassRandomForest.ClassifyFrame.pixel forest frame cols ch r c st) (d, n)
        = some (d2, n2) := by
  induction m with
  | zero => intro d n _; exact ⟨d, n, rfl⟩
  | succ m ih =>
    intro d n hbuf
    have hstep : (r * cols + (m + 1)) * ch = (r * cols + m) * ch + ch := by ring
    obtain ⟨d1, n1, hmid⟩ := ih d n (by omega)
    have hlen1 := (ClassifyFrame.row_spec forest frame cols ch r hnc m d n d1 n1 hmid).1
    obtain ⟨d2, n2, hpix⟩ := ClassifyFrame.pixel_exists forest frame cols ch r m d1 n1 hnc
      (by omega)
    refine ⟨d2, n2, ?_⟩
    rw [List.range_succ, List.foldlM_append, hmid]
    simp only [Option.some_bind, Option.bind_eq_bind, List.foldlM_cons, List.foldlM_nil,
      Option.pure_def, Option.bind_some]
    exact hpix

/-- The first `R` rows of the pixel loops, when they end normally: every pixel of those rows
holds its predictions followed by zeros, and the count has grown by the number of their
pixels that predict a foreground class. -/
theorem ClassifyFrame.rows_spec (forest : MultiClassRandomForest) (frame : Frame)
    (cols ch : Nat) (hnc : forest.num_classes_ ≤ ch) (R : Nat) :
    ∀ (d : List ℚ) (n : Nat) (d2 : List ℚ) (n2 : Nat),
      MultiClassRandomForest.ClassifyFrame.pixelLoops forest frame R cols ch (d, n)
        = some (d2, n2) →
      d2.length = d.length ∧
      (∀ i, (R * cols) * ch ≤ i → d2.getD i 0 = d.getD i 0) ∧
      (∀ r c k, r < R → c < cols → k < ch → d2.getD ((r * cols + c) * ch + k) 0 =
        if k < forest.num_classes_ then forest.PredictProb (frame.GetPixelData r c) k
        else 0) ∧
      n2 = n + ((List.range R).map (fun r => ((List.range cols).filter
        (fun c => predictsForeground forest frame r c)).length)).sum := by
  induction R with
  | zero =>
    intro d n d2 n2 h
    simp only [MultiClassRandomForest.ClassifyFrame.pixelLoops, List.range_zero,
      List.foldlM_nil] at h
    obtain ⟨rfl, rfl⟩ := Prod.mk.inj (Option.some.inj h)
    exact ⟨rfl, fun _ _ => rfl, fun r c k hr => absurd hr (Nat.not_lt_zero r), by simp⟩
  | succ R ih =>
    intro d n d2 n2 h
    unfold MultiClassRandomForest.ClassifyFrame.pixelLoops at h
    rw [List.range_succ, List.foldlM_append] at h
    cases hmid : MultiClassRandomForest.ClassifyFrame.pixelLoops forest frame R cols ch
        (d, n) with
    | none =>
      unfold MultiClassRandomForest.ClassifyFrame.pixelLoops at hmid
      rw [hmid] at h
      cases h
    | some st1 =>
      obtain ⟨d1, n1⟩ := st1
      obtain ⟨hlen1, hkeep1, hval1, hn1⟩ := ih d n d1 n1 hmid
      unfold MultiClassRandomForest.ClassifyFrame.pixelLoops at hmid
      rw [hmid] at h
      simp only [Option.some_bind, Option.bind_eq_bind, List.foldlM_cons, List.foldlM_nil,
        Option.pure_def, Option.bind_some] at h
      obtain ⟨hlen2, hkeep2, hval2, hn2⟩ :=
        ClassifyFrame.row_spec forest frame cols ch R hnc cols d1 n1 d2 n2 h
      have hstep : ((R + 1) * cols) * ch = (R * cols + cols) * ch := by ring
      have hmono : (R * cols) * ch ≤ (R * cols + cols) * ch :=
        Nat.mul_le_mul_right ch (Nat.le_add_right _ _)
      refine ⟨by rw [hlen2, hlen1], fun i hi => ?_, fun r c k hr hc hk => ?_, ?_⟩
      · rw [hkeep2 i (by omega), hkeep1 i (by omega)]
      · by_cases hrR : r < R
        · have hpix : r * cols + c + 1 ≤ R * cols := by
            have : (r + 1) * cols ≤ R * cols := Nat.mul_le_mul_right cols hrR
            have h2 : (r + 1) * cols = r * cols + cols := by ring
            omega
          have hblock : (r * cols + c + 1) * ch ≤ (R * cols) * ch :=
            Nat.mul_le_mul_right ch hpix
          have hblock2 : (r * cols + c + 1) * ch = (r * cols + c) * ch + ch := by ring
          rw [hkeep2 _ (by omega)]
          exact hval1 r c k hrR hc hk
        · have hreq : r = R := by omega
          subst hreq
          exact hval2 c k hc hk
      · rw [hn2, hn1, List.range_succ, List.map_append, List.sum_append]
        simp [Nat.add_assoc]

/-- The first `R` rows of the pixel loops end normally when their channels lie inside the
buffer. -/
theorem ClassifyFrame.rows_exists (forest : MultiClassRandomForest) (frame : Frame)
    (cols ch : Nat) (hnc : forest.num_classes_ ≤ ch) (R : Nat) :
    ∀ (d : List ℚ) (n : Nat), (R * cols) * ch ≤ d.length →
      ∃ d2 n2, MultiClassRandomForest.ClassifyFrame.pixelLoops forest frame R cols ch (d, n)
        = some (d2, n2) := by
  induction R with
  | zero => intro d n _; exact ⟨d, n, rfl⟩
  | succ R ih =>
    intro d n hbuf
    have hstep : ((R + 1) * cols) * ch = (R * cols + cols) * ch := by ring
    have hmono : (R * cols) * ch ≤ (R * cols + cols) * ch :=
      Nat.mul_le_mul_right ch (Nat.le_add_right _ _)
    obtain ⟨d1, n1, hmid⟩ := ih d n (by omega)
    have hlen1 := (ClassifyFrame.rows_spec forest frame cols ch hnc R d n d1 n1 hmid).1
    obtain ⟨d2, n2, hrow⟩ := ClassifyFrame.row_exists forest frame cols ch R hnc cols d1 n1
      (by omega)
    refine ⟨d2, n2, ?_⟩
    unfold MultiClassRandomForest.ClassifyFrame.pixelLoops at hmid ⊢
    rw [List.range_succ, List.foldlM_append, hmid]
    simp only [Option.some_bind, Option.bind_eq_bind, List.foldlM_cons, List.foldlM_nil,
      Option.pure_def, Option.bind_some]
    exact hrow

theorem split_getElem?_isSome (m : ClassificationMap) (i : Nat) :
    (split m)[i]?.isSome = decide (i < m.channels) := by
  unfold split
  by_cases h : i < m.channels
  · simp [h]
  · simp [h]
    exact Nat.le_of_not_lt h

/-- The call on a frame that passes the assertion and both checks and whose pixel loops end
normally with the buffer `d2` and the count `n2`. -/
theorem ClassifyFrame_valid (forest : MultiClassRandomForest) (frame : Frame)
    (d2 : List ℚ) (n2 : Nat)
    (htype : frame.roi_type = CV_8UC3)
    (hnc : forest.num_classes_ ≤ frame.classification_map.channels)
    (hdepth : frame.classification_map.depth = CV_32F)
    (hloops : MultiClassRandomForest.ClassifyFrame.pixelLoops forest frame frame.rows
      frame.cols frame.classification_map.channels (frame.classification_map.data, 0)
        = some (d2, n2)) :
    forest.ClassifyFrame (some frame) =
      (if 4 ≤ frame.classification_map.channels then
          Except.ok (decide (roundDouble (n2 : ℚ) >
            MultiClassRandomForest.ClassifyFrame.threshold frame.rows frame.cols))
        else Except.error Fault.undefined_behaviour,
        some { frame with
          classification_map := { frame.classification_map with data := d2 } }) := by
  unfold MultiClassRandomForest.ClassifyFrame
  have hnc2 : ¬ forest.num_classes_ > frame.classification_map.channels := by omega
  simp only [htype, ne_eq, not_true_eq_false, if_false, hnc2, hdepth, hloops]
  by_cases hch : 4 ≤ frame.classification_map.channels
  · rw [if_pos hch]
    split
    · by_cases hcount : roundDouble (n2 : ℚ) >
          MultiClassRandomForest.ClassifyFrame.threshold frame.rows frame.cols
      · simp [hcount]
      · simp [hcount]
    · rename_i hno
      exfalso
      have key : ∀ i : Nat, i < frame.classification_map.channels →
          ∃ x, (split { rows := frame.classification_map.rows
                        cols := frame.classification_map.cols
                        channels := frame.classification_map.channels
                        depth := CV_32F
                        data := d2 })[i]? = some x := fun i hi =>
        Option.isSome_iff_exists.mp ((split_getElem?_isSome _ i).trans (decide_eq_true hi))
      obtain ⟨x0, hx0⟩ := key 0 (by omega)
      obtain ⟨x1, hx1⟩ := key 1 (by omega)
      obtain ⟨x2, hx2⟩ := key 2 (by omega)
      obtain ⟨x3, hx3⟩ := key 3 (by omega)
      exact hno x0 x1 x2 x3 hx0 hx1 hx2 hx3
  · rw [if_neg hch]
    split
    · rename_i x0 x1 x2 x3 hx0 hx1 hx2 hx3
      exfalso
      have h3 := congrArg Option.isSome hx3
      rw [split_getElem?_isSome] at h3
      simp at h3
      omega
    · rfl

/-- A call that returns has passed the assertion and both checks, has run its pixel loops
to the end and has found at least four channels to split. -/
theorem ClassifyFrame_ok_inv (forest : MultiClassRandomForest) (frame : Frame) (b : Bool)
    (hok : (forest.ClassifyFrame (some frame)).1 = Except.ok b) :
    frame.roi_type = CV_8UC3 ∧
    forest.num_classes_ ≤ frame.classification_map.channels ∧
    frame.classification_map.depth = CV_32F ∧
    4 ≤ frame.classification_map.channels ∧
    ∃ d2 n2, MultiClassRandomForest.ClassifyFrame.pixelLoops forest frame frame.rows
      frame.cols frame.classification_map.channels (frame.classification_map.data, 0)
        = some (d2, n2) := by
  have htype : frame.roi_type = CV_8UC3 := by
    by_contra h
    unfold MultiClassRandomForest.ClassifyFrame at hok
    simp [h] at hok
  have hchecks : ¬ (forest.num_classes_ > frame.classification_map.channels ∨
      frame.classification_map.depth ≠ CV_32F) := by
    intro h
    rw [(ClassifyFrame_some forest frame htype).1 h] at hok
    cases hok
  have hnc : forest.num_classes_ ≤ frame.classification_map.channels := by
    by_contra h
    exact hchecks (Or.inl (by omega))
  have hdepth : frame.classification_map.depth = CV_32F := by
    by_contra h
    exact hchecks (Or.inr h)
  cases hl : MultiClassRandomForest.ClassifyFrame.pixelLoops forest frame frame.rows
      frame.cols frame.classification_map.channels (frame.classification_map.data, 0) with
  | none =>
    exfalso
    unfold MultiClassRandomForest.ClassifyFrame at hok
    have hnc2 : ¬ forest.num_classes_ > frame.classification_map.channels := by omega
    simp only [htype, ne_eq, not_true_eq_false, if_false, hnc2, hdepth, hl] at hok
    cases hok
  | some st =>
    obtain ⟨d2, n2⟩ := st
    refine ⟨htype, hnc, hdepth, ?_, d2, n2, rfl⟩
    by_contra hch
    rw [ClassifyFrame_valid forest frame d2 n2 htype hnc hdepth hl, if_neg hch] at hok
    cases hok

/-- C21: after a call of `ClassifyFrame` on a non-null frame that returns, the frame is
still there and, for every pixel `(r, c)` of the frame, the map buffer holds
`PredictProb(pixel, cls)` in channel `cls` for every `cls < num_classes` and 0 in every
channel `k` with `num_classes <= k < channels` (channel `k` of pixel `(r, c)` being element
`(r * cols + c) * channels + k` of the buffer). -/
theorem ClassifyFrame_map_contents (forest : MultiClassRandomForest) (frame : Frame)
    (b : Bool) (hok : (forest.ClassifyFrame (some frame)).1 = Except.ok b) :
    ∃ frame2 : Frame,
      (forest.ClassifyFrame (some frame)).2 = some frame2 ∧
      frame2.classification_map.channels = frame.classification_map.channels ∧
      ∀ r c : Nat, r < frame.rows → c < frame.cols →
        (∀ cls : Nat, cls < forest.num_classes_ →
          frame2.classification_map.data.getD
              ((r * frame.cols + c) * frame.classification_map.channels + cls) 0
            = forest.PredictProb (frame.GetPixelData r c) cls) ∧
        (∀ k : Nat, forest.num_classes_ ≤ k → k < frame.classification_map.channels →
          frame2.classification_map.data.getD
              ((r * frame.cols + c) * frame.classification_map.channels + k) 0 = 0) := by
  obtain ⟨htype, hnc, hdepth, _, d2, n2, hl⟩ := ClassifyFrame_ok_inv forest frame b hok
  obtain ⟨_, _, hval, _⟩ := ClassifyFrame.rows_spec forest frame frame.cols
    frame.classification_map.channels hnc frame.rows _ 0 d2 n2 hl
  refine ⟨{ frame with classification_map := { frame.classification_map with data := d2 } },
    ?_, rfl, fun r c hr hc => ⟨fun cls hcls => ?_, fun k hk1 hk2 => ?_⟩⟩
  · rw [ClassifyFrame_valid forest frame d2 n2 htype hnc hdepth hl]
  · have := hval r c cls hr hc (by omega)
    rw [if_pos hcls] at this
    exact this
  · have := hval r c k hr hc hk2
    rw [if_neg (by omega)] at this
    exact this

/-! ### Rounding -/

theorem roundHalfEven_sub_abs_le (q : ℚ) : |(roundHalfEven q : ℚ) - q| ≤ 1 / 2 := by
  unfold roundHalfEven
  have h1 := Int.floor_le q
  have h2 := Int.lt_floor_add_one q
  simp only
  split_ifs with ha hb hc
  · rw [abs_le]; constructor <;> linarith
  · rw [abs_le]; push_cast; constructor <;> linarith
  · rw [abs_le]; push_cast at *; constructor <;> linarith
  · rw [abs_le]; push_cast at *; constructor <;> linarith

theorem roundHalfEven_intCast (m : ℤ) : roundHalfEven (m : ℚ) = m := by
  unfold roundHalfEven
  simp

theorem log2Nat_le (fuel n : Nat) (hn : 1 ≤ n) : 2 ^ log2Nat fuel n ≤ n := by
  induction fuel generalizing n with
  | zero => simpa [log2Nat] using hn
  | succ fuel ih =>
    unfold log2Nat
    split_ifs with h
    · simpa using hn
    · have h2 : 1 ≤ n / 2 := by omega
      have := ih (n / 2) h2
      rw [pow_succ]
      omega

theorem lt_log2Nat (fuel n : Nat) (hn : n ≤ fuel) : n < 2 ^ (log2Nat fuel n + 1) := by
  induction fuel generalizing n with
  | zero =>
    have : n = 0 := by omega
    subst this
    simp [log2Nat]
  | succ fuel ih =>
    unfold log2Nat
    split_ifs with h
    · simpa using h
    · have h2 : n / 2 ≤ fuel := by omega
      have := ih (n / 2) h2
      rw [pow_succ]
      omega

/-- The exponent `floorLog2 q` of a non-zero rational brackets it:
`2 ^ floorLog2 q ≤ |q| < 2 ^ (floorLog2 q + 1)`. -/
theorem floorLog2_spec (q : ℚ) (hq : q ≠ 0) :
    (2 : ℚ) ^ floorLog2 q ≤ |q| ∧ |q| < (2 : ℚ) ^ (floorLog2 q + 1) := by
  unfold floorLog2
  simp only
  have hnum : 1 ≤ q.num.natAbs := by
    have : q.num ≠ 0 := Rat.num_ne_zero.mpr hq
    omega
  have hden : 1 ≤ q.den := q.den_pos
  have ha1 := log2Nat_le q.num.natAbs q.num.natAbs hnum
  have ha2 := lt_log2Nat q.num.natAbs q.num.natAbs le_rfl
  have hb1 := log2Nat_le q.den q.den hden
  have hb2 := lt_log2Nat q.den q.den le_rfl
  have habs : |q| = (q.num.natAbs : ℚ) / (q.den : ℚ) := by
    conv_lhs => rw [← Rat.num_div_den q]
    rw [abs_div, Nat.abs_cast, Nat.cast_natAbs, Int.cast_abs]
  have hbpos : (0 : ℚ) < (q.den : ℚ) := by exact_mod_cast q.den_pos
  have ha1q : (2 : ℚ) ^ (log2Nat q.num.natAbs q.num.natAbs) ≤ (q.num.natAbs : ℚ) := by
    exact_mod_cast ha1
  have ha2q : (q.num.natAbs : ℚ) < (2 : ℚ) ^ (log2Nat q.num.natAbs q.num.natAbs + 1) := by
    exact_mod_cast ha2
  have hb1q : (2 : ℚ) ^ (log2Nat q.den q.den) ≤ (q.den : ℚ) := by
    exact_mod_cast hb1
  have hb2q : (q.den : ℚ) < (2 : ℚ) ^ (log2Nat q.den q.den + 1) := by
    exact_mod_cast hb2
  generalize log2Nat q.num.natAbs q.num.natAbs = la at *
  generalize log2Nat q.den q.den = lb at *
  generalize (q.num.natAbs : ℚ) = a at *
  generalize (q.den : ℚ) = b at *
  have h2 : (0 : ℚ) < 2 := by norm_num
  have hk : (2 : ℚ) ^ ((la : ℤ) - (lb : ℤ)) = (2 : ℚ) ^ la / (2 : ℚ) ^ lb := by
    rw [zpow_sub₀ (by norm_num : (2 : ℚ) ≠ 0), zpow_natCast, zpow_natCast]
  split_ifs with h
  · refine ⟨h, ?_⟩
    rw [habs, zpow_add_one₀ (by norm_num : (2 : ℚ) ≠ 0), hk, div_lt_iff₀ hbpos]
    have hlb : (0 : ℚ) < (2 : ℚ) ^ lb := by positivity
    calc a < 2 ^ (la + 1) := ha2q
      _ = 2 ^ la / 2 ^ lb * 2 * 2 ^ lb := by field_simp; ring
      _ ≤ 2 ^ la / 2 ^ lb * 2 * b := by
          apply mul_le_mul_of_nonneg_left hb1q
          positivity
  · refine ⟨?_, ?_⟩
    · rw [habs, zpow_sub_one₀ (by norm_num : (2 : ℚ) ≠ 0), hk, le_div_iff₀ hbpos]
      have hlb : (0 : ℚ) < (2 : ℚ) ^ lb := by positivity
      calc 2 ^ la / 2 ^ lb * 2⁻¹ * b ≤ 2 ^ la / 2 ^ lb * 2⁻¹ * 2 ^ (lb + 1) := by
            apply mul_le_mul_of_nonneg_left (le_of_lt hb2q)
            positivity
        _ = 2 ^ la := by field_simp; ring
        _ ≤ a := ha1q
    · rw [sub_add_cancel]
      exact lt_of_not_le h

theorem floorLog2_lt (q : ℚ) (hq : q ≠ 0) (m : ℤ) (h : |q| < (2 : ℚ) ^ m) :
    floorLog2 q < m := by
  have h1 := (floorLog2_spec q hq).1
  have h2 : (2 : ℚ) ^ floorLog2 q < (2 : ℚ) ^ m := lt_of_le_of_lt h1 h
  exact (zpow_lt_zpow_iff_right₀ (by norm_num : (1 : ℚ) < 2)).mp h2

theorem le_floorLog2 (q : ℚ) (hq : q ≠ 0) (m : ℤ) (h : (2 : ℚ) ^ m ≤ |q|) :
    m ≤ floorLog2 q := by
  have h1 := (floorLog2_spec q hq).2
  have h2 : (2 : ℚ) ^ m < (2 : ℚ) ^ (floorLog2 q + 1) := lt_of_le_of_lt h h1
  have := (zpow_lt_zpow_iff_right₀ (by norm_num : (1 : ℚ) < 2)).mp h2
  omega

/-- A rational that is an integer multiple of the quantum of its binade is a value of the
format: rounding returns it. -/
theorem roundToFormat_of_multiple (p : Nat) (emin : ℤ) (q : ℚ) (hq : q ≠ 0)
    (m : ℤ) (h : q / (2 : ℚ) ^ (max (floorLog2 q - ((p : ℤ) - 1)) emin) = (m : ℚ)) :
    roundToFormat p emin q = q := by
  unfold roundToFormat
  simp only [if_neg hq]
  rw [h, roundHalfEven_intCast, ← h]
  have : (2 : ℚ) ^ (max (floorLog2 q - ((p : ℤ) - 1)) emin) ≠ 0 := by positivity
  field_simp

/-- Every integer of magnitude at most `2 ^ p` is a value of the format with `p` digits:
converting it is exact. -/
theorem roundToFormat_intCast (p : Nat) (hp : 1 ≤ p) (emin : ℤ) (hemin : emin ≤ 0) (z : ℤ)
    (hz : |z| ≤ 2 ^ p) : roundToFormat p emin (z : ℚ) = (z : ℚ) := by
  by_cases h0 : z = 0
  · subst h0
    simp [roundToFormat]
  have hq : (z : ℚ) ≠ 0 := by exact_mod_cast h0
  have habs : |(z : ℚ)| ≤ (2 : ℚ) ^ (p : ℤ) := by
    have : ((|z| : ℤ) : ℚ) ≤ ((2 ^ p : ℤ) : ℚ) := by exact_mod_cast hz
    rw [Int.cast_abs] at this
    rw [zpow_natCast]
    push_cast at this
    exact this
  have hlog : floorLog2 (z : ℚ) ≤ p := by
    have := floorLog2_lt (z : ℚ) hq ((p : ℤ) + 1)
      (lt_of_le_of_lt habs (zpow_lt_zpow_right₀ (by norm_num) (by omega)))
    omega
  by_cases hlt : floorLog2 (z : ℚ) ≤ (p : ℤ) - 1
  · -- the quantum is at most 1
    obtain ⟨n, hn⟩ : ∃ n : ℕ, max (floorLog2 (z : ℚ) - ((p : ℤ) - 1)) emin = -(n : ℤ) := by
      refine ⟨(-(max (floorLog2 (z : ℚ) - ((p : ℤ) - 1)) emin)).toNat, ?_⟩
      have : max (floorLog2 (z : ℚ) - ((p : ℤ) - 1)) emin ≤ 0 := by
        apply max_le <;> omega
      omega
    apply roundToFormat_of_multiple p emin (z : ℚ) hq (z * 2 ^ n)
    rw [hn, zpow_neg, zpow_natCast]
    push_cast
    field_simp
  · -- only `|z| = 2 ^ p` is left, with quantum 2
    have hp24 : floorLog2 (z : ℚ) = p := by omega
    have hge := (floorLog2_spec (z : ℚ) hq).1
    rw [hp24, zpow_natCast] at hge
    have hzabs : |z| = 2 ^ p := by
      have : ((2 ^ p : ℤ) : ℚ) ≤ ((|z| : ℤ) : ℚ) := by
        rw [Int.cast_abs]
        push_cast
        exact hge
      have : (2 ^ p : ℤ) ≤ |z| := by exact_mod_cast this
      omega
    have he : max (floorLog2 (z : ℚ) - ((p : ℤ) - 1)) emin = 1 := by
      rw [hp24]
      have : (p : ℤ) - ((p : ℤ) - 1) = 1 := by ring
      rw [this]
      exact max_eq_left (by omega)
    obtain ⟨k, hk⟩ : ∃ k : ℕ, p = k + 1 := ⟨p - 1, by omega⟩
    rcases abs_eq (by positivity : (0 : ℤ) ≤ 2 ^ p) |>.mp hzabs with h | h
    · apply roundToFormat_of_multiple p emin (z : ℚ) hq (2 ^ k)
      rw [he, h, hk]
      push_cast
      rw [pow_succ]
      field_simp
    · apply roundToFormat_of_multiple p emin (z : ℚ) hq (-2 ^ k)
      rw [he, h, hk]
      push_cast
      rw [pow_succ]
      field_simp

theorem roundDouble_natCast (n : ℕ) (hn : n ≤ 2 ^ 53) : roundDouble (n : ℚ) = (n : ℚ) := by
  have h := roundToFormat_intCast 53 (by norm_num) (-1074) (by norm_num) (n : ℤ)
    (by rw [abs_of_nonneg (by positivity)]; exact_mod_cast hn)
  simpa [roundDouble] using h

/-- The relative error of rounding a positive rational in the normal range of a format with
`p` digits is at most `2 ^ (-p)`. -/
theorem roundToFormat_sub_abs_le (p : Nat) (emin : ℤ) (q : ℚ) (hq : 0 < q)
    (hnorm : emin ≤ floorLog2 q - ((p : ℤ) - 1)) :
    |roundToFormat p emin q - q| ≤ q * (2 : ℚ) ^ (-(p : ℤ)) := by
  have hq0 : q ≠ 0 := ne_of_gt hq
  unfold roundToFormat
  simp only [if_neg hq0]
  rw [max_eq_left hnorm]
  set e : ℤ := floorLog2 q - ((p : ℤ) - 1) with he
  have hpos : (0 : ℚ) < (2 : ℚ) ^ e := by positivity
  have herr := roundHalfEven_sub_abs_le (q / (2 : ℚ) ^ e)
  have hrew : (roundHalfEven (q / (2 : ℚ) ^ e) : ℚ) * (2 : ℚ) ^ e - q
      = ((roundHalfEven (q / (2 : ℚ) ^ e) : ℚ) - q / (2 : ℚ) ^ e) * (2 : ℚ) ^ e := by
    field_simp
  rw [hrew, abs_mul, abs_of_pos hpos]
  have hlow := (floorLog2_spec q hq0).1
  rw [abs_of_pos hq] at hlow
  have hsplit : (2 : ℚ) ^ floorLog2 q = (2 : ℚ) ^ e * (2 : ℚ) ^ ((p : ℤ) - 1) := by
    rw [← zpow_add₀ (by norm_num : (2 : ℚ) ≠ 0)]
    congr 1
    omega
  have hp : (2 : ℚ) ^ (-(p : ℤ)) = 2⁻¹ * ((2 : ℚ) ^ ((p : ℤ) - 1))⁻¹ := by
    rw [← zpow_neg, ← zpow_neg_one, ← zpow_add₀ (by norm_num : (2 : ℚ) ≠ 0)]
    congr 1
    omega
  have hpp : (0 : ℚ) < (2 : ℚ) ^ ((p : ℤ) - 1) := by positivity
  calc |(roundHalfEven (q / (2 : ℚ) ^ e) : ℚ) - q / (2 : ℚ) ^ e| * (2 : ℚ) ^ e
      ≤ 1 / 2 * (2 : ℚ) ^ e := mul_le_mul_of_nonneg_right herr (le_of_lt hpos)
    _ = (2 : ℚ) ^ e * (2 : ℚ) ^ ((p : ℤ) - 1) * (2 : ℚ) ^ (-(p : ℤ)) := by
        rw [hp]
        field_simp
        ring
    _ ≤ q * (2 : ℚ) ^ (-(p : ℤ)) := by
        rw [← hsplit]
        exact mul_le_mul_of_nonneg_right hlow (by positivity)

theorem roundDouble_two_percent : roundDouble (2 / 100) = 5764607523034235 / 2 ^ 58 := by
  decide!

/-- The `double` product `0.02*rows*cols` is within the relative distance `2 ^ -51` of 2% of
`rows * cols`. -/
theorem ClassifyFrame.threshold_near (rows cols : Nat) :
    |MultiClassRandomForest.ClassifyFrame.threshold rows cols
        - (rows : ℚ) * (cols : ℚ) / 50|
      ≤ (rows : ℚ) * (cols : ℚ) / 50 * (1 / 2 ^ 51) := by
  unfold MultiClassRandomForest.ClassifyFrame.threshold
  rw [roundDouble_two_percent]
  rcases Nat.eq_zero_or_pos rows with hr | hr
  · subst hr
    simp [roundDouble, roundToFormat]
  rcases Nat.eq_zero_or_pos cols with hc | hc
  · subst hc
    simp [roundDouble, roundToFormat]
  have hrq : (1 : ℚ) ≤ (rows : ℚ) := by exact_mod_cast hr
  have hcq : (1 : ℚ) ≤ (cols : ℚ) := by exact_mod_cast hc
  set x1 : ℚ := 5764607523034235 / 2 ^ 58 * (rows : ℚ) with hx1
  have hx1low : (2 : ℚ) ^ (-6 : ℤ) ≤ x1 := by
    rw [hx1]
    have : (2 : ℚ) ^ (-6 : ℤ) ≤ 5764607523034235 / 2 ^ 58 := by norm_num
    nlinarith
  have hx1pos : 0 < x1 := lt_of_lt_of_le (by positivity) hx1low
  have hn1 : (-1074 : ℤ) ≤ floorLog2 x1 - (((53 : ℕ) : ℤ) - 1) := by
    have := le_floorLog2 x1 (ne_of_gt hx1pos) (-6) (by rwa [abs_of_pos hx1pos])
    omega
  have h1 := roundToFormat_sub_abs_le 53 (-1074) x1 hx1pos hn1
  rw [abs_le] at h1
  set t1 : ℚ := roundDouble x1 with ht1
  have ht1' : roundToFormat 53 (-1074) x1 = t1 := rfl
  rw [ht1'] at h1
  have hu : (2 : ℚ) ^ (-((53 : ℕ) : ℤ)) = 1 / 2 ^ 53 := by
    rw [zpow_neg, zpow_natCast]
    norm_num
  rw [hu] at h1
  have ht1low : (2 : ℚ) ^ (-7 : ℤ) ≤ t1 := by
    have : (2 : ℚ) ^ (-7 : ℤ) = 1 / 128 := by norm_num
    rw [this]
    have : (2 : ℚ) ^ (-6 : ℤ) = 1 / 64 := by norm_num
    rw [this] at hx1low
    linarith [h1.1]
  have ht1pos : 0 < t1 := lt_of_lt_of_le (by positivity) ht1low
  set x2 : ℚ := t1 * (cols : ℚ) with hx2
  have hx2low : (2 : ℚ) ^ (-7 : ℤ) ≤ x2 := by
    rw [hx2]
    nlinarith
  have hx2pos : 0 < x2 := lt_of_lt_of_le (by positivity) hx2low
  have hn2 : (-1074 : ℤ) ≤ floorLog2 x2 - (((53 : ℕ) : ℤ) - 1) := by
    have := le_floorLog2 x2 (ne_of_gt hx2pos) (-7) (by rwa [abs_of_pos hx2pos])
    omega
  have h2 := roundToFormat_sub_abs_le 53 (-1074) x2 hx2pos hn2
  rw [abs_le, hu] at h2
  set t2 : ℚ := roundDouble x2 with ht2
  have ht2' : roundToFormat 53 (-1074) x2 = t2 := rfl
  rw [ht2'] at h2
  set X : ℚ := (rows : ℚ) * (cols : ℚ) / 50 with hX
  have hXpos : 0 < X := by positivity
  have hx1X : x1 * (cols : ℚ) = X * (1 + 6 / 2 ^ 58) := by
    rw [hx1, hX]
    ring
  have hcpos : (0 : ℚ) < (cols : ℚ) := by linarith
  -- bounds on x2 in terms of X
  have hx2up : x2 ≤ X * (1 + 6 / 2 ^ 58) * (1 + 1 / 2 ^ 53) := by
    rw [hx2, ← hx1X]
    have : t1 ≤ x1 * (1 + 1 / 2 ^ 53) := by linarith [h1.2]
    calc t1 * (cols : ℚ) ≤ x1 * (1 + 1 / 2 ^ 53) * (cols : ℚ) :=
          mul_le_mul_of_nonneg_right this (le_of_lt hcpos)
      _ = x1 * (cols : ℚ) * (1 + 1 / 2 ^ 53) := by ring
  have hx2lo : X * (1 + 6 / 2 ^ 58) * (1 - 1 / 2 ^ 53) ≤ x2 := by
    rw [hx2, ← hx1X]
    have : x1 * (1 - 1 / 2 ^ 53) ≤ t1 := by linarith [h1.1]
    calc x1 * (cols : ℚ) * (1 - 1 / 2 ^ 53) = x1 * (1 - 1 / 2 ^ 53) * (cols : ℚ) := by ring
      _ ≤ t1 * (cols : ℚ) := mul_le_mul_of_nonneg_right this (le_of_lt hcpos)
  have ht2up : t2 ≤ X * (1 + 6 / 2 ^ 58) * (1 + 1 / 2 ^ 53) * (1 + 1 / 2 ^ 53) := by
    have : t2 ≤ x2 * (1 + 1 / 2 ^ 53) := by linarith [h2.2]
    exact le_trans this (mul_le_mul_of_nonneg_right hx2up (by norm_num))
  have ht2lo : X * (1 + 6 / 2 ^ 58) * (1 - 1 / 2 ^ 53) * (1 - 1 / 2 ^ 53) ≤ t2 := by
    have : x2 * (1 - 1 / 2 ^ 53) ≤ t2 := by linarith [h2.1]
    exact le_trans (mul_le_mul_of_nonneg_right hx2lo (by norm_num)) this
  have hk1 : X * (1 + 6 / 2 ^ 58) * (1 + 1 / 2 ^ 53) * (1 + 1 / 2 ^ 53)
      ≤ X + X * (1 / 2 ^ 51) := by
    have : (1 + 6 / 2 ^ 58 : ℚ) * (1 + 1 / 2 ^ 53) * (1 + 1 / 2 ^ 53) ≤ 1 + 1 / 2 ^ 51 := by
      norm_num
    calc X * (1 + 6 / 2 ^ 58) * (1 + 1 / 2 ^ 53) * (1 + 1 / 2 ^ 53)
        = X * ((1 + 6 / 2 ^ 58) * (1 + 1 / 2 ^ 53) * (1 + 1 / 2 ^ 53)) := by ring
      _ ≤ X * (1 + 1 / 2 ^ 51) := mul_le_mul_of_nonneg_left this (le_of_lt hXpos)
      _ = X + X * (1 / 2 ^ 51) := by ring
  have hk2 : X - X * (1 / 2 ^ 51)
      ≤ X * (1 + 6 / 2 ^ 58) * (1 - 1 / 2 ^ 53) * (1 - 1 / 2 ^ 53) := by
    have : (1 - 1 / 2 ^ 51 : ℚ) ≤ (1 + 6 / 2 ^ 58) * (1 - 1 / 2 ^ 53) * (1 - 1 / 2 ^ 53) := by
      norm_num
    calc X - X * (1 / 2 ^ 51) = X * (1 - 1 / 2 ^ 51) := by ring
      _ ≤ X * ((1 + 6 / 2 ^ 58) * (1 - 1 / 2 ^ 53) * (1 - 1 / 2 ^ 53)) :=
          mul_le_mul_of_nonneg_left this (le_of_lt hXpos)
      _ = X * (1 + 6 / 2 ^ 58) * (1 - 1 / 2 ^ 53) * (1 - 1 / 2 ^ 53) := by ring
  rw [abs_le]
  constructor <;> linarith


/-! ### The return value of `ClassifyFrame` -/

/-- The sample forest on the sample frame with a four-channel map: the call returns true. -/
theorem sampleFrame_four_channels_ok :
    (sampleForest.ClassifyFrame (some (sampleFrame 4))).1 = Except.ok true := by
  have hloops : MultiClassRandomForest.ClassifyFrame.pixelLoops sampleForest (sampleFrame 4)
      (sampleFrame 4).rows (sampleFrame 4).cols (sampleFrame 4).classification_map.channels
      ((sampleFrame 4).classification_map.data, 0) = some ([1 / 4, 3 / 4, 0, 0], 1) := by
    simp [MultiClassRandomForest.ClassifyFrame.pixelLoops,
      MultiClassRandomForest.ClassifyFrame.pixel,
      MultiClassRandomForest.ClassifyFrame.predictLoop,
      MultiClassRandomForest.ClassifyFrame.zeroLoop, writeFloat, sampleForest, sampleFrame,
      List.range_succ, List.range', List.replicate]
  rw [ClassifyFrame_valid sampleForest (sampleFrame 4) _ _ rfl (by decide) rfl hloops]
  have hcmp : MultiClassRandomForest.ClassifyFrame.threshold 1 1 < roundDouble 1 := by
    decide!
  simp [sampleFrame, hcmp]

/-- Witness for C21: after the call of the sample forest on the sample frame with a
four-channel map, the only pixel holds 1/4, 3/4, 0, 0. -/
theorem ClassifyFrame_map_contents_witness :
    ∃ frame2 : Frame,
      (sampleForest.ClassifyFrame (some (sampleFrame 4))).2 = some frame2 ∧
      frame2.classification_map.data.getD 0 0 = 1 / 4 ∧
      frame2.classification_map.data.getD 1 0 = 3 / 4 ∧
      frame2.classification_map.data.getD 2 0 = 0 ∧
      frame2.classification_map.data.getD 3 0 = 0 := by
  obtain ⟨frame2, hframe, _, hval⟩ :=
    ClassifyFrame_map_contents sampleForest (sampleFrame 4) true sampleFrame_four_channels_ok
  obtain ⟨hcls, hzero⟩ := hval 0 0 (by decide) (by decide)
  refine ⟨frame2, hframe, ?_, ?_, ?_, ?_⟩
  · have := hcls 0 (by decide)
    simpa [sampleFrame, sampleForest] using this
  · have := hcls 1 (by decide)
    simpa [sampleFrame, sampleForest] using this
  · have := hzero 2 (by decide) (by decide)
    simpa [sampleFrame] using this
  · have := hzero 3 (by decide) (by decide)
    simpa [sampleFrame] using this

/-- On a frame that meets the asserted image type, whose classification map is
single-precision float with at least `num_classes` and at least 4 channels and has a value
per channel for every pixel, the call returns the outcome of the `double` comparison of the
number of predicted pixels with `0.02*rows*cols`. -/
theorem ClassifyFrame.return_value (forest : MultiClassRandomForest) (frame : Frame)
    (htype : frame.roi_type = CV_8UC3)
    (hnc : forest.num_classes_ ≤ frame.classification_map.channels)
    (hdepth : frame.classification_map.depth = CV_32F)
    (hch : 4 ≤ frame.classification_map.channels)
    (hbuf : frame.rows * frame.cols * frame.classification_map.channels
      ≤ frame.classification_map.data.length) :
    (forest.ClassifyFrame (some frame)).1 =
      Except.ok (decide (roundDouble (predictedPixelCount forest frame : ℚ) >
        MultiClassRandomForest.ClassifyFrame.threshold frame.rows frame.cols)) := by
  obtain ⟨d2, n2, hl⟩ := ClassifyFrame.rows_exists forest frame frame.cols
    frame.classification_map.channels hnc frame.rows frame.classification_map.data 0 hbuf
  obtain ⟨_, _, _, hn⟩ := ClassifyFrame.rows_spec forest frame frame.cols
    frame.classification_map.channels hnc frame.rows _ 0 d2 n2 hl
  rw [ClassifyFrame_valid forest frame d2 n2 htype hnc hdepth hl, if_pos hch, hn, Nat.zero_add]
  rfl

/-- No more pixels are counted than the frame has. -/
theorem predictedPixelCount_le (forest : MultiClassRandomForest) (frame : Frame) :
    predictedPixelCount forest frame ≤ frame.rows * frame.cols := by
  unfold predictedPixelCount
  have h := List.sum_le_card_nsmul
    ((List.range frame.rows).map
      (fun r => ((List.range frame.cols).filter
        (fun c => predictsForeground forest frame r c)).length)) frame.cols
    (by
      intro x hx
      rw [List.mem_map] at hx
      obtain ⟨r, _, rfl⟩ := hx
      exact le_trans (List.length_filter_le _ _) (by rw [List.length_range]))
  rw [List.length_map, List.length_range, smul_eq_mul] at h
  exact h

/-- C22 (as stated, refuted): the stripe frame has 29 x 50 = 1450 pixels of which exactly 29,
those of column 0, have a non-zero predicted probability for the class 1.  29 is 2% of 1450,
not more, but the `double` product `0.02*29*50` is `28.999999999999996` and the call returns
true. -/
theorem ClassifyFrame_true_at_two_percent :
    (stripeForest.ClassifyFrame (some stripeFrame)).1 = Except.ok true ∧
    predictedPixelCount stripeForest stripeFrame = 29 ∧
    ¬ ((predictedPixelCount stripeForest stripeFrame : ℚ)
        > 2 / 100 * ((stripeFrame.rows * stripeFrame.cols : ℕ) : ℚ)) ∧
    MultiClassRandomForest.ClassifyFrame.threshold 29 50
      = 8162774324609023 / 2 ^ 48 := by
  have hcount : predictedPixelCount stripeForest stripeFrame = 29 := by
    decide!
  have hthr : MultiClassRandomForest.ClassifyFrame.threshold 29 50
      = 8162774324609023 / 2 ^ 48 := by
    decide!
  have hcmp : roundDouble ((29 : ℕ) : ℚ) >
      MultiClassRandomForest.ClassifyFrame.threshold 29 50 := by
    decide!
  refine ⟨?_, hcount, ?_, hthr⟩
  · rw [ClassifyFrame.return_value stripeForest stripeFrame rfl (by decide) rfl (by decide)
      (by
        show 29 * 50 * 4 ≤ (List.replicate (29 * 50 * 4) (0 : ℚ)).length
        rw [List.length_replicate]), hcount]
    simp only [stripeFrame]
    rw [decide_eq_true hcmp]
  · rw [hcount]
    simp only [stripeFrame]
    norm_num

/-- C22 (amended): on a non-null frame of fewer than `2 ^ 51` pixels that meets the asserted
image type, whose classification map is single-precision float with at least `num_classes`
and at least 4 channels and has a value per channel for every pixel of the image,
`ClassifyFrame` returns true if the number of pixels with a non-zero predicted probability
for at least one class `cls > 0` is strictly greater than the `double` value of
`0.02*rows*cols`, and false otherwise; that value differs from 2% of `rows * cols` by
less than 1/50, so whenever the number of such pixels is not exactly 2% of `rows * cols` the
call returns true if the number is strictly greater than 2% of `rows * cols` and false
otherwise. -/
theorem ClassifyFrame_returns (forest : MultiClassRandomForest) (frame : Frame)
    (htype : frame.roi_type = CV_8UC3)
    (hnc : forest.num_classes_ ≤ frame.classification_map.channels)
    (hdepth : frame.classification_map.depth = CV_32F)
    (hch : 4 ≤ frame.classification_map.channels)
    (hbuf : frame.rows * frame.cols * frame.classification_map.channels
      ≤ frame.classification_map.data.length)
    (hsize : frame.rows * frame.cols < 2 ^ 51) :
    (forest.ClassifyFrame (some frame)).1 =
      Except.ok (decide ((predictedPixelCount forest frame : ℚ) >
        MultiClassRandomForest.ClassifyFrame.threshold frame.rows frame.cols)) ∧
    |MultiClassRandomForest.ClassifyFrame.threshold frame.rows frame.cols
        - 2 / 100 * ((frame.rows * frame.cols : ℕ) : ℚ)| < 1 / 50 ∧
    (50 * predictedPixelCount forest frame ≠ frame.rows * frame.cols →
      (forest.ClassifyFrame (some frame)).1 =
        Except.ok (decide ((predictedPixelCount forest frame : ℚ)
          > 2 / 100 * ((frame.rows * frame.cols : ℕ) : ℚ)))) := by
  have hle := predictedPixelCount_le forest frame
  have hexact : roundDouble (predictedPixelCount forest frame : ℚ)
      = (predictedPixelCount forest frame : ℚ) :=
    roundDouble_natCast _ (by
      have : (2 : ℕ) ^ 51 ≤ 2 ^ 53 := by norm_num
      omega)
  have hret := ClassifyFrame.return_value forest frame htype hnc hdepth hch hbuf
  rw [hexact] at hret
  have hnear := ClassifyFrame.threshold_near frame.rows frame.cols
  have hX : (frame.rows : ℚ) * (frame.cols : ℚ) / 50
      = 2 / 100 * ((frame.rows * frame.cols : ℕ) : ℚ) := by
    push_cast
    ring
  rw [hX] at hnear
  have hsizeq : ((frame.rows * frame.cols : ℕ) : ℚ) < 2 ^ 51 := by exact_mod_cast hsize
  have hnn : (0 : ℚ) ≤ ((frame.rows * frame.cols : ℕ) : ℚ) := Nat.cast_nonneg _
  have hclose : |MultiClassRandomForest.ClassifyFrame.threshold frame.rows frame.cols
      - 2 / 100 * ((frame.rows * frame.cols : ℕ) : ℚ)| < 1 / 50 := by
    refine lt_of_le_of_lt hnear ?_
    have : 2 / 100 * ((frame.rows * frame.cols : ℕ) : ℚ) * (1 / 2 ^ 51)
        < 2 / 100 * (2 : ℚ) ^ 51 * (1 / 2 ^ 51) := by
      apply mul_lt_mul_of_pos_right _ (by positivity)
      exact mul_lt_mul_of_pos_left hsizeq (by norm_num)
    calc 2 / 100 * ((frame.rows * frame.cols : ℕ) : ℚ) * (1 / 2 ^ 51)
        < 2 / 100 * (2 : ℚ) ^ 51 * (1 / 2 ^ 51) := this
      _ = 1 / 50 := by norm_num
  refine ⟨hret, hclose, fun hne => ?_⟩
  rw [hret]
  congr 1
  rw [abs_lt] at hclose
  rw [decide_eq_decide]
  rcases Nat.lt_or_gt_of_ne hne with hlt | hgt
  · -- fewer than 2%: at least 1/50 below
    have h1 : 50 * predictedPixelCount forest frame + 1 ≤ frame.rows * frame.cols := hlt
    have h1q : (50 : ℚ) * (predictedPixelCount forest frame : ℚ) + 1
        ≤ ((frame.rows * frame.cols : ℕ) : ℚ) := by exact_mod_cast h1
    constructor
    · intro h
      linarith [hclose.1, hclose.2]
    · intro h
      linarith
  · have h1 : frame.rows * frame.cols + 1 ≤ 50 * predictedPixelCount forest frame := hgt
    have h1q : ((frame.rows * frame.cols : ℕ) : ℚ) + 1
        ≤ (50 : ℚ) * (predictedPixelCount forest frame : ℚ) := by exact_mod_cast h1
    constructor
    · intro _
      linarith
    · intro _
      linarith [hclose.1, hclose.2]

/-- Witness for C22: on the sample frame with a four-channel map the only pixel predicts
the foreground class, 1 pixel is more than 2% of 1 (and not exactly 2%), and the call returns
true. -/
theorem ClassifyFrame_returns_witness :
    (sampleForest.ClassifyFrame (some (sampleFrame 4))).1 = Except.ok true ∧
    predictedPixelCount sampleForest (sampleFrame 4) = 1 := by
  have hcount : predictedPixelCount sampleForest (sampleFrame 4) = 1 := by
    simp [predictedPixelCount, predictsForeground, sampleForest, sampleFrame, List.range_succ]
  have h := (ClassifyFrame_returns sampleForest (sampleFrame 4) rfl (by decide) rfl (by decide)
    (by decide) (by decide)).2.2 (by rw [hcount]; decide)
  rw [hcount] at h
  refine ⟨?_, hcount⟩
  rw [h]
  simp [sampleFrame]
  norm_num

/-! ### The two far tests of `ProcessSDFAndIntersectionImage` -/

theorem offsetSum_squares_nonneg (connected_region : List Vec2i) (com : Vec2i) :
    0 ≤ offsetSum connected_region com (fun dx dy => dx * dx + dy * dy) := by
  induction connected_region with
  | nil => simp [offsetSum]
  | cons pt rest ih =>
    rw [offsetSum_cons]
    nlinarith [mul_self_nonneg (pt 0 - com 0), mul_self_nonneg (pt 1 - com 1)]

end ttrk
